import Mathlib

/-!
Aeron subscriber-side `Image` (aeron-client/src/main/cpp/Image.h)

A shallow embedding of the read cursor over one publisher→subscriber stream.

Conventions of the embedding

* `std::int32_t` / `std::int64_t` values are `Int`; every arithmetic step that can leave
  the machine range is wrapped with `wrap32` / `wrap64` (two's complement), and
  `static_cast<std::int32_t>` is `wrap32`.
* The subscriber-position counter, the driver's end-of-stream word and the term buffers are
  fields of `Image`: the embedding passes the shared memory explicitly. During one call the
  term buffers are a fixed snapshot.
* User callbacks are state-passing functions: they get their own state, the payload offset
  and the payload length, and either return or throw. What is thrown is a `Thrown`: an
  exception derived from `std::exception`, which the `catch (const std::exception&)`
  clauses of the source catch and hand to `m_exceptionHandler`, or anything else, which
  leaves the call. `m_exceptionHandler` may throw as well; then the exception leaves the
  call too.
* Loops run on fuel; `none` means the fuel ran out before the loop left.
-/

namespace Aeron

/-! ## Machine integers -/

/-- Two's-complement reduction of an integer to `std::int32_t`. -/
def wrap32 (x : Int) : Int := (x + 2147483648) % 4294967296 - 2147483648

/-- Two's-complement reduction of an integer to `std::int64_t`. -/
def wrap64 (x : Int) : Int :=
  (x + 9223372036854775808) % 18446744073709551616 - 9223372036854775808

/-- Largest `std::int64_t`. -/
def INT64_MAX : Int := 9223372036854775807

/-- Smallest `std::int64_t`. -/
def INT64_MIN : Int := -9223372036854775808

/-! ## Collaborators that are not part of the excerpt -/

/-- Modelled from the spec: `FrameDescriptor::FRAME_ALIGNMENT` (FrameDescriptor.h is not in the
excerpt); the frame layout section fixes it to 32 bytes. -/
def FRAME_ALIGNMENT : Int := 32

/-- Modelled from the spec: `DataFrameHeader::LENGTH` (not in the excerpt); the fixed header
that precedes the payload is 32 bytes (payload offset 32 for the frame at offset 0). -/
def DataFrameHeader.LENGTH : Int := 32

/-- Modelled from the spec: `LogBufferDescriptor::PARTITION_COUNT` (not in the excerpt), the
number P of term partitions, 3. -/
def PARTITION_COUNT : Int := 3

/-- Modelled from the spec: the distinguished `PADDING` value of the frame type word
(FrameDescriptor.h is not in the excerpt). -/
def HDR_TYPE_PAD : Int := 0

/-- Modelled from the spec: the `END_FRAG` bit of the flags byte (FrameDescriptor.h is not in
the excerpt). -/
def END_FRAG : Int := 64

/-- Modelled from the spec: `util::BitUtil::align` (BitUtil.h is not in the excerpt): the value
rounded up to the next multiple of the alignment, as a `std::int32_t`. -/
def align (value alignment : Int) : Int :=
  wrap32 ((value + (alignment - 1)) / alignment * alignment)

/-- Modelled from the spec: `AtomicBuffer` over one term (AtomicBuffer.h is not in the excerpt),
seen through the accessors the Image uses: the capacity and, per frame offset, the length
word, the type word, the flags byte and the term id word of the frame header. -/
structure AtomicBuffer where
  capacity : Int
  lengthWord : Int → Int
  typeWord : Int → Int
  flagsByte : Int → Int
  termIdWord : Int → Int

/-- Modelled from the spec: `FrameDescriptor::frameLengthVolatile`, the acquire read of the
length word of the frame at `offset`. -/
def frameLengthVolatile (termBuffer : AtomicBuffer) (offset : Int) : Int :=
  termBuffer.lengthWord offset

/-- Modelled from the spec: `FrameDescriptor::isPaddingFrame`, type word == PADDING. -/
def isPaddingFrame (termBuffer : AtomicBuffer) (offset : Int) : Bool :=
  termBuffer.typeWord offset == HDR_TYPE_PAD

/-- Modelled from the spec: `LogBufferDescriptor::indexByPosition` (LogBufferDescriptor.h is not
in the excerpt): the term count `position >> bitsToShift` taken mod P. -/
def indexByPosition (position positionBitsToShift : Int) : Int :=
  (Int.shiftRight position positionBitsToShift.toNat) % PARTITION_COUNT

/-- The exceptions derived from `std::exception`, identified by their message. -/
structure StdException where
  what : String
  deriving DecidableEq, Repr

/-- What a callback can throw: an exception derived from `std::exception`, which
`catch (const std::exception&)` catches, or a value of any other type (as in `throw 42;`),
which no handler of `Image` catches. -/
inductive Thrown where
  | std : StdException → Thrown
  | other : Thrown
  deriving DecidableEq, Repr

/-- What a callback does: it returns a value or throws. -/
inductive Outcome (α : Type) where
  | ret : α → Outcome α
  | raise : Thrown → Outcome α
  deriving DecidableEq, Repr

/-- `enum class ControlledPollAction`. -/
inductive ControlledPollAction where
  | ABORT
  | BREAK
  | COMMIT
  | CONTINUE
  deriving DecidableEq, Repr

/-- `controlled_poll_fragment_handler_t`: own state, payload offset, payload length. -/
abbrev controlled_poll_fragment_handler_t (σ : Type) :=
  σ → Int → Int → Outcome ControlledPollAction × σ

/-- Modelled from the spec: `fragment_handler_t` (declared outside the excerpt),
`fragmentHandler(buffer, offset, length, header) → void`. -/
abbrev fragment_handler_t (σ : Type) := σ → Int → Int → Outcome Unit × σ

/-- Modelled from the spec: `block_handler_t` (declared outside the excerpt),
`blockHandler(buffer, offset, length, sessionId, termId) → void`. -/
abbrev block_handler_t (σ : Type) := σ → Int → Int → Int → Int → Outcome Unit × σ

/-! ## The Image -/

/-- The `Image` members the operations use, together with the shared memory they
read and write: `subscriberPosition` is the value held by the counter behind
`m_subscriberPosition`, `endOfStreamPosition` the metadata word
`LogBufferDescriptor::endOfStreamPosition`, `termBuffers` is `m_termBuffers`,
`exceptionHandler` is `m_exceptionHandler` (an `exception_handler_t`, which returns or
throws; one that always returns unless stated otherwise). -/
structure Image where
  termBuffers : Int → AtomicBuffer
  subscriberPosition : Int
  endOfStreamPosition : Int
  isClosed : Bool
  joinPosition : Int
  finalPosition : Int
  sessionId : Int
  termLengthMask : Int
  positionBitsToShift : Int
  isEos : Bool
  exceptionHandler : StdException → Outcome Unit := fun _ => Outcome.ret ()

/-- What a callback's outcome throws, if anything. -/
def thrownBy {α : Type} : Outcome α → Option Thrown
  | Outcome.raise t => some t
  | Outcome.ret _ => none

/-- The exceptions that `catch (const std::exception& ex) { m_exceptionHandler(ex); }` hands
to the error handler, given what left the `try` block. -/
def handedOver : Option Thrown → List StdException
  | some (Thrown.std ex) => [ex]
  | _ => []

/-- Whether an exception leaves the call, given what left the `try` block: a throw that
`catch (const std::exception&)` does not catch, or a throw of `m_exceptionHandler` from
inside the `catch` clause. -/
def Image.propagates (img : Image) : Option Thrown → Bool
  | none => false
  | some (Thrown.std ex) =>
    match img.exceptionHandler ex with
    | Outcome.ret _ => false
    | Outcome.raise _ => true
  | some Thrown.other => true

/-- What one polling call leaves behind: the returned value, the Image (with the counter),
the callback's state, the ordered counter writes in order, the callback invocations
(payload offset, payload length) in order, the exceptions handed to the error handler, and
whether an exception left the call (`propagated`; the call then returns nothing and
`result` is the local `result`, still 0). -/
structure PollResult (σ : Type) where
  result : Int
  image : Image
  handlerState : σ
  writes : List Int
  calls : List (Int × Int)
  errors : List StdException
  propagated : Bool := false

/-- `Image::position() const`. -/
def Image.position (img : Image) : Int :=
  if img.isClosed then img.finalPosition else img.subscriberPosition

/-- `Image::isEndOfStream`. -/
def Image.isEndOfStream (img : Image) : Bool :=
  if img.isClosed then img.isEos
  else decide (img.subscriberPosition ≥ img.endOfStreamPosition)

/-- `Image::close`. -/
def Image.close (img : Image) : Image :=
  if !img.isClosed then
    let finalPosition := img.subscriberPosition
    { img with
      finalPosition := finalPosition
      isEos := decide (finalPosition ≥ img.endOfStreamPosition)
      isClosed := true }
  else img

/-- The `limitPosition` computed by `Image::validatePosition`. -/
def Image.limitPosition (img : Image) : Int :=
  let position := img.subscriberPosition
  wrap64 (wrap64 (wrap64 (position - Int.land position img.termLengthMask)
    + img.termLengthMask) + 1)

/-- `Image::validatePosition`: `none` when the position is accepted, the raised
`util::IllegalArgumentException` otherwise. -/
def Image.validatePosition (img : Image) (newPosition : Int) : Option StdException :=
  let position := img.subscriberPosition
  let limitPosition := img.limitPosition
  if newPosition < position ∨ newPosition > limitPosition then
    some ⟨toString newPosition ++ " newPosition out of range " ++
      toString position ++ " - " ++ toString limitPosition⟩
  else if 0 ≠ Int.land newPosition (FRAME_ALIGNMENT - 1) then
    some ⟨toString newPosition ++ " newPosition not aligned to FRAME_ALIGNMENT"⟩
  else none

/-- Result of `Image::position(std::int64_t)`: the Image afterwards and the exception the
call raised, if any. -/
structure PositionResult where
  image : Image
  raised : Option StdException

/-- `Image::position(std::int64_t newPosition)`, the setter. -/
def Image.setPosition (img : Image) (newPosition : Int) : PositionResult :=
  if !img.isClosed then
    match img.validatePosition newPosition with
    | some ex => { image := img, raised := some ex }
    | none => { image := { img with subscriberPosition := newPosition }, raised := none }
  else { image := img, raised := none }

/-! ### controlledPoll and boundedControlledPoll -/

/-- The local variables of `Image::controlledPoll` / `Image::boundedControlledPoll` that
the scan loop updates, with the counter, the callback state and the traces. -/
structure ControlledPollState (σ : Type) where
  fragmentsRead : Int
  initialPosition : Int
  initialOffset : Int
  resultingOffset : Int
  subscriberPosition : Int
  handlerState : σ
  writes : List Int
  calls : List (Int × Int)

/-- The `while (fragmentsRead < fragmentLimit && resultingOffset < endOffset)` loop inside the
`try` block of `Image::controlledPoll` (where `endOffset` is `capacity`) and of
`Image::boundedControlledPoll`; the two loop bodies are the same text. The second component
is the exception that left the loop, if any. -/
def controlledPollLoop {σ : Type} (termBuffer : AtomicBuffer)
    (fragmentHandler : controlled_poll_fragment_handler_t σ) (fragmentLimit endOffset : Int) :
    Nat → ControlledPollState σ → Option (ControlledPollState σ × Option Thrown)
  | 0, _ => none
  | fuel + 1, st =>
    if st.fragmentsRead < fragmentLimit ∧ st.resultingOffset < endOffset then
      let length := frameLengthVolatile termBuffer st.resultingOffset
      if length ≤ 0 then some (st, none)
      else
        let frameOffset := st.resultingOffset
        let alignedLength := align length FRAME_ALIGNMENT
        let resultingOffset := wrap32 (st.resultingOffset + alignedLength)
        if isPaddingFrame termBuffer frameOffset then
          controlledPollLoop termBuffer fragmentHandler fragmentLimit endOffset fuel
            { st with resultingOffset := resultingOffset }
        else
          let payloadOffset := wrap32 (frameOffset + DataFrameHeader.LENGTH)
          let payloadLength := wrap32 (length - DataFrameHeader.LENGTH)
          let calls := st.calls ++ [(payloadOffset, payloadLength)]
          match fragmentHandler st.handlerState payloadOffset payloadLength with
          | (Outcome.raise ex, s) =>
            some ({ st with resultingOffset := resultingOffset, handlerState := s,
                            calls := calls }, some ex)
          | (Outcome.ret action, s) =>
            if action = ControlledPollAction.ABORT then
              some ({ st with resultingOffset := wrap32 (resultingOffset - alignedLength),
                              handlerState := s, calls := calls }, none)
            else
              -- ++fragmentsRead cannot overflow: fragmentsRead < fragmentLimit
              let fragmentsRead := st.fragmentsRead + 1
              if action = ControlledPollAction.BREAK then
                some ({ st with fragmentsRead := fragmentsRead, resultingOffset := resultingOffset,
                                handlerState := s, calls := calls }, none)
              else if action = ControlledPollAction.COMMIT then
                let initialPosition :=
                  wrap64 (st.initialPosition + wrap32 (resultingOffset - st.initialOffset))
                controlledPollLoop termBuffer fragmentHandler fragmentLimit endOffset fuel
                  { st with fragmentsRead := fragmentsRead, initialPosition := initialPosition,
                            initialOffset := resultingOffset, resultingOffset := resultingOffset,
                            subscriberPosition := initialPosition,
                            writes := st.writes ++ [initialPosition],
                            handlerState := s, calls := calls }
              else
                controlledPollLoop termBuffer fragmentHandler fragmentLimit endOffset fuel
                  { st with fragmentsRead := fragmentsRead, resultingOffset := resultingOffset,
                            handlerState := s, calls := calls }
    else some (st, none)

/-- The part of `Image::controlledPoll` / `Image::boundedControlledPoll` from the `catch`
clause on: a caught exception goes to `m_exceptionHandler`; when an exception leaves the
call nothing more happens (the counter keeps what the COMMITs wrote); otherwise the
trailing advance is published if it is positive and `fragmentsRead` is returned. -/
def controlledPollFinish {σ : Type} (img : Image)
    (out : ControlledPollState σ × Option Thrown) : PollResult σ :=
  let st := out.1
  if img.propagates out.2 then
    { result := 0
      image := { img with subscriberPosition := st.subscriberPosition }
      handlerState := st.handlerState
      writes := st.writes
      calls := st.calls
      errors := handedOver out.2
      propagated := true }
  else
    let resultingPosition :=
      wrap64 (st.initialPosition + wrap32 (st.resultingOffset - st.initialOffset))
    if resultingPosition > st.initialPosition then
      { result := st.fragmentsRead
        image := { img with subscriberPosition := resultingPosition }
        handlerState := st.handlerState
        writes := st.writes ++ [resultingPosition]
        calls := st.calls
        errors := handedOver out.2 }
    else
      { result := st.fragmentsRead
        image := { img with subscriberPosition := st.subscriberPosition }
        handlerState := st.handlerState
        writes := st.writes
        calls := st.calls
        errors := handedOver out.2 }

/-- `Image::controlledPoll`. -/
def Image.controlledPoll {σ : Type} (fuel : Nat) (img : Image)
    (fragmentHandler : controlled_poll_fragment_handler_t σ) (s : σ) (fragmentLimit : Int) :
    Option (PollResult σ) :=
  if !img.isClosed then
    let initialPosition := img.subscriberPosition
    let initialOffset := wrap32 (Int.land initialPosition img.termLengthMask)
    let index := indexByPosition initialPosition img.positionBitsToShift
    let termBuffer := img.termBuffers index
    let capacity := termBuffer.capacity
    (controlledPollLoop termBuffer fragmentHandler fragmentLimit capacity fuel
      { fragmentsRead := 0, initialPosition := initialPosition, initialOffset := initialOffset,
        resultingOffset := initialOffset, subscriberPosition := img.subscriberPosition,
        handlerState := s, writes := [], calls := [] }).map (controlledPollFinish img)
  else
    some { result := 0, image := img, handlerState := s, writes := [], calls := [], errors := [] }

/-- `Image::boundedControlledPoll`. -/
def Image.boundedControlledPoll {σ : Type} (fuel : Nat) (img : Image)
    (fragmentHandler : controlled_poll_fragment_handler_t σ) (s : σ)
    (maxPosition fragmentLimit : Int) : Option (PollResult σ) :=
  if !img.isClosed then
    let initialPosition := img.subscriberPosition
    let initialOffset := wrap32 (Int.land initialPosition img.termLengthMask)
    let index := indexByPosition initialPosition img.positionBitsToShift
    let termBuffer := img.termBuffers index
    let capacity := termBuffer.capacity
    let endOffset :=
      wrap32 (min capacity (wrap64 (wrap64 (maxPosition - initialPosition) + initialOffset)))
    (controlledPollLoop termBuffer fragmentHandler fragmentLimit endOffset fuel
      { fragmentsRead := 0, initialPosition := initialPosition, initialOffset := initialOffset,
        resultingOffset := initialOffset, subscriberPosition := img.subscriberPosition,
        handlerState := s, writes := [], calls := [] }).map (controlledPollFinish img)
  else
    some { result := 0, image := img, handlerState := s, writes := [], calls := [], errors := [] }

/-! ### poll -/

/-- Modelled from the spec: the running state of `TermReader::read` (TermReader.h is not in the
excerpt): the scan offset and the fragment count of the `ReadOutcome`, with the callback
state and the invocation trace. -/
structure ReadState (σ : Type) where
  offset : Int
  fragmentsRead : Int
  handlerState : σ
  calls : List (Int × Int)

/-- Modelled from the spec: the scan of `TermReader::read` (TermReader.h is not in the excerpt).
It scans forward while `fragmentsRead < fragmentLimit` and `offset < C`; a length ≤ 0 stops
the scan; the length is aligned and added to the offset; padding is skipped without callback;
otherwise the handler gets `(frameOffset + HDR, length - HDR)` and `fragmentsRead` is
incremented; an exception stops the scan at the frame that threw, whose aligned length has
already been added to the offset. -/
def TermReader.readLoop {σ : Type} (termBuffer : AtomicBuffer)
    (handler : fragment_handler_t σ) (fragmentLimit capacity : Int) :
    Nat → ReadState σ → Option (ReadState σ × Option Thrown)
  | 0, _ => none
  | fuel + 1, st =>
    if st.fragmentsRead < fragmentLimit ∧ st.offset < capacity then
      let length := frameLengthVolatile termBuffer st.offset
      if length ≤ 0 then some (st, none)
      else
        let frameOffset := st.offset
        let alignedLength := align length FRAME_ALIGNMENT
        let offset := wrap32 (st.offset + alignedLength)
        if isPaddingFrame termBuffer frameOffset then
          TermReader.readLoop termBuffer handler fragmentLimit capacity fuel
            { st with offset := offset }
        else
          let payloadOffset := wrap32 (frameOffset + DataFrameHeader.LENGTH)
          let payloadLength := wrap32 (length - DataFrameHeader.LENGTH)
          let calls := st.calls ++ [(payloadOffset, payloadLength)]
          match handler st.handlerState payloadOffset payloadLength with
          | (Outcome.raise ex, s) =>
            some ({ st with offset := offset, handlerState := s, calls := calls }, some ex)
          | (Outcome.ret _, s) =>
            TermReader.readLoop termBuffer handler fragmentLimit capacity fuel
              { offset := offset, fragmentsRead := st.fragmentsRead + 1,
                handlerState := s, calls := calls }
    else some (st, none)

/-- Modelled from the spec: `TermReader::read`, started at `termOffset` with no fragment
read. -/
def TermReader.read {σ : Type} (fuel : Nat) (termBuffer : AtomicBuffer) (termOffset : Int)
    (handler : fragment_handler_t σ) (s : σ) (fragmentLimit : Int) :
    Option (ReadState σ × Option Thrown) :=
  TermReader.readLoop termBuffer handler fragmentLimit termBuffer.capacity fuel
    { offset := termOffset, fragmentsRead := 0, handlerState := s, calls := [] }

/-- The part of `Image::poll` after `TermReader::read`. Modelled from the spec: what
`TermReader::read` does with an exception (TermReader.h is not in the excerpt): exceptions
thrown by the handler are caught and forwarded to `onError`. `Image::poll` passes
`m_exceptionHandler` as `onError`, an `exception_handler_t`, which takes a
`std::exception`: what `read` can forward is an exception derived from `std::exception`,
as in the `catch` clauses of `Image` itself. Anything else, and a throw of `onError`,
leaves `read` and with it `poll`, before the counter is written. -/
def pollFinish {σ : Type} (img : Image) (termOffset : Int)
    (out : ReadState σ × Option Thrown) : PollResult σ :=
  let readOutcome := out.1
  if img.propagates out.2 then
    { result := 0
      image := img
      handlerState := readOutcome.handlerState
      writes := []
      calls := readOutcome.calls
      errors := handedOver out.2
      propagated := true }
  else
    let position := img.subscriberPosition
    let newPosition := wrap64 (position + wrap32 (readOutcome.offset - termOffset))
    if newPosition > position then
      { result := readOutcome.fragmentsRead
        image := { img with subscriberPosition := newPosition }
        handlerState := readOutcome.handlerState
        writes := [newPosition]
        calls := readOutcome.calls
        errors := handedOver out.2 }
    else
      { result := readOutcome.fragmentsRead
        image := img
        handlerState := readOutcome.handlerState
        writes := []
        calls := readOutcome.calls
        errors := handedOver out.2 }

/-- `Image::poll`. -/
def Image.poll {σ : Type} (fuel : Nat) (img : Image) (fragmentHandler : fragment_handler_t σ)
    (s : σ) (fragmentLimit : Int) : Option (PollResult σ) :=
  if !img.isClosed then
    let position := img.subscriberPosition
    let termOffset := wrap32 (Int.land position img.termLengthMask)
    let index := indexByPosition position img.positionBitsToShift
    let termBuffer := img.termBuffers index
    (TermReader.read fuel termBuffer termOffset fragmentHandler s fragmentLimit).map
      (pollFinish img termOffset)
  else
    some { result := 0, image := img, handlerState := s, writes := [], calls := [], errors := [] }

/-! ### controlledPeek -/

/-- The local variables of `Image::controlledPeek` that the scan loop updates, with the
callback state and the invocation trace. -/
structure PeekState (σ : Type) where
  initialOffset : Int
  offset : Int
  position : Int
  resultingPosition : Int
  handlerState : σ
  calls : List (Int × Int)

/-- The `while (position < limitPosition && offset < capacity)` loop inside the `try` block
of `Image::controlledPeek`. `m_header.flags()` is the flags byte of the frame at
`frameOffset`, where `m_header.offset(frameOffset)` has put the header. -/
def controlledPeekLoop {σ : Type} (termBuffer : AtomicBuffer)
    (fragmentHandler : controlled_poll_fragment_handler_t σ) (limitPosition capacity : Int) :
    Nat → PeekState σ → Option (PeekState σ × Option Thrown)
  | 0, _ => none
  | fuel + 1, st =>
    if st.position < limitPosition ∧ st.offset < capacity then
      let length := frameLengthVolatile termBuffer st.offset
      if length ≤ 0 then some (st, none)
      else
        let frameOffset := st.offset
        let alignedLength := align length FRAME_ALIGNMENT
        let offset := wrap32 (st.offset + alignedLength)
        if isPaddingFrame termBuffer frameOffset then
          let position := wrap64 (st.position + wrap32 (offset - st.initialOffset))
          controlledPeekLoop termBuffer fragmentHandler limitPosition capacity fuel
            { st with offset := offset, position := position, initialOffset := offset,
                      resultingPosition := position }
        else
          let payloadOffset := wrap32 (frameOffset + DataFrameHeader.LENGTH)
          let payloadLength := wrap32 (length - DataFrameHeader.LENGTH)
          let calls := st.calls ++ [(payloadOffset, payloadLength)]
          match fragmentHandler st.handlerState payloadOffset payloadLength with
          | (Outcome.raise ex, s) =>
            some ({ st with offset := offset, handlerState := s, calls := calls }, some ex)
          | (Outcome.ret action, s) =>
            if action = ControlledPollAction.ABORT then
              some ({ st with offset := offset, handlerState := s, calls := calls }, none)
            else
              let position := wrap64 (st.position + wrap32 (offset - st.initialOffset))
              let resultingPosition :=
                if Int.land (termBuffer.flagsByte frameOffset) END_FRAG ≠ 0 then position
                else st.resultingPosition
              if action = ControlledPollAction.BREAK then
                some ({ initialOffset := offset, offset := offset, position := position,
                        resultingPosition := resultingPosition, handlerState := s,
                        calls := calls }, none)
              else
                controlledPeekLoop termBuffer fragmentHandler limitPosition capacity fuel
                  { initialOffset := offset, offset := offset, position := position,
                    resultingPosition := resultingPosition, handlerState := s, calls := calls }
    else some (st, none)

/-- What `Image::controlledPeek` leaves behind: the returned position (when nothing was
raised), the exception raised to the caller by the validation, the Image, the callback
state, the invocation trace, the exceptions handed to the error handler, and whether an
exception of the callback or of the error handler left the call (`propagated`; the call
then returns nothing). -/
structure PeekResult (σ : Type) where
  resultingPosition : Int
  raised : Option StdException
  image : Image
  handlerState : σ
  calls : List (Int × Int)
  errors : List StdException
  propagated : Bool := false

/-- `Image::controlledPeek`. -/
def Image.controlledPeek {σ : Type} (fuel : Nat) (img : Image) (initialPosition : Int)
    (fragmentHandler : controlled_poll_fragment_handler_t σ) (s : σ) (limitPosition : Int) :
    Option (PeekResult σ) :=
  if !img.isClosed then
    match img.validatePosition initialPosition with
    | some ex =>
      some { resultingPosition := initialPosition, raised := some ex, image := img,
             handlerState := s, calls := [], errors := [] }
    | none =>
      let initialOffset := wrap32 (Int.land initialPosition img.termLengthMask)
      let index := indexByPosition initialPosition img.positionBitsToShift
      let termBuffer := img.termBuffers index
      let capacity := termBuffer.capacity
      (controlledPeekLoop termBuffer fragmentHandler limitPosition capacity fuel
        { initialOffset := initialOffset, offset := initialOffset, position := initialPosition,
          resultingPosition := initialPosition, handlerState := s, calls := [] }).map
        fun out =>
          { resultingPosition := out.1.resultingPosition, raised := none, image := img,
            handlerState := out.1.handlerState, calls := out.1.calls,
            errors := handedOver out.2, propagated := img.propagates out.2 }
  else
    some { resultingPosition := initialPosition, raised := none, image := img,
           handlerState := s, calls := [], errors := [] }

/-! ### blockPoll -/

/-- Modelled from the spec: `DataFrameHeader::TERM_ID_FIELD_OFFSET` is folded into the
`termIdWord` accessor; `termBuffer.getInt32(termOffset + TERM_ID_FIELD_OFFSET)` is the term
id word of the frame at `termOffset`. -/
def termIdAt (termBuffer : AtomicBuffer) (termOffset : Int) : Int :=
  termBuffer.termIdWord termOffset

/-- Modelled from the spec: the walk of `TermBlockScanner::scan` (TermBlockScanner.h is not in
the excerpt). An unpublished frame (length ≤ 0) ends the walk at the current offset; a
padding frame ends it, and is the block when it is the first frame seen; a frame is
accumulated while `offset + alignedLength ≤ limitOffset`. -/
def TermBlockScanner.scanLoop (termBuffer : AtomicBuffer) (termOffset limitOffset : Int) :
    Nat → Int → Option Int
  | 0, _ => none
  | fuel + 1, offset =>
    let frameLength := frameLengthVolatile termBuffer offset
    if frameLength ≤ 0 then some offset
    else
      let alignedFrameLength := align frameLength FRAME_ALIGNMENT
      if isPaddingFrame termBuffer offset then
        if termOffset = offset then some (wrap32 (offset + alignedFrameLength))
        else some offset
      else if wrap32 (offset + alignedFrameLength) > limitOffset then some offset
      else
        TermBlockScanner.scanLoop termBuffer termOffset limitOffset fuel
          (wrap32 (offset + alignedFrameLength))

/-- Modelled from the spec: `TermBlockScanner::scan(termBuffer, termOffset, limitOffset)`. -/
def TermBlockScanner.scan (fuel : Nat) (termBuffer : AtomicBuffer)
    (termOffset limitOffset : Int) : Option Int :=
  TermBlockScanner.scanLoop termBuffer termOffset limitOffset fuel termOffset

/-- What `Image::blockPoll` leaves behind; a block handler invocation is recorded as
(offset, length, sessionId, termId); `propagated` says whether an exception left the call
(the call then returns nothing and `result` is the local `result`, still 0). -/
structure BlockPollResult (σ : Type) where
  result : Int
  image : Image
  handlerState : σ
  writes : List Int
  calls : List (Int × Int × Int × Int)
  errors : List StdException
  propagated : Bool := false

/-- `Image::blockPoll`. -/
def Image.blockPoll {σ : Type} (fuel : Nat) (img : Image) (blockHandler : block_handler_t σ)
    (s : σ) (blockLengthLimit : Int) : Option (BlockPollResult σ) :=
  if !img.isClosed then
    let position := img.subscriberPosition
    let termOffset := wrap32 (Int.land position img.termLengthMask)
    let index := indexByPosition position img.positionBitsToShift
    let termBuffer := img.termBuffers index
    let limitOffset := min (wrap32 (termOffset + blockLengthLimit)) termBuffer.capacity
    (TermBlockScanner.scan fuel termBuffer termOffset limitOffset).map fun resultingOffset =>
      let length := wrap32 (resultingOffset - termOffset)
      if resultingOffset > termOffset then
        let termId := termIdAt termBuffer termOffset
        let out := blockHandler s termOffset length img.sessionId termId
        let thrown := thrownBy out.1
        if img.propagates thrown then
          { result := 0, image := img, handlerState := out.2, writes := [],
            calls := [(termOffset, length, img.sessionId, termId)],
            errors := handedOver thrown, propagated := true }
        else
          let newPosition := wrap64 (position + length)
          { result := length
            image := { img with subscriberPosition := newPosition }
            handlerState := out.2
            writes := [newPosition]
            calls := [(termOffset, length, img.sessionId, termId)]
            errors := handedOver thrown }
      else
        { result := length, image := img, handlerState := s, writes := [], calls := [],
          errors := [] }
  else
    some { result := 0, image := img, handlerState := s, writes := [], calls := [], errors := [] }

/-! ## Histories of calls -/

/-- One step in the life of an Image: a call of one of its operations by the client, or a
change made by another party to the shared memory (the counter, the driver's end-of-stream
word, the term buffers). -/
inductive Op (σ : Type) where
  | poll (fuel : Nat) (handler : fragment_handler_t σ) (fragmentLimit : Int)
  | controlledPoll (fuel : Nat) (handler : controlled_poll_fragment_handler_t σ)
      (fragmentLimit : Int)
  | boundedControlledPoll (fuel : Nat) (handler : controlled_poll_fragment_handler_t σ)
      (maxPosition fragmentLimit : Int)
  | controlledPeek (fuel : Nat) (initialPosition : Int)
      (handler : controlled_poll_fragment_handler_t σ) (limitPosition : Int)
  | blockPoll (fuel : Nat) (handler : block_handler_t σ) (blockLengthLimit : Int)
  | setPosition (newPosition : Int)
  | close
  | counterChanged (value : Int)
  | endOfStreamChanged (value : Int)
  | logChanged (termBuffers : Int → AtomicBuffer)

/-- The Image and the callbacks' state after one step; `none` when a scan ran out of fuel.
An exception raised to the caller leaves the Image as the call left it. -/
def Op.apply {σ : Type} : Op σ → Image × σ → Option (Image × σ)
  | Op.poll fuel handler fragmentLimit, (img, s) =>
    (img.poll fuel handler s fragmentLimit).map fun r => (r.image, r.handlerState)
  | Op.controlledPoll fuel handler fragmentLimit, (img, s) =>
    (img.controlledPoll fuel handler s fragmentLimit).map fun r => (r.image, r.handlerState)
  | Op.boundedControlledPoll fuel handler maxPosition fragmentLimit, (img, s) =>
    (img.boundedControlledPoll fuel handler s maxPosition fragmentLimit).map
      fun r => (r.image, r.handlerState)
  | Op.controlledPeek fuel initialPosition handler limitPosition, (img, s) =>
    (img.controlledPeek fuel initialPosition handler s limitPosition).map
      fun r => (r.image, r.handlerState)
  | Op.blockPoll fuel handler blockLengthLimit, (img, s) =>
    (img.blockPoll fuel handler s blockLengthLimit).map fun r => (r.image, r.handlerState)
  | Op.setPosition newPosition, (img, s) => some ((img.setPosition newPosition).image, s)
  | Op.close, (img, s) => some (img.close, s)
  | Op.counterChanged value, (img, s) => some ({ img with subscriberPosition := value }, s)
  | Op.endOfStreamChanged value, (img, s) => some ({ img with endOfStreamPosition := value }, s)
  | Op.logChanged termBuffers, (img, s) => some ({ img with termBuffers := termBuffers }, s)

/-- A history of steps, run from left to right. -/
def runOps {σ : Type} : List (Op σ) → Image × σ → Option (Image × σ)
  | [], w => some w
  | op :: ops, w =>
    match op.apply w with
    | none => none
    | some w1 => runOps ops w1

/-! ## Vocabulary of the statements -/

/-- The term buffer the current subscriber position selects. -/
def Image.termBuffer (img : Image) : AtomicBuffer :=
  img.termBuffers (indexByPosition img.subscriberPosition img.positionBitsToShift)

/-- The term offset of the current subscriber position,
`static_cast<std::int32_t>(position & m_termLengthMask)`. -/
def Image.termOffset (img : Image) : Int :=
  wrap32 (Int.land img.subscriberPosition img.termLengthMask)

/-- What the constructor establishes for a log whose term capacity is `2 ^ k`:
`m_termLengthMask = capacity - 1`, `m_positionBitsToShift = log2 capacity`, and all term
buffers have that capacity. A `std::int32_t` power of two is at most `2 ^ 30`. -/
structure Image.Geometry (img : Image) (k : Nat) : Prop where
  k_le : k ≤ 30
  mask : img.termLengthMask = 2 ^ k - 1
  bits : img.positionBitsToShift = k
  capacity : ∀ i, (img.termBuffers i).capacity = 2 ^ k

/-- The counter holds a `std::int64_t` whose term ends at a `std::int64_t`: no position
inside the current term overflows. -/
def Image.PositionFits (img : Image) : Prop :=
  INT64_MIN ≤ img.subscriberPosition ∧
  (img.subscriberPosition - Int.land img.subscriberPosition img.termLengthMask)
    + img.termLengthMask + 1 ≤ INT64_MAX

/-- A published frame as a scan sees it: its length word and whether its type is PADDING. -/
structure FrameDesc where
  length : Int
  padding : Bool
  deriving DecidableEq, Repr

/-- The length of a frame rounded up to `FRAME_ALIGNMENT`, in unbounded arithmetic. -/
def alignedLength (length : Int) : Int :=
  (length + (FRAME_ALIGNMENT - 1)) / FRAME_ALIGNMENT * FRAME_ALIGNMENT

/-- The frames `fs` lie back to back in the term from `offset` on: each is published
(length > 0), has the stated type, and ends inside the term. -/
def FramesAt (termBuffer : AtomicBuffer) : Int → List FrameDesc → Prop
  | _, [] => True
  | offset, f :: fs =>
    frameLengthVolatile termBuffer offset = f.length ∧
    isPaddingFrame termBuffer offset = f.padding ∧
    0 < f.length ∧
    offset + alignedLength f.length ≤ termBuffer.capacity ∧
    FramesAt termBuffer (offset + alignedLength f.length) fs

/-- Nothing is published at `offset`: the term ends there or the length word is ≤ 0. -/
def Unpublished (termBuffer : AtomicBuffer) (offset : Int) : Prop :=
  termBuffer.capacity ≤ offset ∨ frameLengthVolatile termBuffer offset ≤ 0

/-- Sum of the aligned lengths of the frames. -/
def framesLength : List FrameDesc → Int
  | [] => 0
  | f :: fs => alignedLength f.length + framesLength fs

/-- Number of non-padding frames. -/
def dataCount : List FrameDesc → Nat
  | [] => 0
  | f :: fs => (if f.padding then 0 else 1) + dataCount fs

/-- The (payload offset, payload length) of the non-padding frames among `fs` laid out from
`offset`: frame offset + header length, frame length - header length. -/
def payloads : Int → List FrameDesc → List (Int × Int)
  | _, [] => []
  | offset, f :: fs =>
    if f.padding then payloads (offset + alignedLength f.length) fs
    else (offset + DataFrameHeader.LENGTH, f.length - DataFrameHeader.LENGTH) ::
      payloads (offset + alignedLength f.length) fs

/-- The positions of the ends of the frames `fs` laid out from stream position `position`. -/
def endPositions : Int → List FrameDesc → List Int
  | _, [] => []
  | position, f :: fs =>
    (position + alignedLength f.length) :: endPositions (position + alignedLength f.length) fs

/-- Called from state `s` on the successive `calls`, the callback answers with the
successive `answers`. -/
def Answers {σ α : Type} (handler : σ → Int → Int → Outcome α × σ) :
    σ → List (Int × Int) → List (Outcome α) → Prop
  | _, [], [] => True
  | s, c :: cs, a :: as => (handler s c.1 c.2).1 = a ∧ Answers handler (handler s c.1 c.2).2 cs as
  | _, _, _ => False

/-- The callback's state after the successive `calls` from state `s`. -/
def stateAfter {σ α : Type} (handler : σ → Int → Int → Outcome α × σ) : σ → List (Int × Int) → σ
  | s, [] => s
  | s, c :: cs => stateAfter handler (handler s c.1 c.2).2 cs

/-- The controlled handler that does what the plain fragment handler does and returns
CONTINUE for every frame. -/
def continueAfter {σ : Type} (handler : fragment_handler_t σ) :
    controlled_poll_fragment_handler_t σ :=
  fun s offset length =>
    match handler s offset length with
    | (Outcome.ret _, s1) => (Outcome.ret ControlledPollAction.CONTINUE, s1)
    | (Outcome.raise ex, s1) => (Outcome.raise ex, s1)

/-- The fragment count stays below the limit in front of each of the frames `fs`, when
`fragmentsRead` fragments were read before them. -/
def WithinLimit (fragmentLimit : Int) : Int → List FrameDesc → Prop
  | _, [] => True
  | fragmentsRead, f :: fs =>
    fragmentsRead < fragmentLimit ∧
    WithinLimit fragmentLimit (if f.padding then fragmentsRead else fragmentsRead + 1) fs

/-- The state of the controlled scan once it has passed the frames `fs`, the handler having
answered the non-padding ones with the successive `answers`, each CONTINUE or COMMIT;
in unbounded arithmetic. -/
def afterFrames {σ : Type} (handler : controlled_poll_fragment_handler_t σ) :
    ControlledPollState σ → List FrameDesc → List ControlledPollAction → ControlledPollState σ
  | st, [], _ => st
  | st, f :: fs, answers =>
    let resultingOffset := st.resultingOffset + alignedLength f.length
    if f.padding then afterFrames handler { st with resultingOffset := resultingOffset } fs answers
    else
      match answers with
      | [] => st
      | a :: rest =>
        let payloadOffset := st.resultingOffset + DataFrameHeader.LENGTH
        let payloadLength := f.length - DataFrameHeader.LENGTH
        let s := (handler st.handlerState payloadOffset payloadLength).2
        let calls := st.calls ++ [(payloadOffset, payloadLength)]
        if a = ControlledPollAction.COMMIT then
          let initialPosition := st.initialPosition + (resultingOffset - st.initialOffset)
          afterFrames handler
            { fragmentsRead := st.fragmentsRead + 1, initialPosition := initialPosition,
              initialOffset := resultingOffset, resultingOffset := resultingOffset,
              subscriberPosition := initialPosition, handlerState := s,
              writes := st.writes ++ [initialPosition], calls := calls } fs rest
        else
          afterFrames handler
            { st with fragmentsRead := st.fragmentsRead + 1, resultingOffset := resultingOffset,
                      handlerState := s, calls := calls } fs rest

/-- Every length word inside the term is at most the term capacity. -/
def LengthsBounded (termBuffer : AtomicBuffer) : Prop :=
  ∀ offset, 0 ≤ offset → offset < termBuffer.capacity →
    frameLengthVolatile termBuffer offset ≤ termBuffer.capacity

/-- The state in which `Image::controlledPoll` enters its scan loop. -/
def Image.scanStart {σ : Type} (img : Image) (s : σ) : ControlledPollState σ :=
  { fragmentsRead := 0, initialPosition := img.subscriberPosition,
    initialOffset := img.termOffset, resultingOffset := img.termOffset,
    subscriberPosition := img.subscriberPosition, handlerState := s, writes := [], calls := [] }

/-- The scan bound `endOffset` that `Image::boundedControlledPoll` computes from
`maxPosition`. -/
def Image.endOffset (img : Image) (maxPosition : Int) : Int :=
  wrap32 (min img.termBuffer.capacity
    (wrap64 (wrap64 (maxPosition - img.subscriberPosition) + img.termOffset)))

/-- The state the controlled scan is in after the handler's outcome on the data frame at
`st.resultingOffset`: the branches of the loop body after the handler call. -/
def handledState {σ : Type} (termBuffer : AtomicBuffer) (st : ControlledPollState σ)
    (out : Outcome ControlledPollAction) (s : σ) : ControlledPollState σ :=
  let length := frameLengthVolatile termBuffer st.resultingOffset
  let alignedLength := align length FRAME_ALIGNMENT
  let resultingOffset := wrap32 (st.resultingOffset + alignedLength)
  let calls := st.calls ++ [(wrap32 (st.resultingOffset + DataFrameHeader.LENGTH),
    wrap32 (length - DataFrameHeader.LENGTH))]
  match out with
  | Outcome.raise _ =>
    { st with resultingOffset := resultingOffset, handlerState := s, calls := calls }
  | Outcome.ret ControlledPollAction.ABORT =>
    { st with resultingOffset := wrap32 (resultingOffset - alignedLength),
              handlerState := s, calls := calls }
  | Outcome.ret ControlledPollAction.BREAK =>
    { st with fragmentsRead := st.fragmentsRead + 1, resultingOffset := resultingOffset,
              handlerState := s, calls := calls }
  | Outcome.ret ControlledPollAction.COMMIT =>
    { fragmentsRead := st.fragmentsRead + 1,
      initialPosition :=
        wrap64 (st.initialPosition + wrap32 (resultingOffset - st.initialOffset)),
      initialOffset := resultingOffset, resultingOffset := resultingOffset,
      subscriberPosition :=
        wrap64 (st.initialPosition + wrap32 (resultingOffset - st.initialOffset)),
      handlerState := s,
      writes := st.writes ++
        [wrap64 (st.initialPosition + wrap32 (resultingOffset - st.initialOffset))],
      calls := calls }
  | Outcome.ret ControlledPollAction.CONTINUE =>
    { st with fragmentsRead := st.fragmentsRead + 1, resultingOffset := resultingOffset,
              handlerState := s, calls := calls }

/-- One turn of the controlled scan loop that scans a frame: from `st` the loop body, having
passed the loop condition and read a positive length, leaves the state `st1`. -/
inductive ControlledTurn {σ : Type} (termBuffer : AtomicBuffer)
    (fragmentHandler : controlled_poll_fragment_handler_t σ) (fragmentLimit endOffset : Int) :
    ControlledPollState σ → ControlledPollState σ → Prop where
  | padding (st : ControlledPollState σ) :
    st.fragmentsRead < fragmentLimit → st.resultingOffset < endOffset →
    0 < frameLengthVolatile termBuffer st.resultingOffset →
    isPaddingFrame termBuffer st.resultingOffset = true →
    ControlledTurn termBuffer fragmentHandler fragmentLimit endOffset st
      { st with resultingOffset := wrap32 (st.resultingOffset +
          align (frameLengthVolatile termBuffer st.resultingOffset) FRAME_ALIGNMENT) }
  | handled (st : ControlledPollState σ) (out : Outcome ControlledPollAction) (s : σ) :
    st.fragmentsRead < fragmentLimit → st.resultingOffset < endOffset →
    0 < frameLengthVolatile termBuffer st.resultingOffset →
    isPaddingFrame termBuffer st.resultingOffset = false →
    fragmentHandler st.handlerState
      (wrap32 (st.resultingOffset + DataFrameHeader.LENGTH))
      (wrap32 (frameLengthVolatile termBuffer st.resultingOffset - DataFrameHeader.LENGTH))
      = (out, s) →
    ControlledTurn termBuffer fragmentHandler fragmentLimit endOffset st
      (handledState termBuffer st out s)

/-- Each of the successive counter writes `writes` is at least the value the counter held
just before it, the counter holding `position` before the first. -/
def NonDecreasingFrom : Int → List Int → Prop
  | _, [] => True
  | position, w :: ws => position ≤ w ∧ NonDecreasingFrom w ws

/-- The value the counter holds after the successive ordered writes `writes`, when it held
`position` before them. -/
def counterAfter : Int → List Int → Int
  | position, [] => position
  | _, w :: ws => counterAfter w ws

/-- Every value the controlled scan has written is frame-aligned, and so is what it can
write next: the pending advance and the last committed position are multiples of 32. -/
def WritesAligned {σ : Type} (st : ControlledPollState σ) : Prop :=
  (st.resultingOffset - st.initialOffset) % 32 = 0 ∧ st.initialPosition % 32 = 0 ∧
  ∀ w ∈ st.writes, w % 32 = 0

/-- What the controlled scan keeps on a log whose length words do not exceed the term
capacity, when the counter held `start` at the call and `base` is the position of the
start of the term: offsets stay `std::int32_t`, the committed position is `base` plus the
committed offset and is what the counter holds, and the writes so far never went down. -/
structure ScanInRange {σ : Type} (start base : Int) (st : ControlledPollState σ) : Prop where
  initialOffset_nonneg : 0 ≤ st.initialOffset
  initialOffset_le : st.initialOffset ≤ st.resultingOffset
  resultingOffset_le : st.resultingOffset ≤ 2147483647
  base_eq : st.initialPosition - st.initialOffset = base
  counter_eq : st.subscriberPosition = st.initialPosition
  ordered : NonDecreasingFrom start st.writes
  last_write : counterAfter start st.writes = st.subscriberPosition

/-- The starts of the published frames that lie back to back from `start` inside the term:
`start` itself, and the end (in unbounded arithmetic) of each published frame (positive
length word) that starts at such an offset below the capacity. These are the offsets at which a
scan that begins at `start` can read a frame length. -/
inductive FrameStart (termBuffer : AtomicBuffer) (start : Int) : Int → Prop where
  | first : FrameStart termBuffer start start
  | next (offset : Int) : FrameStart termBuffer start offset →
    offset < termBuffer.capacity → 0 < frameLengthVolatile termBuffer offset →
    FrameStart termBuffer start
      (offset + alignedLength (frameLengthVolatile termBuffer offset))

/-- The published frames from `start` on have length words at most the term capacity;
nothing is asked of the words inside the frames. -/
def PublishedBounded (termBuffer : AtomicBuffer) (start : Int) : Prop :=
  ∀ offset, FrameStart termBuffer start offset → offset < termBuffer.capacity →
    frameLengthVolatile termBuffer offset ≤ termBuffer.capacity

/-- The offset is within the bound, or it is the end of a published frame that starts at a
frame start below the bound. -/
def EndsFrameBelow (termBuffer : AtomicBuffer) (start endOffset offset : Int) : Prop :=
  offset ≤ endOffset ∨
  ∃ frameOffset, FrameStart termBuffer start frameOffset ∧ 0 ≤ frameOffset ∧
    frameOffset < endOffset ∧ 0 < frameLengthVolatile termBuffer frameOffset ∧
    offset = frameOffset + alignedLength (frameLengthVolatile termBuffer frameOffset)

/-- What the controlled scan keeps when the published frames from the scan start
`startOffset` have length words at most the capacity: `ScanInRange`, the scan offset is a
frame start and is within the bound or ends a frame that starts below it, and the committed
offset is within the bound or is the scan offset. -/
structure ScanOnFrames {σ : Type} (termBuffer : AtomicBuffer)
    (endOffset start base startOffset : Int) (st : ControlledPollState σ) : Prop where
  inRange : ScanInRange start base st
  frameStart : FrameStart termBuffer startOffset st.resultingOffset
  below : EndsFrameBelow termBuffer startOffset endOffset st.resultingOffset
  committed : st.initialOffset ≤ endOffset ∨ st.initialOffset = st.resultingOffset

/-! ### Vocabulary of the peek -/

/-- The term buffer that `position` selects. -/
def Image.termBufferAt (img : Image) (position : Int) : AtomicBuffer :=
  img.termBuffers (indexByPosition position img.positionBitsToShift)

/-- The term offset of `position`, `static_cast<std::int32_t>(position & m_termLengthMask)`. -/
def Image.termOffsetAt (img : Image) (position : Int) : Int :=
  wrap32 (Int.land position img.termLengthMask)

/-- The state in which `Image::controlledPeek` enters its scan loop. -/
def Image.peekStart {σ : Type} (img : Image) (initialPosition : Int) (s : σ) : PeekState σ :=
  { initialOffset := img.termOffsetAt initialPosition, offset := img.termOffsetAt initialPosition,
    position := initialPosition, resultingPosition := initialPosition, handlerState := s,
    calls := [] }

/-- The end position of the last frame with END_FRAG set among the frames of `fs` that start
before `limitPosition`, and `result` if there is none; the frames lie back to back from
term offset `offset`, which is stream position `position`. -/
def lastCompleteEnd (termBuffer : AtomicBuffer) (limitPosition : Int) :
    Int → Int → Int → List FrameDesc → Int
  | _, _, result, [] => result
  | position, offset, result, f :: fs =>
    if position < limitPosition then
      lastCompleteEnd termBuffer limitPosition (position + alignedLength f.length)
        (offset + alignedLength f.length)
        (if Int.land (termBuffer.flagsByte offset) END_FRAG ≠ 0 then
          position + alignedLength f.length
        else result) fs
    else result

/-! ### Vocabulary of the term crossing -/

/-- A term of capacity 1024 holding a data frame of length 48 at offset 0 and one of length 40
at offset 64; nothing is published after them. -/
def twoFrameTerm : AtomicBuffer where
  capacity := 1024
  lengthWord := fun offset => if offset = 0 then 48 else if offset = 64 then 40 else 0
  typeWord := fun offset => if offset = 0 ∨ offset = 64 then 1 else 0
  flagsByte := fun _ => 192
  termIdWord := fun _ => 7

/-- An open Image at position 0 over `twoFrameTerm`, with the driver's end-of-stream at
INT64_MAX. -/
def twoFrameImage : Image where
  termBuffers := fun _ => twoFrameTerm
  subscriberPosition := 0
  endOfStreamPosition := INT64_MAX
  isClosed := false
  joinPosition := 0
  finalPosition := 0
  sessionId := 1
  termLengthMask := 1023
  positionBitsToShift := 10
  isEos := false

/-- A controlled handler that counts its invocations and answers the n-th one with the
n-th action of `script`, CONTINUE once the script is used up. -/
def scripted (script : List ControlledPollAction) : controlled_poll_fragment_handler_t Nat :=
  fun n _ _ => (Outcome.ret (script.getD n ControlledPollAction.CONTINUE), n + 1)

/-- A controlled handler that counts its invocations and always answers `action`. -/
def always (action : ControlledPollAction) : controlled_poll_fragment_handler_t Nat :=
  fun n _ _ => (Outcome.ret action, n + 1)

/-- A controlled handler that counts its invocations and raises on each. -/
def raising : controlled_poll_fragment_handler_t Nat :=
  fun n _ _ => (Outcome.raise (Thrown.std ⟨"handler failed"⟩), n + 1)

/-- The example Image with an error handler that throws whenever it is invoked. -/
def throwingHandlerImage : Image :=
  { twoFrameImage with exceptionHandler := fun _ => Outcome.raise Thrown.other }

/-- A fragment handler that counts its invocations and never raises. -/
def counting : fragment_handler_t Nat := fun n _ _ => (Outcome.ret (), n + 1)

/-! ## Further example logs -/

/-- The log of `twoFrameImage` read by an Image whose counter holds 3221225472 (3 GiB), the
start of a term. -/
def farImage : Image := { twoFrameImage with subscriberPosition := 3221225472 }

/-- A term of capacity 1024 holding three data frames of length 128 at offsets 0, 128 and
256; nothing is published after them. -/
def threeFrameTerm : AtomicBuffer where
  capacity := 1024
  lengthWord := fun offset => if offset = 0 ∨ offset = 128 ∨ offset = 256 then 128 else 0
  typeWord := fun offset => if offset = 0 ∨ offset = 128 ∨ offset = 256 then 1 else 0
  flagsByte := fun _ => 192
  termIdWord := fun _ => 7

/-- An open Image at position 0 over `threeFrameTerm`. -/
def threeFrameImage : Image := { twoFrameImage with termBuffers := fun _ => threeFrameTerm }

/-- The Image over `threeFrameTerm` once the first frame is consumed: position 128. -/
def threeFrameImageAt128 : Image := { threeFrameImage with subscriberPosition := 128 }

/-- A block handler that counts its invocations and never raises. -/
def blockCounting : block_handler_t Nat := fun n _ _ _ _ => (Outcome.ret (), n + 1)

/-- A block handler that counts its invocations and raises on each. -/
def blockRaising : block_handler_t Nat :=
  fun n _ _ _ _ => (Outcome.raise (Thrown.std ⟨"block handler failed"⟩), n + 1)

/-- A term of capacity 1024 holding a data frame of length 48 at offset 0 and a padding frame
of length 960 at offset 64, which fills the rest of the term. -/
def paddedTerm : AtomicBuffer where
  capacity := 1024
  lengthWord := fun offset => if offset = 0 then 48 else if offset = 64 then 960 else 0
  typeWord := fun offset => if offset = 0 then 1 else 0
  flagsByte := fun _ => 192
  termIdWord := fun _ => 7

/-- An open Image at position 0 over `paddedTerm`. -/
def paddedImage : Image := { twoFrameImage with termBuffers := fun _ => paddedTerm }

/-- The Image over `paddedTerm` once the data frame is consumed: position 64, where the
padding frame starts. -/
def paddedImageAt64 : Image := { paddedImage with subscriberPosition := 64 }

/-- The two frames of `twoFrameTerm` as the fragments of one message: frame A at offset 0
carries BEGIN_FRAG only (128), frame B at offset 64 carries END_FRAG (64). -/
def fragmentedTerm : AtomicBuffer :=
  { twoFrameTerm with flagsByte := fun offset => if offset = 0 then 128 else 64 }

/-- An open Image at position 0 over `fragmentedTerm`. -/
def fragmentedImage : Image := { twoFrameImage with termBuffers := fun _ => fragmentedTerm }

/-- The memory of `paddedTerm` together with what follows the term: the words at offset
1024, past the capacity, read as a data frame of length 40. -/
def overrunTerm : AtomicBuffer where
  capacity := 1024
  lengthWord := fun offset =>
    if offset = 0 then 48 else if offset = 64 then 960 else if offset = 1024 then 40 else 0
  typeWord := fun offset => if offset = 0 ∨ offset = 1024 then 1 else 0
  flagsByte := fun _ => 192
  termIdWord := fun _ => 7

/-- An open Image over `overrunTerm` whose counter holds 3221225472 (3 GiB), the start of a
term. -/
def overrunImage : Image :=
  { twoFrameImage with termBuffers := fun _ => overrunTerm, subscriberPosition := 3221225472 }

/-- The log of `twoFrameTerm` with a payload word of the first frame, at offset 32, that
would read as a length above the capacity; no frame starts there. -/
def payloadTerm : AtomicBuffer :=
  { twoFrameTerm with
    lengthWord := fun offset => if offset = 32 then 16961 else twoFrameTerm.lengthWord offset }

/-- An open Image at position 0 over `payloadTerm`. -/
def payloadImage : Image := { twoFrameImage with termBuffers := fun _ => payloadTerm }

/-- A block handler that counts its invocations and throws on each something that is not a
`std::exception`. -/
def blockThrowing : block_handler_t Nat := fun n _ _ _ _ => (Outcome.raise Thrown.other, n + 1)

/-- A term of capacity 2^30 = 1073741824 that one data frame of length 2^30 fills, together
with what follows the term: the words at offset 2^30, past the capacity, read as a data
frame of length 2^30. -/
def fullTerm : AtomicBuffer where
  capacity := 1073741824
  lengthWord := fun offset => if offset = 0 ∨ offset = 1073741824 then 1073741824 else 0
  typeWord := fun offset => if offset = 0 ∨ offset = 1073741824 then 1 else 0
  flagsByte := fun _ => 192
  termIdWord := fun _ => 7

/-- An open Image over `fullTerm` (mask 2^30 - 1, 30 position bits) whose counter holds
3221225472 (3 GiB), the start of a term. -/
def fullImage : Image where
  termBuffers := fun _ => fullTerm
  subscriberPosition := 3221225472
  endOfStreamPosition := INT64_MAX
  isClosed := false
  joinPosition := 0
  finalPosition := 0
  sessionId := 1
  termLengthMask := 1073741823
  positionBitsToShift := 30
  isEos := false

end Aeron

namespace Aeron

/-! ## Machine-integer and mask arithmetic -/

theorem wrap32_of_range {x : Int} (h1 : -2147483648 ≤ x) (h2 : x ≤ 2147483647) :
    wrap32 x = x := by
  unfold wrap32; omega

theorem wrap64_of_range {x : Int} (h1 : -9223372036854775808 ≤ x)
    (h2 : x ≤ 9223372036854775807) : wrap64 x = x := by
  unfold wrap64; omega

theorem mask_cast (k : Nat) : ((2 ^ k - 1 : Nat) : Int) = 2 ^ k - 1 := by
  have : 1 ≤ 2 ^ k := Nat.one_le_two_pow
  push_cast [Nat.cast_sub this]
  rfl

theorem nat_ldiff_mask_left (m k : Nat) : Nat.ldiff (2 ^ k - 1) m = 2 ^ k - (m % 2 ^ k + 1) := by
  apply Nat.eq_of_testBit_eq
  intro i
  have hlt : m % 2 ^ k < 2 ^ k := Nat.mod_lt _ (Nat.two_pow_pos k)
  rw [Nat.testBit_ldiff, Nat.testBit_two_pow_sub_one, Nat.testBit_two_pow_sub_succ hlt,
    Nat.testBit_mod_two_pow]
  by_cases h : i < k <;> simp [h]

theorem nat_ldiff_mask_right (m k : Nat) : Nat.ldiff m (2 ^ k - 1) = m - m % 2 ^ k := by
  apply Nat.eq_of_testBit_eq
  intro i
  have h1 : m - m % 2 ^ k = 2 ^ k * (m / 2 ^ k) + 0 := by
    have := Nat.div_add_mod m (2 ^ k)
    generalize 2 ^ k * (m / 2 ^ k) = q at this ⊢
    omega
  rw [Nat.testBit_ldiff, Nat.testBit_two_pow_sub_one, h1,
    Nat.testBit_mul_pow_two_add _ (Nat.two_pow_pos k)]
  by_cases h : i < k
  · simp [h]
  · have hki : k ≤ i := Nat.le_of_not_lt h
    simp [h, ← Nat.shiftRight_eq_div_pow, Nat.testBit_shiftRight, Nat.add_sub_cancel' hki]

theorem nat_lor_mask (m k : Nat) : m ||| (2 ^ k - 1) = m - m % 2 ^ k + (2 ^ k - 1) := by
  apply Nat.eq_of_testBit_eq
  intro i
  have h1 : m - m % 2 ^ k + (2 ^ k - 1) = 2 ^ k * (m / 2 ^ k) + (2 ^ k - 1) := by
    have := Nat.div_add_mod m (2 ^ k)
    generalize 2 ^ k * (m / 2 ^ k) = q at this ⊢
    omega
  have h2 : 2 ^ k - 1 < 2 ^ k := Nat.sub_lt (Nat.two_pow_pos k) Nat.one_pos
  rw [Nat.testBit_lor, Nat.testBit_two_pow_sub_one, h1, Nat.testBit_mul_pow_two_add _ h2]
  by_cases h : i < k
  · simp [h]
  · have hki : k ≤ i := Nat.le_of_not_lt h
    simp [h, ← Nat.shiftRight_eq_div_pow, Nat.testBit_shiftRight, Nat.add_sub_cancel' hki]

/-- `x & (2^k - 1)` on two's-complement integers is the remainder mod `2^k`. -/
theorem land_mask (p : Int) (k : Nat) : Int.land p (2 ^ k - 1) = p % 2 ^ k := by
  rw [← mask_cast]
  cases p with
  | ofNat m =>
    show ((m &&& (2 ^ k - 1) : Nat) : Int) = _
    rw [Nat.and_pow_two_sub_one_eq_mod]
    simp
  | negSucc m =>
    show ((Nat.ldiff (2 ^ k - 1) m : Nat) : Int) = _
    rw [nat_ldiff_mask_left]
    have hlt : m % 2 ^ k < 2 ^ k := Nat.mod_lt _ (Nat.two_pow_pos k)
    rw [Int.negSucc_emod _ (by positivity)]
    push_cast [Nat.cast_sub (Nat.succ_le_of_lt hlt)]
    omega

/-- `x & ~(2^k - 1)` on two's-complement integers clears the remainder mod `2^k`. -/
theorem land_not_mask (p : Int) (k : Nat) : Int.land p (~~~(2 ^ k - 1)) = p - p % 2 ^ k := by
  rw [← mask_cast]
  have hpos : (0:Int) < 2 ^ k := by positivity
  cases p with
  | ofNat m =>
    show ((Nat.ldiff m (2 ^ k - 1) : Nat) : Int) = _
    rw [nat_ldiff_mask_right]
    have : m % 2 ^ k ≤ m := Nat.mod_le _ _
    push_cast [Nat.cast_sub this]
    simp
  | negSucc m =>
    show Int.negSucc (m ||| (2 ^ k - 1)) = _
    rw [nat_lor_mask, Int.negSucc_emod _ hpos]
    have h1 : m % 2 ^ k ≤ m := Nat.mod_le _ _
    have h2 : 1 ≤ 2 ^ k := Nat.one_le_two_pow
    rw [Int.negSucc_eq, Int.negSucc_eq]
    push_cast [Nat.cast_sub h1, Nat.cast_sub h2]
    omega

/-- The start of the term of a `std::int64_t` position is a `std::int64_t`. -/
theorem floor_ge_min (p : Int) (k : Nat) (hk : k ≤ 63) (hp : -9223372036854775808 ≤ p) :
    -9223372036854775808 ≤ p - p % 2 ^ k := by
  have hpos : (0:Int) < 2 ^ k := by positivity
  have h63 : (9223372036854775808 : Int) = 2 ^ k * 2 ^ (63 - k) := by
    rw [← pow_add, Nat.add_sub_cancel' hk]; norm_num
  have hdm := Int.emod_add_ediv p (2 ^ k)
  have e : p - p % 2 ^ k = 2 ^ k * (p / 2 ^ k) := by omega
  rw [e]
  by_contra hcon
  push_neg at hcon
  have h1 : 2 ^ k * (p / 2 ^ k) < 2 ^ k * (-(2 ^ (63 - k))) := by
    rw [mul_neg, ← h63]; exact hcon
  have h2 : p / 2 ^ k < -(2 ^ (63 - k)) := lt_of_mul_lt_mul_left h1 (le_of_lt hpos)
  have h3 : p / 2 ^ k + 1 ≤ -(2 ^ (63 - k)) := h2
  have h4 : 2 ^ k * (p / 2 ^ k + 1) ≤ 2 ^ k * (-(2 ^ (63 - k))) :=
    mul_le_mul_of_nonneg_left h3 (le_of_lt hpos)
  rw [mul_neg, ← h63, mul_add, mul_one] at h4
  have hr := Int.emod_lt_of_pos p hpos
  omega

theorem two_pow_le_of_le_30 {k : Nat} (hk : k ≤ 30) : (2:Int) ^ k ≤ 1073741824 := by
  have h : (2:Int) ^ k ≤ 2 ^ 30 := pow_le_pow_right₀ (by norm_num) hk
  norm_num at h
  exact h

/-- Without overflow the `limitPosition` of `validatePosition` is the end of the current
term. -/
theorem limitPosition_eq (img : Image) (k : Nat) (hk : k ≤ 30)
    (hmask : img.termLengthMask = 2 ^ k - 1)
    (hlo : INT64_MIN ≤ img.subscriberPosition)
    (hhi : img.subscriberPosition - img.subscriberPosition % 2 ^ k + 2 ^ k ≤ INT64_MAX) :
    img.limitPosition = img.subscriberPosition - img.subscriberPosition % 2 ^ k + 2 ^ k := by
  unfold INT64_MIN at hlo
  unfold INT64_MAX at hhi
  have hpos : (0:Int) < 2 ^ k := by positivity
  have hfl := floor_ge_min img.subscriberPosition k (by omega) hlo
  unfold Image.limitPosition
  simp only [hmask, land_mask]
  generalize (2:Int) ^ k = C at *
  have e1 : wrap64 (img.subscriberPosition - img.subscriberPosition % C) =
      img.subscriberPosition - img.subscriberPosition % C :=
    wrap64_of_range (by omega) (by omega)
  rw [e1]
  have e2 : wrap64 (img.subscriberPosition - img.subscriberPosition % C + (C - 1)) =
      img.subscriberPosition - img.subscriberPosition % C + (C - 1) :=
    wrap64_of_range (by omega) (by omega)
  rw [e2]
  rw [wrap64_of_range (by omega) (by omega)]
  omega

/-! ## C1: position validation -/

/-- C1. On an open Image whose counter holds `p` (mask `= 2^k - 1`, no overflow at the end of
the current term), `position(n)` raises iff `n < p`, or `n > (p & ~mask) + mask + 1`, or
`n & (FRAME_ALIGNMENT - 1) ≠ 0`; when it does not raise the counter holds exactly `n` and
nothing else changed; when it raises the Image (counter included) is unchanged; and
`controlledPeek(n, handler, limit)` raises under exactly the same condition. -/
theorem C1_position_validation (img : Image) (k : Nat) (n : Int)
    (hopen : img.isClosed = false) (hk : k ≤ 30)
    (hmask : img.termLengthMask = 2 ^ k - 1)
    (hlo : INT64_MIN ≤ img.subscriberPosition)
    (hhi : Int.land img.subscriberPosition (~~~img.termLengthMask) + img.termLengthMask + 1
      ≤ INT64_MAX) :
    ((img.setPosition n).raised ≠ none ↔
      (n < img.subscriberPosition ∨
       n > Int.land img.subscriberPosition (~~~img.termLengthMask) + img.termLengthMask + 1 ∨
       Int.land n (FRAME_ALIGNMENT - 1) ≠ 0)) ∧
    ((img.setPosition n).raised = none →
      (img.setPosition n).image = { img with subscriberPosition := n }) ∧
    ((img.setPosition n).raised ≠ none → (img.setPosition n).image = img) ∧
    (∀ (σ : Type) (fuel : Nat) (h : controlled_poll_fragment_handler_t σ) (s : σ) (limit : Int),
      (∃ r, img.controlledPeek fuel n h s limit = some r ∧ r.raised ≠ none) ↔
      (n < img.subscriberPosition ∨
       n > Int.land img.subscriberPosition (~~~img.termLengthMask) + img.termLengthMask + 1 ∨
       Int.land n (FRAME_ALIGNMENT - 1) ≠ 0)) := by
  have hlim : img.limitPosition =
      Int.land img.subscriberPosition (~~~img.termLengthMask) + img.termLengthMask + 1 := by
    rw [hmask, land_not_mask] at hhi ⊢
    rw [limitPosition_eq img k hk hmask hlo (by omega)]
    omega
  have hval : img.validatePosition n ≠ none ↔
      (n < img.subscriberPosition ∨
       n > Int.land img.subscriberPosition (~~~img.termLengthMask) + img.termLengthMask + 1 ∨
       Int.land n (FRAME_ALIGNMENT - 1) ≠ 0) := by
    rw [← hlim]
    unfold Image.validatePosition
    dsimp only
    split
    · next h1 =>
      constructor
      · intro _
        rcases h1 with h1 | h1
        · exact Or.inl h1
        · exact Or.inr (Or.inl h1)
      · intro _ hc
        exact Option.noConfusion hc
    · next h1 =>
      split
      · next h2 =>
        constructor
        · intro _
          exact Or.inr (Or.inr fun h => h2 h.symm)
        · intro _ hc
          exact Option.noConfusion hc
      · next h2 =>
        constructor
        · intro hc
          exact absurd rfl hc
        · intro hc
          rcases hc with hc | hc | hc
          · exact absurd (Or.inl hc) h1
          · exact absurd (Or.inr hc) h1
          · exact absurd (fun h => hc h.symm) h2
  refine ⟨?_, ?_, ?_, ?_⟩
  · rw [← hval]
    unfold Image.setPosition
    simp only [hopen]
    cases hv : img.validatePosition n <;> simp
  · unfold Image.setPosition
    simp only [hopen]
    cases hv : img.validatePosition n <;> simp
  · unfold Image.setPosition
    simp only [hopen]
    cases hv : img.validatePosition n <;> simp
  · intro σ fuel h s limit
    rw [← hval]
    unfold Image.controlledPeek
    simp only [hopen]
    cases hv : img.validatePosition n
    · simp
      intro r x hx _ hr
      rw [← hr]
    · simp

/-- The end of the first term of the example Image is a `std::int64_t`. -/
theorem twoFrameImage_term_end :
    Int.land twoFrameImage.subscriberPosition (~~~twoFrameImage.termLengthMask)
      + twoFrameImage.termLengthMask + 1 ≤ INT64_MAX := by
  have e : twoFrameImage.termLengthMask = 2 ^ 10 - 1 := by decide
  rw [e, land_not_mask]
  decide

/-- C1 at the open example Image (counter 0, mask 1023): `position(128)` is accepted and
stores exactly 128. -/
theorem C1_position_validation_witness :
    twoFrameImage.isClosed = false ∧
    twoFrameImage.termLengthMask = 2 ^ 10 - 1 ∧
    INT64_MIN ≤ twoFrameImage.subscriberPosition ∧
    Int.land twoFrameImage.subscriberPosition (~~~twoFrameImage.termLengthMask)
      + twoFrameImage.termLengthMask + 1 ≤ INT64_MAX ∧
    (twoFrameImage.setPosition 128).raised = none ∧
    (twoFrameImage.setPosition 128).image = { twoFrameImage with subscriberPosition := 128 } :=
  ⟨rfl, by decide, by decide, twoFrameImage_term_end, by decide,
    (C1_position_validation twoFrameImage 10 128 rfl (by decide) (by decide) (by decide)
      twoFrameImage_term_end).2.1 (by decide)⟩

/-! ## C2: a closed Image ignores polls and position writes -/

/-- C2. After `close()`, for every log content, handler and arguments (and whatever the
fuel): `poll`, `controlledPoll`, `boundedControlledPoll` and `blockPoll` return 0 without
invoking their handler or the error handler, `position(n)` returns without raising, and none
of these calls writes the counter or changes the Image. -/
theorem C2_closed_calls_are_noops (img : Image) (hclosed : img.isClosed = true) :
    (∀ (σ : Type) (fuel : Nat) (h : fragment_handler_t σ) (s : σ) (limit : Int),
      img.poll fuel h s limit =
        some { result := 0, image := img, handlerState := s, writes := [], calls := [],
               errors := [] }) ∧
    (∀ (σ : Type) (fuel : Nat) (h : controlled_poll_fragment_handler_t σ) (s : σ) (limit : Int),
      img.controlledPoll fuel h s limit =
        some { result := 0, image := img, handlerState := s, writes := [], calls := [],
               errors := [] }) ∧
    (∀ (σ : Type) (fuel : Nat) (h : controlled_poll_fragment_handler_t σ) (s : σ)
        (maxPosition limit : Int),
      img.boundedControlledPoll fuel h s maxPosition limit =
        some { result := 0, image := img, handlerState := s, writes := [], calls := [],
               errors := [] }) ∧
    (∀ (σ : Type) (fuel : Nat) (h : block_handler_t σ) (s : σ) (limit : Int),
      img.blockPoll fuel h s limit =
        some { result := 0, image := img, handlerState := s, writes := [], calls := [],
               errors := [] }) ∧
    (∀ n : Int, (img.setPosition n).raised = none ∧ (img.setPosition n).image = img) := by
  refine ⟨?_, ?_, ?_, ?_, ?_⟩
  · intro σ fuel h s limit
    simp [Image.poll, hclosed]
  · intro σ fuel h s limit
    simp [Image.controlledPoll, hclosed]
  · intro σ fuel h s maxPosition limit
    simp [Image.boundedControlledPoll, hclosed]
  · intro σ fuel h s limit
    simp [Image.blockPoll, hclosed]
  · intro n
    simp [Image.setPosition, hclosed]

/-- C2 at the closed example Image: `position(5)`, which validation would reject (5 is not
frame-aligned), returns without raising and leaves the counter alone, and a poll returns 0. -/
theorem C2_closed_calls_are_noops_witness :
    twoFrameImage.close.isClosed = true ∧
    (twoFrameImage.setPosition 5).raised ≠ none ∧
    (twoFrameImage.close.setPosition 5).raised = none ∧
    (twoFrameImage.close.setPosition 5).image = twoFrameImage.close ∧
    (twoFrameImage.close.poll 0 counting 0 10).map (fun r => (r.result, r.writes, r.calls))
      = some (0, [], []) :=
  ⟨rfl, by decide,
    ((C2_closed_calls_are_noops twoFrameImage.close rfl).2.2.2.2 5).1,
    ((C2_closed_calls_are_noops twoFrameImage.close rfl).2.2.2.2 5).2,
    by rw [(C2_closed_calls_are_noops twoFrameImage.close rfl).1 Nat 0 counting 0 10]; rfl⟩

/-! ## C3: close finality -/

/-- On a closed Image every step succeeds and leaves `isClosed`, `finalPosition` and `isEos`
as they were. -/
theorem closed_step {σ : Type} (op : Op σ) (img : Image) (s : σ)
    (hclosed : img.isClosed = true) :
    ∃ w, op.apply (img, s) = some w ∧ w.1.isClosed = true ∧
      w.1.finalPosition = img.finalPosition ∧ w.1.isEos = img.isEos := by
  cases op with
  | poll fuel handler fragmentLimit =>
    exact ⟨(img, s), by simp [Op.apply, Image.poll, hclosed], hclosed, rfl, rfl⟩
  | controlledPoll fuel handler fragmentLimit =>
    exact ⟨(img, s), by simp [Op.apply, Image.controlledPoll, hclosed], hclosed, rfl, rfl⟩
  | boundedControlledPoll fuel handler maxPosition fragmentLimit =>
    exact ⟨(img, s), by simp [Op.apply, Image.boundedControlledPoll, hclosed], hclosed, rfl, rfl⟩
  | controlledPeek fuel initialPosition handler limitPosition =>
    exact ⟨(img, s), by simp [Op.apply, Image.controlledPeek, hclosed], hclosed, rfl, rfl⟩
  | blockPoll fuel handler blockLengthLimit =>
    exact ⟨(img, s), by simp [Op.apply, Image.blockPoll, hclosed], hclosed, rfl, rfl⟩
  | setPosition newPosition =>
    exact ⟨(img, s), by simp [Op.apply, Image.setPosition, hclosed], hclosed, rfl, rfl⟩
  | close =>
    exact ⟨(img, s), by simp [Op.apply, Image.close, hclosed], hclosed, rfl, rfl⟩
  | counterChanged value =>
    exact ⟨({ img with subscriberPosition := value }, s), rfl, hclosed, rfl, rfl⟩
  | endOfStreamChanged value =>
    exact ⟨({ img with endOfStreamPosition := value }, s), rfl, hclosed, rfl, rfl⟩
  | logChanged termBuffers =>
    exact ⟨({ img with termBuffers := termBuffers }, s), rfl, hclosed, rfl, rfl⟩

/-- On a closed Image every history succeeds and leaves `isClosed`, `finalPosition` and
`isEos` as they were. -/
theorem closed_history {σ : Type} (ops : List (Op σ)) :
    ∀ (img : Image) (s : σ), img.isClosed = true →
      ∃ w, runOps ops (img, s) = some w ∧ w.1.isClosed = true ∧
        w.1.finalPosition = img.finalPosition ∧ w.1.isEos = img.isEos := by
  induction ops with
  | nil =>
    intro img s hclosed
    exact ⟨(img, s), rfl, hclosed, rfl, rfl⟩
  | cons op ops ih =>
    intro img s hclosed
    obtain ⟨w1, h1, hc1, hf1, he1⟩ := closed_step op img s hclosed
    obtain ⟨w, h2, hc2, hf2, he2⟩ := ih w1.1 w1.2 hc1
    refine ⟨w, ?_, hc2, hf2.trans hf1, he2.trans he1⟩
    simp only [runOps, h1]
    exact h2

theorem close_isClosed (img : Image) : img.close.isClosed = true := by
  unfold Image.close
  cases h : img.isClosed <;> simp [h]

/-- C3. After the first `close()`, for every history of later steps (polls of every kind,
`position(n)`, `controlledPeek`, further `close()` calls, changes of the shared counter, of
the driver's end-of-stream position and of the log, with every handler, argument and fuel),
the history runs to its end, `isClosed()` is still true, and `position()` and
`isEndOfStream()` still return what they returned right after that `close()`; a second
`close()` changes nothing. -/
theorem C3_close_finality {σ : Type} (img : Image) (s : σ) (ops : List (Op σ)) :
    (∃ w, runOps ops (img.close, s) = some w ∧
      w.1.isClosed = true ∧
      w.1.position = img.close.position ∧
      w.1.isEndOfStream = img.close.isEndOfStream) ∧
    img.close.close = img.close := by
  have hc := close_isClosed img
  constructor
  · obtain ⟨w, h, hc2, hf, he⟩ := closed_history ops img.close s hc
    refine ⟨w, h, hc2, ?_, ?_⟩
    · simp [Image.position, hc2, hc, hf]
    · simp [Image.isEndOfStream, hc2, hc, he]
  · show (if (!img.close.isClosed) = true then _ else img.close) = img.close
    simp [hc]

/-! ## C4: position() and isEndOfStream(), open and closed -/

/-- C4. On an open Image `position()` is the counter value and `isEndOfStream()` is true
exactly when the counter value ≥ the driver's end-of-stream position; `close()` captures
`finalPosition` = the counter value and `isEos` = (`finalPosition` ≥ end-of-stream position),
and these are what `position()` and `isEndOfStream()` return once closed. -/
theorem C4_position_and_end_of_stream (img : Image) (hopen : img.isClosed = false) :
    img.position = img.subscriberPosition ∧
    (img.isEndOfStream = true ↔ img.subscriberPosition ≥ img.endOfStreamPosition) ∧
    img.close.isClosed = true ∧
    img.close.finalPosition = img.subscriberPosition ∧
    (img.close.isEos = true ↔ img.close.finalPosition ≥ img.endOfStreamPosition) ∧
    img.close.position = img.close.finalPosition ∧
    img.close.isEndOfStream = img.close.isEos := by
  have hc := close_isClosed img
  refine ⟨?_, ?_, hc, ?_, ?_, ?_, ?_⟩
  · simp [Image.position, hopen]
  · simp [Image.isEndOfStream, hopen]
  · simp [Image.close, hopen]
  · simp [Image.close, hopen]
  · simp [Image.position, hc]
  · simp [Image.isEndOfStream, hc]

/-- C4 at the example Image: counter 0 and end-of-stream INT64_MAX give
`isEndOfStream() = false`, open and after `close()`, and `position() = 0`. -/
theorem C4_position_and_end_of_stream_witness :
    twoFrameImage.isClosed = false ∧
    twoFrameImage.subscriberPosition = 0 ∧
    twoFrameImage.endOfStreamPosition = INT64_MAX ∧
    twoFrameImage.position = 0 ∧
    twoFrameImage.isEndOfStream = false ∧
    twoFrameImage.close.position = 0 ∧
    twoFrameImage.close.isEndOfStream = false :=
  ⟨rfl, rfl, rfl, (C4_position_and_end_of_stream twoFrameImage rfl).1, by decide,
    by decide, by decide⟩

/-! ## The controlled scan over a run of published frames -/

theorem align_eq (length : Int) : align length FRAME_ALIGNMENT = wrap32 (alignedLength length) :=
  rfl

theorem alignedLength_bounds (length : Int) :
    length ≤ alignedLength length ∧ alignedLength length ≤ length + 31 ∧
    alignedLength length % 32 = 0 := by
  unfold alignedLength FRAME_ALIGNMENT
  omega

/-- One turn of the controlled scan loop over a padding frame. -/
theorem loop_padding {σ : Type} (tb : AtomicBuffer) (h : controlled_poll_fragment_handler_t σ)
    (limit : Int) (fuel : Nat) (st : ControlledPollState σ) (f : FrameDesc)
    (hlen : frameLengthVolatile tb st.resultingOffset = f.length)
    (hpad : isPaddingFrame tb st.resultingOffset = true)
    (hpos : 0 < f.length)
    (hend : st.resultingOffset + alignedLength f.length ≤ tb.capacity)
    (hlim : st.fragmentsRead < limit)
    (hcap : tb.capacity ≤ 1073741824)
    (hro : 0 ≤ st.resultingOffset) :
    controlledPollLoop tb h limit tb.capacity (fuel + 1) st =
      controlledPollLoop tb h limit tb.capacity fuel
        { st with resultingOffset := st.resultingOffset + alignedLength f.length } := by
  have hb := alignedLength_bounds f.length
  have hguard : st.fragmentsRead < limit ∧ st.resultingOffset < tb.capacity :=
    ⟨hlim, by omega⟩
  have hal : align f.length FRAME_ALIGNMENT = alignedLength f.length := by
    rw [align_eq, wrap32_of_range (by omega) (by omega)]
  have hw : wrap32 (st.resultingOffset + alignedLength f.length) =
      st.resultingOffset + alignedLength f.length := wrap32_of_range (by omega) (by omega)
  rw [controlledPollLoop]
  simp only [hguard, and_self, if_true, hlen, not_le.mpr hpos, if_false, hal, hw, hpad]

/-- One turn of the controlled scan loop over a data frame, in unbounded arithmetic. -/
theorem loop_data {σ : Type} (tb : AtomicBuffer) (h : controlled_poll_fragment_handler_t σ)
    (limit : Int) (fuel : Nat) (st : ControlledPollState σ) (f : FrameDesc)
    (hlen : frameLengthVolatile tb st.resultingOffset = f.length)
    (hpad : isPaddingFrame tb st.resultingOffset = false)
    (hpos : 0 < f.length)
    (hend : st.resultingOffset + alignedLength f.length ≤ tb.capacity)
    (hlim : st.fragmentsRead < limit)
    (hcap : tb.capacity ≤ 1073741824)
    (hio : 0 ≤ st.initialOffset) (hro : st.initialOffset ≤ st.resultingOffset)
    (hlo : INT64_MIN ≤ st.initialPosition)
    (hhi : st.initialPosition + (tb.capacity - st.initialOffset) ≤ INT64_MAX) :
    controlledPollLoop tb h limit tb.capacity (fuel + 1) st =
      match h st.handlerState (st.resultingOffset + DataFrameHeader.LENGTH)
          (f.length - DataFrameHeader.LENGTH) with
      | (Outcome.raise ex, s) =>
        some ({ st with resultingOffset := st.resultingOffset + alignedLength f.length,
                        handlerState := s,
                        calls := st.calls ++ [(st.resultingOffset + DataFrameHeader.LENGTH,
                          f.length - DataFrameHeader.LENGTH)] }, some ex)
      | (Outcome.ret ControlledPollAction.ABORT, s) =>
        some ({ st with handlerState := s,
                        calls := st.calls ++ [(st.resultingOffset + DataFrameHeader.LENGTH,
                          f.length - DataFrameHeader.LENGTH)] }, none)
      | (Outcome.ret ControlledPollAction.BREAK, s) =>
        some ({ st with fragmentsRead := st.fragmentsRead + 1,
                        resultingOffset := st.resultingOffset + alignedLength f.length,
                        handlerState := s,
                        calls := st.calls ++ [(st.resultingOffset + DataFrameHeader.LENGTH,
                          f.length - DataFrameHeader.LENGTH)] }, none)
      | (Outcome.ret ControlledPollAction.COMMIT, s) =>
        controlledPollLoop tb h limit tb.capacity fuel
          { fragmentsRead := st.fragmentsRead + 1,
            initialPosition := st.initialPosition +
              (st.resultingOffset + alignedLength f.length - st.initialOffset),
            initialOffset := st.resultingOffset + alignedLength f.length,
            resultingOffset := st.resultingOffset + alignedLength f.length,
            subscriberPosition := st.initialPosition +
              (st.resultingOffset + alignedLength f.length - st.initialOffset),
            handlerState := s,
            writes := st.writes ++ [st.initialPosition +
              (st.resultingOffset + alignedLength f.length - st.initialOffset)],
            calls := st.calls ++ [(st.resultingOffset + DataFrameHeader.LENGTH,
              f.length - DataFrameHeader.LENGTH)] }
      | (Outcome.ret ControlledPollAction.CONTINUE, s) =>
        controlledPollLoop tb h limit tb.capacity fuel
          { st with fragmentsRead := st.fragmentsRead + 1,
                    resultingOffset := st.resultingOffset + alignedLength f.length,
                    handlerState := s,
                    calls := st.calls ++ [(st.resultingOffset + DataFrameHeader.LENGTH,
                      f.length - DataFrameHeader.LENGTH)] } := by
  have hb := alignedLength_bounds f.length
  unfold INT64_MIN at hlo
  unfold INT64_MAX at hhi
  have hguard : st.fragmentsRead < limit ∧ st.resultingOffset < tb.capacity :=
    ⟨hlim, by omega⟩
  have hal : align f.length FRAME_ALIGNMENT = alignedLength f.length := by
    rw [align_eq, wrap32_of_range (by omega) (by omega)]
  have hw : wrap32 (st.resultingOffset + alignedLength f.length) =
      st.resultingOffset + alignedLength f.length := wrap32_of_range (by omega) (by omega)
  have hpo : wrap32 (st.resultingOffset + DataFrameHeader.LENGTH) =
      st.resultingOffset + DataFrameHeader.LENGTH := by
    unfold DataFrameHeader.LENGTH
    exact wrap32_of_range (by omega) (by omega)
  have hpl : wrap32 (f.length - DataFrameHeader.LENGTH) = f.length - DataFrameHeader.LENGTH := by
    unfold DataFrameHeader.LENGTH
    exact wrap32_of_range (by omega) (by omega)
  have hback : wrap32 (st.resultingOffset + alignedLength f.length - alignedLength f.length) =
      st.resultingOffset := by
    rw [add_sub_cancel_right]
    exact wrap32_of_range (by omega) (by omega)
  have hadv : wrap32 (st.resultingOffset + alignedLength f.length - st.initialOffset) =
      st.resultingOffset + alignedLength f.length - st.initialOffset :=
    wrap32_of_range (by omega) (by omega)
  have hpos64 : wrap64 (st.initialPosition +
      (st.resultingOffset + alignedLength f.length - st.initialOffset)) =
      st.initialPosition + (st.resultingOffset + alignedLength f.length - st.initialOffset) :=
    wrap64_of_range (by omega) (by omega)
  rw [controlledPollLoop]
  simp only [hguard, and_self, if_true, hlen, not_le.mpr hpos, if_false, hal, hw, hpad, hpo, hpl,
    hback, hadv, hpos64]
  rcases hh : h st.handlerState (st.resultingOffset + DataFrameHeader.LENGTH)
      (f.length - DataFrameHeader.LENGTH) with ⟨out, s⟩
  cases out with
  | raise ex => rfl
  | ret action => cases action <;> simp

/-- The controlled scan loop passes a run of published frames that the handler answers with
CONTINUE or COMMIT, one turn per frame, and arrives at `afterFrames`. -/
theorem loop_frames {σ : Type} (tb : AtomicBuffer) (h : controlled_poll_fragment_handler_t σ)
    (limit : Int) (hcap : tb.capacity ≤ 1073741824) :
    ∀ (fs : List FrameDesc) (answers : List ControlledPollAction) (st : ControlledPollState σ)
      (fuel : Nat),
      FramesAt tb st.resultingOffset fs →
      Answers h st.handlerState (payloads st.resultingOffset fs) (answers.map Outcome.ret) →
      (∀ a ∈ answers, a = ControlledPollAction.CONTINUE ∨ a = ControlledPollAction.COMMIT) →
      WithinLimit limit st.fragmentsRead fs →
      0 ≤ st.initialOffset → st.initialOffset ≤ st.resultingOffset →
      INT64_MIN ≤ st.initialPosition →
      st.initialPosition + (tb.capacity - st.initialOffset) ≤ INT64_MAX →
      controlledPollLoop tb h limit tb.capacity (fuel + fs.length) st =
        controlledPollLoop tb h limit tb.capacity fuel (afterFrames h st fs answers) := by
  intro fs
  induction fs with
  | nil =>
    intro answers st fuel _ _ _ _ _ _ _ _
    rfl
  | cons f fs ih =>
    intro answers st fuel hfr hans hact hlim hio hro hlo hhi
    obtain ⟨hlen, hpad, hpos, hend, hrest⟩ := hfr
    obtain ⟨hlt, hlim2⟩ := hlim
    have hb := alignedLength_bounds f.length
    rw [List.length_cons, ← Nat.add_assoc]
    cases hp : f.padding with
    | true =>
      rw [hp] at hpad
      rw [loop_padding tb h limit (fuel + fs.length) st f hlen hpad hpos hend hlt hcap
        (by omega)]
      simp only [payloads, hp, if_true] at hans
      simp only [hp, if_true] at hlim2
      rw [ih answers { st with resultingOffset := st.resultingOffset + alignedLength f.length }
        fuel hrest hans hact hlim2 hio (by simp only; omega) hlo hhi]
      simp only [afterFrames, hp, if_true]
    | false =>
      rw [hp] at hpad
      simp only [payloads, hp] at hans
      simp only [hp] at hlim2
      cases answers with
      | nil => simp [Answers] at hans
      | cons a rest =>
        simp only [List.map_cons, Answers] at hans
        obtain ⟨ha, hans2⟩ := hans
        have hact2 : ∀ b ∈ rest, b = ControlledPollAction.CONTINUE ∨
            b = ControlledPollAction.COMMIT :=
          fun b hb => hact b (List.mem_cons_of_mem _ hb)
        rw [loop_data tb h limit (fuel + fs.length) st f hlen hpad hpos hend hlt hcap hio hro
          hlo hhi]
        rcases hh : h st.handlerState (st.resultingOffset + DataFrameHeader.LENGTH)
          (f.length - DataFrameHeader.LENGTH) with ⟨out, s⟩
        rw [hh] at ha hans2
        simp only at ha hans2
        subst ha
        rcases hact a (List.mem_cons_self _ _) with hc | hc
        · subst hc
          simp only
          rw [ih rest
            { st with fragmentsRead := st.fragmentsRead + 1,
                      resultingOffset := st.resultingOffset + alignedLength f.length,
                      handlerState := s,
                      calls := st.calls ++ [(st.resultingOffset + DataFrameHeader.LENGTH,
                        f.length - DataFrameHeader.LENGTH)] }
            fuel hrest hans2 hact2 hlim2 hio (by simp only; omega) hlo hhi]
          simp [afterFrames, hp, hh]
        · subst hc
          simp only
          rw [ih rest
            { fragmentsRead := st.fragmentsRead + 1,
              initialPosition := st.initialPosition +
                (st.resultingOffset + alignedLength f.length - st.initialOffset),
              initialOffset := st.resultingOffset + alignedLength f.length,
              resultingOffset := st.resultingOffset + alignedLength f.length,
              subscriberPosition := st.initialPosition +
                (st.resultingOffset + alignedLength f.length - st.initialOffset),
              handlerState := s,
              writes := st.writes ++ [st.initialPosition +
                (st.resultingOffset + alignedLength f.length - st.initialOffset)],
              calls := st.calls ++ [(st.resultingOffset + DataFrameHeader.LENGTH,
                f.length - DataFrameHeader.LENGTH)] }
            fuel hrest hans2 hact2 hlim2 (by simp only; omega) (by simp only; omega)
            (by simp only; unfold INT64_MIN at hlo ⊢; omega)
            (by simp only; unfold INT64_MAX at hhi ⊢; omega)]
          simp [afterFrames, hp, hh]

theorem alignedLength_pos {length : Int} (h : 0 < length) : 0 < alignedLength length := by
  have := alignedLength_bounds length
  omega

/-- What `afterFrames` always does: offsets, counts, calls, callback state, and the
difference `initialPosition - initialOffset`, which no COMMIT changes. -/
theorem afterFrames_basic {σ : Type} (h : controlled_poll_fragment_handler_t σ) :
    ∀ (fs : List FrameDesc) (answers : List ControlledPollAction) (st : ControlledPollState σ),
      (payloads st.resultingOffset fs).length = answers.length →
      (afterFrames h st fs answers).resultingOffset = st.resultingOffset + framesLength fs ∧
      (afterFrames h st fs answers).fragmentsRead = st.fragmentsRead + dataCount fs ∧
      (afterFrames h st fs answers).calls = st.calls ++ payloads st.resultingOffset fs ∧
      (afterFrames h st fs answers).handlerState =
        stateAfter h st.handlerState (payloads st.resultingOffset fs) ∧
      (afterFrames h st fs answers).initialPosition - (afterFrames h st fs answers).initialOffset
        = st.initialPosition - st.initialOffset := by
  intro fs
  induction fs with
  | nil =>
    intro answers st _
    simp [afterFrames, framesLength, dataCount, payloads, stateAfter]
  | cons f fs ih =>
    intro answers st hl
    cases hp : f.padding with
    | true =>
      simp only [payloads, hp, if_true] at hl
      have := ih answers { st with resultingOffset := st.resultingOffset + alignedLength f.length } hl
      simp only [afterFrames, hp, if_true, framesLength, dataCount, payloads]
      simp only at this
      refine ⟨?_, ?_, this.2.2.1, this.2.2.2.1, this.2.2.2.2⟩
      · rw [this.1]; ring
      · rw [this.2.1]; simp
    | false =>
      simp only [payloads, hp] at hl
      cases answers with
      | nil => simp at hl
      | cons a rest =>
        simp only [List.length_cons, Bool.false_eq_true, if_false, add_left_inj] at hl
        by_cases hc : a = ControlledPollAction.COMMIT
        · have := ih rest
            { fragmentsRead := st.fragmentsRead + 1,
              initialPosition := st.initialPosition +
                (st.resultingOffset + alignedLength f.length - st.initialOffset),
              initialOffset := st.resultingOffset + alignedLength f.length,
              resultingOffset := st.resultingOffset + alignedLength f.length,
              subscriberPosition := st.initialPosition +
                (st.resultingOffset + alignedLength f.length - st.initialOffset),
              handlerState := (h st.handlerState (st.resultingOffset + DataFrameHeader.LENGTH)
                (f.length - DataFrameHeader.LENGTH)).2,
              writes := st.writes ++ [st.initialPosition +
                (st.resultingOffset + alignedLength f.length - st.initialOffset)],
              calls := st.calls ++ [(st.resultingOffset + DataFrameHeader.LENGTH,
                f.length - DataFrameHeader.LENGTH)] } hl
          simp only at this
          simp only [afterFrames, hp, hc, if_true, framesLength, dataCount, payloads, stateAfter,
            Bool.false_eq_true, if_false]
          refine ⟨?_, ?_, ?_, this.2.2.2.1, ?_⟩
          · rw [this.1]; ring
          · rw [this.2.1]; push_cast; ring
          · rw [this.2.2.1]; simp
          · rw [this.2.2.2.2]; ring
        · have := ih rest
            { st with fragmentsRead := st.fragmentsRead + 1,
                      resultingOffset := st.resultingOffset + alignedLength f.length,
                      handlerState := (h st.handlerState
                        (st.resultingOffset + DataFrameHeader.LENGTH)
                        (f.length - DataFrameHeader.LENGTH)).2,
                      calls := st.calls ++ [(st.resultingOffset + DataFrameHeader.LENGTH,
                        f.length - DataFrameHeader.LENGTH)] } hl
          simp only at this
          simp only [afterFrames, hp, hc, framesLength, dataCount, payloads, stateAfter,
            Bool.false_eq_true, if_false]
          refine ⟨?_, ?_, ?_, this.2.2.2.1, this.2.2.2.2⟩
          · rw [this.1]; ring
          · rw [this.2.1]; push_cast; ring
          · rw [this.2.2.1]; simp

/-- Between the last committed offset and the scan offset nothing goes backwards. -/
theorem afterFrames_offsets {σ : Type} (h : controlled_poll_fragment_handler_t σ) :
    ∀ (fs : List FrameDesc) (answers : List ControlledPollAction) (st : ControlledPollState σ),
      (∀ f ∈ fs, 0 < f.length) →
      st.initialOffset ≤ st.resultingOffset →
      st.initialOffset ≤ (afterFrames h st fs answers).initialOffset ∧
      (afterFrames h st fs answers).initialOffset ≤
        (afterFrames h st fs answers).resultingOffset := by
  intro fs
  induction fs with
  | nil =>
    intro answers st _ hro
    exact ⟨le_refl _, hro⟩
  | cons f fs ih =>
    intro answers st hpos hro
    have hf := alignedLength_pos (hpos f (List.mem_cons_self _ _))
    have hpos2 : ∀ g ∈ fs, 0 < g.length := fun g hg => hpos g (List.mem_cons_of_mem _ hg)
    cases hp : f.padding with
    | true =>
      simp only [afterFrames, hp, if_true]
      exact ih answers _ hpos2 (by simp only; omega)
    | false =>
      cases answers with
      | nil =>
        simp only [afterFrames, hp]
        exact ⟨le_refl _, hro⟩
      | cons a rest =>
        by_cases hc : a = ControlledPollAction.COMMIT
        · simp only [afterFrames, hp, hc, if_true, Bool.false_eq_true, if_false]
          have := ih rest
            { fragmentsRead := st.fragmentsRead + 1,
              initialPosition := st.initialPosition +
                (st.resultingOffset + alignedLength f.length - st.initialOffset),
              initialOffset := st.resultingOffset + alignedLength f.length,
              resultingOffset := st.resultingOffset + alignedLength f.length,
              subscriberPosition := st.initialPosition +
                (st.resultingOffset + alignedLength f.length - st.initialOffset),
              handlerState := (h st.handlerState (st.resultingOffset + DataFrameHeader.LENGTH)
                (f.length - DataFrameHeader.LENGTH)).2,
              writes := st.writes ++ [st.initialPosition +
                (st.resultingOffset + alignedLength f.length - st.initialOffset)],
              calls := st.calls ++ [(st.resultingOffset + DataFrameHeader.LENGTH,
                f.length - DataFrameHeader.LENGTH)] } hpos2 (le_refl _)
          simp only at this
          exact ⟨by omega, this.2⟩
        · simp only [afterFrames, hp, hc, Bool.false_eq_true, if_false]
          exact ih rest _ hpos2 (by simp only; omega)

/-- With CONTINUE throughout nothing is committed: no write, same initial position and
offset. -/
theorem afterFrames_continue {σ : Type} (h : controlled_poll_fragment_handler_t σ) :
    ∀ (fs : List FrameDesc) (n : Nat) (st : ControlledPollState σ),
      (afterFrames h st fs (List.replicate n ControlledPollAction.CONTINUE)).writes = st.writes ∧
      (afterFrames h st fs (List.replicate n ControlledPollAction.CONTINUE)).initialPosition
        = st.initialPosition ∧
      (afterFrames h st fs (List.replicate n ControlledPollAction.CONTINUE)).initialOffset
        = st.initialOffset ∧
      (afterFrames h st fs (List.replicate n ControlledPollAction.CONTINUE)).subscriberPosition
        = st.subscriberPosition := by
  intro fs
  induction fs with
  | nil =>
    intro n st
    simp [afterFrames]
  | cons f fs ih =>
    intro n st
    cases hp : f.padding with
    | true =>
      simp only [afterFrames, hp, if_true]
      exact ih n _
    | false =>
      cases n with
      | zero => simp [afterFrames, hp]
      | succ n =>
        simp only [List.replicate_succ, afterFrames, hp, Bool.false_eq_true, if_false]
        have hne : ¬ (ControlledPollAction.CONTINUE = ControlledPollAction.COMMIT) := by decide
        simp only [hne, if_false]
        exact ih n _

/-- With COMMIT on each of a run of data frames every frame end is published, and the last
committed offset is the scan offset. -/
theorem afterFrames_commit {σ : Type} (h : controlled_poll_fragment_handler_t σ) :
    ∀ (fs : List FrameDesc) (st : ControlledPollState σ),
      (∀ f ∈ fs, f.padding = false) →
      st.initialOffset = st.resultingOffset →
      st.subscriberPosition = st.initialPosition →
      (afterFrames h st fs (List.replicate fs.length ControlledPollAction.COMMIT)).writes =
        st.writes ++ endPositions st.initialPosition fs ∧
      (afterFrames h st fs (List.replicate fs.length ControlledPollAction.COMMIT)).initialOffset =
        (afterFrames h st fs
          (List.replicate fs.length ControlledPollAction.COMMIT)).resultingOffset ∧
      (afterFrames h st fs
          (List.replicate fs.length ControlledPollAction.COMMIT)).subscriberPosition =
        (afterFrames h st fs
          (List.replicate fs.length ControlledPollAction.COMMIT)).initialPosition := by
  intro fs
  induction fs with
  | nil =>
    intro st _ hio hsp
    simp [afterFrames, endPositions, hio, hsp]
  | cons f fs ih =>
    intro st hdata hio hsp
    have hp : f.padding = false := hdata f (List.mem_cons_self _ _)
    have hdata2 : ∀ g ∈ fs, g.padding = false := fun g hg => hdata g (List.mem_cons_of_mem _ hg)
    simp only [List.length_cons, List.replicate_succ, afterFrames, hp, if_true,
      Bool.false_eq_true, if_false, endPositions]
    have := ih
      { fragmentsRead := st.fragmentsRead + 1,
        initialPosition := st.initialPosition +
          (st.resultingOffset + alignedLength f.length - st.initialOffset),
        initialOffset := st.resultingOffset + alignedLength f.length,
        resultingOffset := st.resultingOffset + alignedLength f.length,
        subscriberPosition := st.initialPosition +
          (st.resultingOffset + alignedLength f.length - st.initialOffset),
        handlerState := (h st.handlerState (st.resultingOffset + DataFrameHeader.LENGTH)
          (f.length - DataFrameHeader.LENGTH)).2,
        writes := st.writes ++ [st.initialPosition +
          (st.resultingOffset + alignedLength f.length - st.initialOffset)],
        calls := st.calls ++ [(st.resultingOffset + DataFrameHeader.LENGTH,
          f.length - DataFrameHeader.LENGTH)] } hdata2 rfl rfl
    simp only at this
    refine ⟨?_, this.2.1, this.2.2⟩
    rw [this.1, hio]
    have e : st.initialPosition + (st.resultingOffset + alignedLength f.length - st.resultingOffset)
        = st.initialPosition + alignedLength f.length := by ring
    rw [e]
    simp

theorem Answers_length {σ α : Type} (h : σ → Int → Int → Outcome α × σ) :
    ∀ (calls : List (Int × Int)) (answers : List (Outcome α)) (s : σ),
      Answers h s calls answers → calls.length = answers.length := by
  intro calls
  induction calls with
  | nil =>
    intro answers s ha
    cases answers with
    | nil => rfl
    | cons a as => simp [Answers] at ha
  | cons c cs ih =>
    intro answers s ha
    cases answers with
    | nil => simp [Answers] at ha
    | cons a as =>
      simp only [Answers] at ha
      simp [ih as _ ha.2]

/-- A callback that always answers `a` answers a run of calls with `a` throughout. -/
theorem Answers_of_always {σ α : Type} (h : σ → Int → Int → Outcome α × σ) (a : Outcome α)
    (hall : ∀ s o l, (h s o l).1 = a) :
    ∀ (calls : List (Int × Int)) (s : σ), Answers h s calls (List.replicate calls.length a) := by
  intro calls
  induction calls with
  | nil =>
    intro s
    simp [Answers]
  | cons c cs ih =>
    intro s
    simp only [List.length_cons, List.replicate_succ, Answers]
    exact ⟨hall _ _ _, ih _⟩

/-- The answers to the calls of a run of frames split at the end of a prefix. -/
theorem Answers_append {σ α : Type} (h : σ → Int → Int → Outcome α × σ) :
    ∀ (cs ds : List (Int × Int)) (as bs : List (Outcome α)) (s : σ),
      cs.length = as.length →
      (Answers h s (cs ++ ds) (as ++ bs) ↔
        Answers h s cs as ∧ Answers h (stateAfter h s cs) ds bs) := by
  intro cs
  induction cs with
  | nil =>
    intro ds as bs s hl
    cases as with
    | nil => simp [Answers, stateAfter]
    | cons a as => simp at hl
  | cons c cs ih =>
    intro ds as bs s hl
    cases as with
    | nil => simp at hl
    | cons a as =>
      simp only [List.length_cons, add_left_inj] at hl
      rw [List.cons_append, List.cons_append]
      simp only [Answers, stateAfter]
      rw [ih ds as bs _ hl]
      tauto

theorem payloads_append : ∀ (fs gs : List FrameDesc) (offset : Int),
    payloads offset (fs ++ gs) = payloads offset fs ++ payloads (offset + framesLength fs) gs := by
  intro fs
  induction fs with
  | nil =>
    intro gs offset
    simp [payloads, framesLength]
  | cons f fs ih =>
    intro gs offset
    rw [List.cons_append]
    simp only [payloads, framesLength, ih, ← add_assoc]
    split <;> simp

theorem framesLength_append : ∀ (fs gs : List FrameDesc),
    framesLength (fs ++ gs) = framesLength fs + framesLength gs := by
  intro fs
  induction fs with
  | nil => intro gs; simp [framesLength]
  | cons f fs ih =>
    intro gs
    rw [List.cons_append]
    simp only [framesLength, ih]
    ring

theorem FramesAt_append (tb : AtomicBuffer) : ∀ (fs gs : List FrameDesc) (offset : Int),
    FramesAt tb offset (fs ++ gs) ↔
      FramesAt tb offset fs ∧ FramesAt tb (offset + framesLength fs) gs := by
  intro fs
  induction fs with
  | nil =>
    intro gs offset
    simp [FramesAt, framesLength]
  | cons f fs ih =>
    intro gs offset
    rw [List.cons_append]
    simp only [FramesAt, framesLength, ih, ← add_assoc]
    tauto

theorem payloads_length : ∀ (fs : List FrameDesc) (offset : Int),
    (payloads offset fs).length = dataCount fs := by
  intro fs
  induction fs with
  | nil => intro offset; rfl
  | cons f fs ih =>
    intro offset
    simp only [payloads, dataCount]
    split
    · simp [ih]
    · simp [ih]; omega

theorem dataCount_of_data : ∀ (fs : List FrameDesc), (∀ f ∈ fs, f.padding = false) →
    dataCount fs = fs.length := by
  intro fs
  induction fs with
  | nil => intro _; rfl
  | cons f fs ih =>
    intro hd
    have hp : f.padding = false := hd f (List.mem_cons_self _ _)
    simp only [dataCount, hp, List.length_cons]
    rw [ih fun g hg => hd g (List.mem_cons_of_mem _ hg)]
    simp
    omega

theorem FramesAt_pos (tb : AtomicBuffer) : ∀ (fs : List FrameDesc) (offset : Int),
    FramesAt tb offset fs → ∀ f ∈ fs, 0 < f.length := by
  intro fs
  induction fs with
  | nil => intro offset _ f hf; simp at hf
  | cons g fs ih =>
    intro offset hfr f hf
    obtain ⟨_, _, hpos, _, hrest⟩ := hfr
    rcases List.mem_cons.mp hf with h | h
    · rw [h]; exact hpos
    · exact ih _ hrest f h

theorem FramesAt_end_le (tb : AtomicBuffer) : ∀ (fs : List FrameDesc) (offset : Int),
    FramesAt tb offset fs → offset ≤ tb.capacity →
      offset ≤ offset + framesLength fs ∧ offset + framesLength fs ≤ tb.capacity := by
  intro fs
  induction fs with
  | nil => intro offset _ hle; simp [framesLength, hle]
  | cons f fs ih =>
    intro offset hfr hle
    obtain ⟨_, _, hpos, hend, hrest⟩ := hfr
    have := ih _ hrest hend
    have hp := alignedLength_pos hpos
    simp only [framesLength]
    omega

/-- The limit is not reached in front of any frame of a run with fewer data frames than
the limit allows. -/
theorem WithinLimit_of_lt (limit : Int) : ∀ (fs : List FrameDesc) (n : Int),
    n + dataCount fs < limit → WithinLimit limit n fs := by
  intro fs
  induction fs with
  | nil => intro n _; trivial
  | cons f fs ih =>
    intro n hlt
    simp only [dataCount] at hlt
    cases hp : f.padding with
    | true =>
      simp only [hp, if_true] at hlt
      refine ⟨by omega, ?_⟩
      rw [hp]
      exact ih n (by push_cast at hlt; omega)
    | false =>
      simp only [hp] at hlt
      refine ⟨by push_cast at hlt; omega, ?_⟩
      rw [hp]
      exact ih (n + 1) (by push_cast at hlt; omega)

/-- The limit is not reached in front of any frame of a run of data frames that the limit
allows. -/
theorem WithinLimit_of_data (limit : Int) : ∀ (fs : List FrameDesc) (n : Int),
    (∀ f ∈ fs, f.padding = false) → n + fs.length ≤ limit → WithinLimit limit n fs := by
  intro fs
  induction fs with
  | nil => intro n _ _; trivial
  | cons f fs ih =>
    intro n hd hle
    have hp : f.padding = false := hd f (List.mem_cons_self _ _)
    simp only [List.length_cons] at hle
    refine ⟨by push_cast at hle; omega, ?_⟩
    simp only [hp, Bool.false_eq_true, if_false]
    exact ih (n + 1) (fun g hg => hd g (List.mem_cons_of_mem _ hg)) (by push_cast at hle; omega)

/-- The scan stops without a callback when the limit is reached or nothing is published at
the scan offset. -/
theorem loop_stops {σ : Type} (tb : AtomicBuffer) (h : controlled_poll_fragment_handler_t σ)
    (limit : Int) (fuel : Nat) (st : ControlledPollState σ)
    (hstop : limit ≤ st.fragmentsRead ∨ Unpublished tb st.resultingOffset) :
    controlledPollLoop tb h limit tb.capacity (fuel + 1) st = some (st, none) := by
  rw [controlledPollLoop]
  by_cases hg : st.fragmentsRead < limit ∧ st.resultingOffset < tb.capacity
  · simp only [hg, and_self, if_true]
    rcases hstop with hs | hs | hs
    · omega
    · omega
    · simp only [hs, if_true]
  · simp only [hg, if_false]

/-- Under the constructor's geometry the term offset is the position mod the capacity, the
current term buffer has that capacity, and the capacity fits `std::int32_t`. -/
theorem geometry_facts (img : Image) (k : Nat) (hgeo : img.Geometry k) :
    img.termOffset = img.subscriberPosition % 2 ^ k ∧
    0 ≤ img.termOffset ∧ img.termOffset < 2 ^ k ∧
    img.termBuffer.capacity = 2 ^ k ∧ (2:Int) ^ k ≤ 1073741824 := by
  have hpos : (0:Int) < 2 ^ k := by positivity
  have hle := two_pow_le_of_le_30 hgeo.k_le
  have h0 := Int.emod_nonneg img.subscriberPosition (ne_of_gt hpos)
  have h1 := Int.emod_lt_of_pos img.subscriberPosition hpos
  have e : img.termOffset = img.subscriberPosition % 2 ^ k := by
    unfold Image.termOffset
    rw [hgeo.mask, land_mask]
    exact wrap32_of_range (by omega) (by omega)
  refine ⟨e, by rw [e]; exact h0, by rw [e]; exact h1, hgeo.capacity _, hle⟩

/-- Under the geometry, `PositionFits` bounds every position of the current term. -/
theorem position_fits_facts (img : Image) (k : Nat) (hgeo : img.Geometry k)
    (hfit : img.PositionFits) :
    INT64_MIN ≤ img.subscriberPosition ∧
    img.subscriberPosition + (img.termBuffer.capacity - img.termOffset) ≤ INT64_MAX := by
  obtain ⟨e, _, _, hcap, _⟩ := geometry_facts img k hgeo
  obtain ⟨hlo, hhi⟩ := hfit
  rw [hgeo.mask, land_mask] at hhi
  refine ⟨hlo, ?_⟩
  rw [hcap, e]
  omega

/-! ## controlledPoll over a run of published frames -/

/-- An open `controlledPoll` is its scan loop from `scanStart` on the current term, followed
by the publish step. -/
theorem controlledPoll_open {σ : Type} (img : Image) (h : controlled_poll_fragment_handler_t σ)
    (s : σ) (limit : Int) (fuel : Nat) (hopen : img.isClosed = false) :
    img.controlledPoll fuel h s limit =
      (controlledPollLoop img.termBuffer h limit img.termBuffer.capacity fuel
        (img.scanStart s)).map (controlledPollFinish img) := by
  simp [Image.controlledPoll, hopen, Image.scanStart, Image.termBuffer, Image.termOffset]

/-- An open `controlledPoll` passes a run of published frames that the handler answers with
CONTINUE or COMMIT and goes on from `afterFrames`. -/
theorem controlledPoll_frames {σ : Type} (img : Image) (k : Nat)
    (h : controlled_poll_fragment_handler_t σ) (s : σ) (limit : Int) (fuel : Nat)
    (fs : List FrameDesc) (answers : List ControlledPollAction)
    (hopen : img.isClosed = false) (hgeo : img.Geometry k) (hfit : img.PositionFits)
    (hframes : FramesAt img.termBuffer img.termOffset fs)
    (hans : Answers h s (payloads img.termOffset fs) (answers.map Outcome.ret))
    (hact : ∀ a ∈ answers, a = ControlledPollAction.CONTINUE ∨ a = ControlledPollAction.COMMIT)
    (hlim : WithinLimit limit 0 fs) :
    img.controlledPoll (fuel + fs.length) h s limit =
      (controlledPollLoop img.termBuffer h limit img.termBuffer.capacity fuel
        (afterFrames h (img.scanStart s) fs answers)).map (controlledPollFinish img) := by
  obtain ⟨_, h0, _, hcap, hle⟩ := geometry_facts img k hgeo
  obtain ⟨hlo, hhi⟩ := position_fits_facts img k hgeo hfit
  rw [controlledPoll_open img h s limit _ hopen]
  rw [loop_frames img.termBuffer h limit (by rw [hcap]; exact hle) fs answers (img.scanStart s)
    fuel hframes hans hact hlim h0 (le_refl _) hlo hhi]

@[simp] theorem handedOver_none : handedOver none = [] := rfl

@[simp] theorem handedOver_std (ex : StdException) : handedOver (some (Thrown.std ex)) = [ex] :=
  rfl

@[simp] theorem handedOver_other : handedOver (some Thrown.other) = [] := rfl

@[simp] theorem propagates_none (img : Image) : img.propagates none = false := rfl

@[simp] theorem propagates_other (img : Image) : img.propagates (some Thrown.other) = true := rfl

/-- A `std::exception` leaves the call exactly when the error handler throws on it. -/
theorem propagates_std (img : Image) (ex : StdException) :
    img.propagates (some (Thrown.std ex)) = false ↔ ∃ u, img.exceptionHandler ex = Outcome.ret u := by
  show (match img.exceptionHandler ex with
    | Outcome.ret _ => false
    | Outcome.raise _ => true) = false ↔ _
  cases img.exceptionHandler ex with
  | ret u => exact ⟨fun _ => ⟨u, rfl⟩, fun _ => rfl⟩
  | raise t =>
    constructor
    · intro hp
      cases hp
    · rintro ⟨u, hu⟩
      cases hu

/-- The publish step in unbounded arithmetic, when no exception leaves the call. -/
theorem controlledPollFinish_eq {σ : Type} (img : Image) (st : ControlledPollState σ)
    (ex : Option Thrown) (hprop : img.propagates ex = false)
    (h32 : 0 ≤ st.resultingOffset - st.initialOffset)
    (h32b : st.resultingOffset - st.initialOffset ≤ 1073741824)
    (hlo : INT64_MIN ≤ st.initialPosition)
    (hhi : st.initialPosition + (st.resultingOffset - st.initialOffset) ≤ INT64_MAX) :
    controlledPollFinish img (st, ex) =
      if st.resultingOffset > st.initialOffset then
        { result := st.fragmentsRead
          image := { img with subscriberPosition :=
            st.initialPosition + (st.resultingOffset - st.initialOffset) }
          handlerState := st.handlerState
          writes := st.writes ++ [st.initialPosition + (st.resultingOffset - st.initialOffset)]
          calls := st.calls
          errors := handedOver ex }
      else
        { result := st.fragmentsRead
          image := { img with subscriberPosition := st.subscriberPosition }
          handlerState := st.handlerState
          writes := st.writes
          calls := st.calls
          errors := handedOver ex } := by
  unfold INT64_MIN at hlo
  unfold INT64_MAX at hhi
  have e1 : wrap32 (st.resultingOffset - st.initialOffset) =
      st.resultingOffset - st.initialOffset := wrap32_of_range (by omega) (by omega)
  have e2 : wrap64 (st.initialPosition + (st.resultingOffset - st.initialOffset)) =
      st.initialPosition + (st.resultingOffset - st.initialOffset) :=
    wrap64_of_range (by omega) (by omega)
  unfold controlledPollFinish
  simp only [hprop, Bool.false_eq_true, if_false, e1, e2]
  by_cases hgt : st.resultingOffset > st.initialOffset
  · have : st.initialPosition + (st.resultingOffset - st.initialOffset) > st.initialPosition := by
      omega
    simp only [hgt, this, if_true]
  · have : ¬ (st.initialPosition + (st.resultingOffset - st.initialOffset) >
        st.initialPosition) := by omega
    simp only [hgt, this, if_false]

/-! ### Runs that the handler continues or commits throughout -/

/-- `controlledPoll` with a handler that returns CONTINUE throughout, over a run of data frames
within the limit that ends at an unpublished frame or at the term end. -/
theorem controlledPoll_all_continue {σ : Type} (img : Image) (k : Nat)
    (h : controlled_poll_fragment_handler_t σ) (s : σ) (limit : Int) (fuel : Nat)
    (fs : List FrameDesc)
    (hopen : img.isClosed = false) (hgeo : img.Geometry k) (hfit : img.PositionFits)
    (hframes : FramesAt img.termBuffer img.termOffset fs)
    (hdata : ∀ f ∈ fs, f.padding = false)
    (hstop : limit = fs.length ∨ Unpublished img.termBuffer (img.termOffset + framesLength fs))
    (hcont : Answers h s (payloads img.termOffset fs)
      (List.replicate fs.length (Outcome.ret ControlledPollAction.CONTINUE)))
    (hlimit : (fs.length : Int) ≤ limit) (hfuel : fs.length < fuel) :
    ∃ r, img.controlledPoll fuel h s limit = some r ∧
      r.result = fs.length ∧
      r.calls = payloads img.termOffset fs ∧
      r.image.subscriberPosition = img.subscriberPosition + framesLength fs ∧
      r.writes = (if 0 < framesLength fs then [img.subscriberPosition + framesLength fs]
        else []) ∧
      r.errors = [] ∧
      r.handlerState = stateAfter h s (payloads img.termOffset fs) := by
  obtain ⟨_, h0, _, hcap, hle⟩ := geometry_facts img k hgeo
  obtain ⟨hlo, hhi⟩ := position_fits_facts img k hgeo hfit
  obtain ⟨m, rfl⟩ := Nat.exists_eq_add_of_lt hfuel
  have hfu : fs.length + m + 1 = (m + 1) + fs.length := by omega
  rw [hfu]
  have hdc := dataCount_of_data fs hdata
  have hans := hcont
  rw [← List.map_replicate] at hans
  have hact : ∀ a ∈ List.replicate fs.length ControlledPollAction.CONTINUE,
      a = ControlledPollAction.CONTINUE ∨ a = ControlledPollAction.COMMIT :=
    fun a ha => Or.inl (List.eq_of_mem_replicate ha)
  rw [controlledPoll_frames img k h s limit (m + 1) fs _ hopen hgeo hfit hframes hans hact
    (WithinLimit_of_data limit fs 0 hdata (by omega))]
  have hbl : (payloads (img.scanStart s).resultingOffset fs).length =
      (List.replicate fs.length ControlledPollAction.CONTINUE).length := by
    rw [payloads_length, List.length_replicate, hdc]
  obtain ⟨bro, bfr, bcalls, bhs, _⟩ := afterFrames_basic h fs
    (List.replicate fs.length ControlledPollAction.CONTINUE) (img.scanStart s) hbl
  obtain ⟨cw, cip, cio, csp⟩ := afterFrames_continue h fs fs.length (img.scanStart s)
  generalize afterFrames h (img.scanStart s) fs
    (List.replicate fs.length ControlledPollAction.CONTINUE) = st at *
  simp only [Image.scanStart] at bro bfr bcalls bhs cw cip cio csp
  obtain ⟨hge, hlecap⟩ := FramesAt_end_le _ fs _ hframes (by omega)
  rw [hdc] at bfr
  rw [loop_stops _ h limit m st (by
    rcases hstop with hs | hs
    · left; rw [bfr, hs]; omega
    · right; rw [bro]; exact hs)]
  simp only [Option.map_some']
  unfold INT64_MAX at hhi
  rw [controlledPollFinish_eq img _ none rfl (by omega) (by omega)
    (by rw [cip]; exact hlo) (by rw [cip, cio, bro]; unfold INT64_MAX; omega)]
  have hsub : img.subscriberPosition + (img.termOffset + framesLength fs - img.termOffset) =
      img.subscriberPosition + framesLength fs := by ring
  simp only [cio, cip, csp, cw, bro, bfr, bcalls, bhs, hsub]
  by_cases hadv : 0 < framesLength fs
  · have hgt : img.termOffset + framesLength fs > img.termOffset := by omega
    rw [if_pos hgt, if_pos hadv]
    exact ⟨_, rfl, by simp, by simp, rfl, by simp, rfl, rfl⟩
  · have hgt : ¬ (img.termOffset + framesLength fs > img.termOffset) := by omega
    have hz : framesLength fs = 0 := by omega
    rw [if_neg hgt, if_neg hadv]
    exact ⟨_, rfl, by simp, by simp, by simp [hz], rfl, rfl, rfl⟩

/-- `controlledPoll` with a handler that returns COMMIT throughout, over a run of data frames
within the limit that ends at an unpublished frame or at the term end. -/
theorem controlledPoll_all_commit {σ : Type} (img : Image) (k : Nat)
    (h : controlled_poll_fragment_handler_t σ) (s : σ) (limit : Int) (fuel : Nat)
    (fs : List FrameDesc)
    (hopen : img.isClosed = false) (hgeo : img.Geometry k) (hfit : img.PositionFits)
    (hframes : FramesAt img.termBuffer img.termOffset fs)
    (hdata : ∀ f ∈ fs, f.padding = false)
    (hstop : limit = fs.length ∨ Unpublished img.termBuffer (img.termOffset + framesLength fs))
    (hcommit : Answers h s (payloads img.termOffset fs)
      (List.replicate fs.length (Outcome.ret ControlledPollAction.COMMIT)))
    (hlimit : (fs.length : Int) ≤ limit) (hfuel : fs.length < fuel) :
    ∃ r, img.controlledPoll fuel h s limit = some r ∧
      r.result = fs.length ∧
      r.calls = payloads img.termOffset fs ∧
      r.image.subscriberPosition = img.subscriberPosition + framesLength fs ∧
      r.writes = endPositions img.subscriberPosition fs ∧
      r.errors = [] := by
  obtain ⟨_, h0, _, hcap, hle⟩ := geometry_facts img k hgeo
  obtain ⟨hlo, hhi⟩ := position_fits_facts img k hgeo hfit
  obtain ⟨m, rfl⟩ := Nat.exists_eq_add_of_lt hfuel
  have hfu : fs.length + m + 1 = (m + 1) + fs.length := by omega
  rw [hfu]
  have hdc := dataCount_of_data fs hdata
  have hans := hcommit
  rw [← List.map_replicate] at hans
  have hact : ∀ a ∈ List.replicate fs.length ControlledPollAction.COMMIT,
      a = ControlledPollAction.CONTINUE ∨ a = ControlledPollAction.COMMIT :=
    fun a ha => Or.inr (List.eq_of_mem_replicate ha)
  rw [controlledPoll_frames img k h s limit (m + 1) fs _ hopen hgeo hfit hframes hans hact
    (WithinLimit_of_data limit fs 0 hdata (by omega))]
  have hbl : (payloads (img.scanStart s).resultingOffset fs).length =
      (List.replicate fs.length ControlledPollAction.COMMIT).length := by
    rw [payloads_length, List.length_replicate, hdc]
  obtain ⟨bro, bfr, bcalls, _, bbase⟩ := afterFrames_basic h fs
    (List.replicate fs.length ControlledPollAction.COMMIT) (img.scanStart s) hbl
  obtain ⟨cw, cio, csp⟩ := afterFrames_commit h fs (img.scanStart s) hdata rfl rfl
  generalize afterFrames h (img.scanStart s) fs
    (List.replicate fs.length ControlledPollAction.COMMIT) = st at *
  simp only [Image.scanStart] at bro bfr bcalls bbase cw cio csp
  obtain ⟨hge, hlecap⟩ := FramesAt_end_le _ fs _ hframes (by omega)
  rw [hdc] at bfr
  rw [loop_stops _ h limit m st (by
    rcases hstop with hs | hs
    · left; rw [bfr, hs]; omega
    · right; rw [bro]; exact hs)]
  simp only [Option.map_some']
  unfold INT64_MAX at hhi
  unfold INT64_MIN at hlo
  rw [controlledPollFinish_eq img _ none rfl (by omega) (by omega)
    (by unfold INT64_MIN; omega) (by unfold INT64_MAX; omega)]
  have hgt : ¬ (st.resultingOffset > st.initialOffset) := by omega
  rw [if_neg hgt]
  refine ⟨_, rfl, ?_, ?_, ?_, ?_, rfl⟩
  · simp only [bfr]; simp
  · simp only [bcalls]; simp
  · simp only [csp]; omega
  · simp only [cw]; simp

theorem endPositions_length : ∀ (fs : List FrameDesc) (p : Int),
    (endPositions p fs).length = fs.length := by
  intro fs
  induction fs with
  | nil => intro p; rfl
  | cons f fs ih => intro p; simp [endPositions, ih]

/-! ## poll against controlledPoll with CONTINUE -/

/-- The scan of `TermReader::read` and the controlled scan with `continueAfter` do the same
turn by turn: same offset, count, callback state and calls, same exception, same fuel. -/
theorem controlledPollLoop_continueAfter {σ : Type} (tb : AtomicBuffer)
    (h : fragment_handler_t σ) (limit cap : Int) :
    ∀ (fuel : Nat) (cs : ControlledPollState σ),
      controlledPollLoop tb (continueAfter h) limit cap fuel cs =
        (TermReader.readLoop tb h limit cap fuel
          { offset := cs.resultingOffset, fragmentsRead := cs.fragmentsRead,
            handlerState := cs.handlerState, calls := cs.calls }).map
          fun out =>
            ({ cs with resultingOffset := out.1.offset, fragmentsRead := out.1.fragmentsRead,
                       handlerState := out.1.handlerState, calls := out.1.calls }, out.2) := by
  intro fuel
  induction fuel with
  | zero =>
    intro cs
    rfl
  | succ fuel ih =>
    intro cs
    rw [controlledPollLoop, TermReader.readLoop]
    by_cases hg : cs.fragmentsRead < limit ∧ cs.resultingOffset < cap
    · simp only [hg, and_self, if_true]
      by_cases hl : frameLengthVolatile tb cs.resultingOffset ≤ 0
      · simp only [hl, if_true, Option.map_some']
      · simp only [hl, if_false]
        cases hp : isPaddingFrame tb cs.resultingOffset with
        | true =>
          simp only [if_true]
          rw [ih]
        | false =>
          simp only [Bool.false_eq_true, if_false]
          rcases hh : h cs.handlerState (wrap32 (cs.resultingOffset + DataFrameHeader.LENGTH))
            (wrap32 (frameLengthVolatile tb cs.resultingOffset - DataFrameHeader.LENGTH))
            with ⟨out, s1⟩
          cases out with
          | raise ex =>
            simp only [continueAfter, hh, Option.map_some']
          | ret u =>
            have hne1 : ¬ (ControlledPollAction.CONTINUE = ControlledPollAction.ABORT) := by
              decide
            have hne2 : ¬ (ControlledPollAction.CONTINUE = ControlledPollAction.BREAK) := by
              decide
            have hne3 : ¬ (ControlledPollAction.CONTINUE = ControlledPollAction.COMMIT) := by
              decide
            simp only [continueAfter, hh, hne1, hne2, hne3, if_false]
            rw [ih]
    · simp only [hg, if_false, Option.map_some']

/-- A frame start reached from `start` is not below `start`. -/
theorem frameStart_ge (tb : AtomicBuffer) (start offset : Int)
    (hf : FrameStart tb start offset) : start ≤ offset := by
  induction hf with
  | first => exact le_refl _
  | next o _ _ hpos ih =>
    have := alignedLength_bounds (frameLengthVolatile tb o)
    omega

/-- Length words that are bounded everywhere inside the term are bounded at the published
frames. -/
theorem publishedBounded_of_lengthsBounded (tb : AtomicBuffer) (start : Int)
    (h0 : 0 ≤ start) (hb : LengthsBounded tb) : PublishedBounded tb start :=
  fun offset hf hlt => hb offset (le_trans h0 (frameStart_ge tb start offset hf)) hlt

/-- The controlled scan leaves its loop within `capacity / 32 + 2` turns when the published
frames from `start` on have length words at most the term capacity and the scan is at one
of their starts. -/
theorem controlledPollLoop_terminates_published {σ : Type} (tb : AtomicBuffer)
    (h : controlled_poll_fragment_handler_t σ) (limit endOffset start : Int)
    (hcap : tb.capacity ≤ 1073741824) (hend : endOffset ≤ tb.capacity)
    (hb : PublishedBounded tb start) :
    ∀ (fuel : Nat) (st : ControlledPollState σ),
      FrameStart tb start st.resultingOffset →
      0 ≤ st.resultingOffset → 1 ≤ fuel →
      tb.capacity - st.resultingOffset + 64 ≤ 32 * fuel →
      ∃ out, controlledPollLoop tb h limit endOffset fuel st = some out := by
  intro fuel
  induction fuel with
  | zero =>
    intro st _ _ h1 _
    omega
  | succ fuel ih =>
    intro st hfs hro _ hfuel
    rw [controlledPollLoop]
    by_cases hg : st.fragmentsRead < limit ∧ st.resultingOffset < endOffset
    · simp only [hg, and_self, if_true]
      by_cases hl : frameLengthVolatile tb st.resultingOffset ≤ 0
      · simp only [hl, if_true]
        exact ⟨_, rfl⟩
      · simp only [hl, if_false]
        have hlen := hb st.resultingOffset hfs (by omega)
        have hbd := alignedLength_bounds (frameLengthVolatile tb st.resultingOffset)
        have hal : align (frameLengthVolatile tb st.resultingOffset) FRAME_ALIGNMENT =
            alignedLength (frameLengthVolatile tb st.resultingOffset) := by
          rw [align_eq, wrap32_of_range (by omega) (by omega)]
        have hw : wrap32 (st.resultingOffset +
            alignedLength (frameLengthVolatile tb st.resultingOffset)) =
            st.resultingOffset + alignedLength (frameLengthVolatile tb st.resultingOffset) :=
          wrap32_of_range (by omega) (by omega)
        simp only [hal, hw]
        have hnext : ∀ st1 : ControlledPollState σ,
            st1.resultingOffset = st.resultingOffset +
              alignedLength (frameLengthVolatile tb st.resultingOffset) →
            ∃ out, controlledPollLoop tb h limit endOffset fuel st1 = some out := by
          intro st1 h1
          exact ih st1 (by rw [h1]; exact FrameStart.next _ hfs (by omega) (by omega))
            (by omega) (by omega) (by omega)
        cases hp : isPaddingFrame tb st.resultingOffset with
        | true =>
          simp only [if_true]
          exact hnext _ rfl
        | false =>
          simp only [Bool.false_eq_true, if_false]
          rcases hh : h st.handlerState (wrap32 (st.resultingOffset + DataFrameHeader.LENGTH))
            (wrap32 (frameLengthVolatile tb st.resultingOffset - DataFrameHeader.LENGTH))
            with ⟨out, s1⟩
          cases out with
          | raise ex => exact ⟨_, rfl⟩
          | ret action =>
            cases action with
            | ABORT => exact ⟨_, rfl⟩
            | BREAK => exact ⟨_, rfl⟩
            | COMMIT => exact hnext _ rfl
            | CONTINUE => exact hnext _ rfl
    · simp only [hg, if_false]
      exact ⟨_, rfl⟩

/-- The controlled scan leaves its loop within `capacity / 32 + 2` turns when no length
word inside the term exceeds the term capacity. -/
theorem controlledPollLoop_terminates {σ : Type} (tb : AtomicBuffer)
    (h : controlled_poll_fragment_handler_t σ) (limit endOffset : Int)
    (hcap : tb.capacity ≤ 1073741824) (hend : endOffset ≤ tb.capacity)
    (hb : LengthsBounded tb) :
    ∀ (fuel : Nat) (st : ControlledPollState σ),
      0 ≤ st.resultingOffset → 1 ≤ fuel →
      tb.capacity - st.resultingOffset + 64 ≤ 32 * fuel →
      ∃ out, controlledPollLoop tb h limit endOffset fuel st = some out := by
  intro fuel st hro h1 hfuel
  exact controlledPollLoop_terminates_published tb h limit endOffset st.resultingOffset hcap hend
    (publishedBounded_of_lengthsBounded tb _ hro hb) fuel st FrameStart.first hro h1 hfuel

/-- A closed `controlledPoll` returns 0 and does nothing. -/
theorem controlledPoll_closed {σ : Type} (img : Image) (h : controlled_poll_fragment_handler_t σ)
    (s : σ) (limit : Int) (fuel : Nat) (hclosed : img.isClosed = true) :
    img.controlledPoll fuel h s limit =
      some { result := 0, image := img, handlerState := s, writes := [], calls := [],
             errors := [] } := by
  simp [Image.controlledPoll, hclosed]

/-- A `controlledPoll` returns when no length word inside the current term exceeds
the term capacity and the fuel covers `capacity / 32 + 2` turns. -/
theorem controlledPoll_returns {σ : Type} (img : Image) (k : Nat)
    (h : controlled_poll_fragment_handler_t σ) (s : σ) (limit : Int) (fuel : Nat)
    (hgeo : img.Geometry k) (hb : LengthsBounded img.termBuffer)
    (hfuel : (2:Int) ^ k + 64 ≤ 32 * fuel) :
    ∃ r, img.controlledPoll fuel h s limit = some r := by
  cases hopen : img.isClosed with
  | true =>
    exact ⟨_, controlledPoll_closed img h s limit fuel hopen⟩
  | false =>
    obtain ⟨_, h0, _, hcap, hle⟩ := geometry_facts img k hgeo
    have hpos : (0:Int) < 2 ^ k := by positivity
    obtain ⟨out, hout⟩ := controlledPollLoop_terminates img.termBuffer h limit
      img.termBuffer.capacity (by omega) (le_refl _) hb fuel (img.scanStart s) h0 (by omega)
      (by simp only [Image.scanStart]; omega)
    rw [controlledPoll_open img h s limit fuel hopen, hout]
    exact ⟨_, rfl⟩

/-- `controlledPoll` with the handler lifted by `continueAfter` is `poll`, fuel by fuel. -/
theorem controlledPoll_continueAfter {σ : Type} (img : Image) (h : fragment_handler_t σ)
    (s : σ) (limit : Int) (fuel : Nat) :
    img.controlledPoll fuel (continueAfter h) s limit = img.poll fuel h s limit := by
  cases hopen : img.isClosed with
  | true => simp [Image.controlledPoll, Image.poll, hopen]
  | false =>
    simp only [Image.controlledPoll, Image.poll, hopen, Bool.not_false, if_true,
      TermReader.read]
    rw [controlledPollLoop_continueAfter, Option.map_map]
    rfl

/-- Where the fragment handler returns normally, its controlled version returns CONTINUE. -/
theorem Answers_continueAfter {σ : Type} (h : fragment_handler_t σ) :
    ∀ (calls : List (Int × Int)) (n : Nat) (s : σ),
      Answers h s calls (List.replicate n (Outcome.ret ())) →
      Answers (continueAfter h) s calls
        (List.replicate n (Outcome.ret ControlledPollAction.CONTINUE)) := by
  intro calls
  induction calls with
  | nil =>
    intro n s ha
    cases n with
    | zero => trivial
    | succ n => simp [Answers] at ha
  | cons c cs ih =>
    intro n s ha
    cases n with
    | zero => simp [Answers] at ha
    | succ n =>
      simp only [List.replicate_succ, Answers] at ha ⊢
      obtain ⟨h1, h2⟩ := ha
      rcases hh : h s c.1 c.2 with ⟨out, s1⟩
      rw [hh] at h1 h2
      simp only at h1 h2
      subst h1
      have e : continueAfter h s c.1 c.2 = (Outcome.ret ControlledPollAction.CONTINUE, s1) := by
        simp only [continueAfter, hh]
      rw [e]
      exact ⟨rfl, ih n s1 h2⟩

/-! ### Facts about the example Image -/

theorem twoFrameImage_geometry : twoFrameImage.Geometry 10 :=
  ⟨by decide, by decide, rfl, fun _ => show (1024 : Int) = 2 ^ 10 by decide⟩

theorem twoFrameImage_fits : twoFrameImage.PositionFits := by
  unfold Image.PositionFits
  decide

theorem twoFrameImage_frames :
    FramesAt twoFrameImage.termBuffer twoFrameImage.termOffset [⟨48, false⟩, ⟨40, false⟩] := by
  have e : twoFrameImage.termOffset = 0 := by decide
  rw [e]
  simp only [FramesAt]
  decide

theorem twoFrameImage_unpublished :
    Unpublished twoFrameImage.termBuffer
      (twoFrameImage.termOffset + framesLength [⟨48, false⟩, ⟨40, false⟩]) := by
  right
  decide

/-! ## C5: poll delivers every published frame up to the limit -/

/-- C5. For every open Image whose current term holds a run `fs` of N published non-padding
frames from the current term offset, and every fragment handler that returns normally from
its calls on these frames: `poll` with fragmentLimit = N (or with a larger limit when the
run is followed by an unpublished frame or the term end; TermReader as in §4.5) invokes the
handler exactly N times in frame order, the k-th time with offset `frameOffset_k + 32` and
length `length_k - 32`, returns N, hands nothing to the error handler, and leaves the
counter at the initial position plus the sum of the frames' aligned lengths. -/
theorem C5_poll_delivers_all {σ : Type} (img : Image) (k : Nat)
    (h : fragment_handler_t σ) (s : σ) (limit : Int) (fuel : Nat) (fs : List FrameDesc)
    (hopen : img.isClosed = false) (hgeo : img.Geometry k) (hfit : img.PositionFits)
    (hframes : FramesAt img.termBuffer img.termOffset fs)
    (hdata : ∀ f ∈ fs, f.padding = false)
    (hreturns : Answers h s (payloads img.termOffset fs)
      (List.replicate fs.length (Outcome.ret ())))
    (hlimit : (fs.length : Int) ≤ limit)
    (hstop : limit = fs.length ∨ Unpublished img.termBuffer (img.termOffset + framesLength fs))
    (hfuel : fs.length < fuel) :
    ∃ r, img.poll fuel h s limit = some r ∧
      r.result = fs.length ∧
      r.calls = payloads img.termOffset fs ∧
      r.calls.length = fs.length ∧
      r.errors = [] ∧
      r.image.subscriberPosition = img.subscriberPosition + framesLength fs := by
  have hcont := Answers_continueAfter h _ _ s hreturns
  obtain ⟨r, hr, h1, h2, h3, _, h5, _⟩ := controlledPoll_all_continue img k (continueAfter h) s
    limit fuel fs hopen hgeo hfit hframes hdata hstop hcont hlimit hfuel
  rw [controlledPoll_continueAfter] at hr
  refine ⟨r, hr, h1, h2, ?_, h5, h3⟩
  rw [h2, payloads_length, dataCount_of_data fs hdata]

/-- C5 at the example log: frames of length 48 at offset 0 and length 40 at offset 64 from
position 0: `poll(h, 10)` returns 2, the handler sees (32, 16) and (96, 8), and the final
position is 128. -/
theorem C5_poll_delivers_all_witness :
    twoFrameImage.isClosed = false ∧
    FramesAt twoFrameImage.termBuffer twoFrameImage.termOffset [⟨48, false⟩, ⟨40, false⟩] ∧
    Unpublished twoFrameImage.termBuffer
      (twoFrameImage.termOffset + framesLength [⟨48, false⟩, ⟨40, false⟩]) ∧
    ∃ r, twoFrameImage.poll 10 counting 0 10 = some r ∧
      r.result = 2 ∧ r.calls = [(32, 16), (96, 8)] ∧ r.image.subscriberPosition = 128 :=
  ⟨rfl, twoFrameImage_frames, twoFrameImage_unpublished,
    let ⟨r, hr, h1, h2, _, _, h5⟩ :=
      C5_poll_delivers_all twoFrameImage 10 counting 0 10 10 [⟨48, false⟩, ⟨40, false⟩] rfl
        twoFrameImage_geometry twoFrameImage_fits twoFrameImage_frames (by decide)
        ⟨rfl, rfl, trivial⟩ (by decide) (Or.inr twoFrameImage_unpublished) (by decide)
    ⟨r, hr, h1.trans (by decide), h2.trans (by decide), h5.trans (by decide)⟩⟩

/-! ## C6: ABORT rewinds the aborted frame -/

/-- C6. In an open `controlledPoll`, when the handler answers CONTINUE on the data frames
of the run `pre` (k-1 data frames, with any padding between them) and ABORT on the next
data frame `f` (the k-th, k ≤ fragmentLimit), the call returns k-1, the handler saw exactly
those k frames, and the counter ends at the start of `f`: the initial position plus the
aligned lengths of `pre`, written once if that is an advance and not at all otherwise; with
`f` at the current position (`pre` empty) the call returns 0 and writes nothing. -/
theorem C6_abort_rewinds {σ : Type} (img : Image) (k : Nat)
    (h : controlled_poll_fragment_handler_t σ) (s : σ) (limit : Int) (fuel : Nat)
    (pre : List FrameDesc) (f : FrameDesc)
    (hopen : img.isClosed = false) (hgeo : img.Geometry k) (hfit : img.PositionFits)
    (hframes : FramesAt img.termBuffer img.termOffset (pre ++ [f]))
    (hdata : f.padding = false)
    (hans : Answers h s (payloads img.termOffset (pre ++ [f]))
      (List.replicate (dataCount pre) (Outcome.ret ControlledPollAction.CONTINUE) ++
        [Outcome.ret ControlledPollAction.ABORT]))
    (hlimit : (dataCount pre : Int) < limit)
    (hfuel : pre.length < fuel) :
    ∃ r, img.controlledPoll fuel h s limit = some r ∧
      r.result = dataCount pre ∧
      r.calls = payloads img.termOffset (pre ++ [f]) ∧
      r.errors = [] ∧
      r.image.subscriberPosition = img.subscriberPosition + framesLength pre ∧
      r.writes = (if 0 < framesLength pre then [img.subscriberPosition + framesLength pre]
        else []) ∧
      (pre = [] → r.result = 0 ∧ r.writes = [] ∧
        r.image.subscriberPosition = img.subscriberPosition) := by
  obtain ⟨_, h0, _, hcap, hle⟩ := geometry_facts img k hgeo
  obtain ⟨hlo, hhi⟩ := position_fits_facts img k hgeo hfit
  obtain ⟨m, rfl⟩ := Nat.exists_eq_add_of_lt hfuel
  have hfu : pre.length + m + 1 = (m + 1) + pre.length := by omega
  rw [hfu]
  obtain ⟨hfpre, hff⟩ := (FramesAt_append _ _ _ _).mp hframes
  obtain ⟨hlen, hpad, hpos, hend, _⟩ := hff
  rw [hdata] at hpad
  have hplen : (payloads img.termOffset pre).length =
      (List.replicate (dataCount pre)
        (Outcome.ret ControlledPollAction.CONTINUE : Outcome ControlledPollAction)).length := by
    rw [payloads_length, List.length_replicate]
  rw [payloads_append] at hans ⊢
  obtain ⟨hans1, hans2⟩ := (Answers_append h _ _ _ _ s hplen).mp hans
  have hmap : (List.replicate (dataCount pre)
      (Outcome.ret ControlledPollAction.CONTINUE : Outcome ControlledPollAction)) =
      (List.replicate (dataCount pre) ControlledPollAction.CONTINUE).map Outcome.ret := by
    rw [List.map_replicate]
  rw [hmap] at hans1
  have hact : ∀ a ∈ List.replicate (dataCount pre) ControlledPollAction.CONTINUE,
      a = ControlledPollAction.CONTINUE ∨ a = ControlledPollAction.COMMIT :=
    fun a ha => Or.inl (List.eq_of_mem_replicate ha)
  rw [controlledPoll_frames img k h s limit (m + 1) pre _ hopen hgeo hfit hfpre hans1 hact
    (WithinLimit_of_lt limit pre 0 (by omega))]
  have hbl : (payloads (img.scanStart s).resultingOffset pre).length =
      (List.replicate (dataCount pre) ControlledPollAction.CONTINUE).length := by
    rw [payloads_length, List.length_replicate]
  obtain ⟨bro, bfr, bcalls, bhs, _⟩ := afterFrames_basic h pre
    (List.replicate (dataCount pre) ControlledPollAction.CONTINUE) (img.scanStart s) hbl
  obtain ⟨cw, cip, cio, csp⟩ := afterFrames_continue h pre (dataCount pre) (img.scanStart s)
  generalize afterFrames h (img.scanStart s) pre
    (List.replicate (dataCount pre) ControlledPollAction.CONTINUE) = st at *
  simp only [Image.scanStart] at bro bfr bcalls bhs cw cip cio csp
  obtain ⟨hge, hlecap⟩ := FramesAt_end_le _ pre _ hfpre (by omega)
  have hal := alignedLength_pos hpos
  rw [loop_data img.termBuffer h limit m st f (by rw [bro]; exact hlen) (by rw [bro]; exact hpad)
    hpos (by rw [bro]; exact hend) (by rw [bfr]; omega) (by omega) (by rw [cio]; exact h0)
    (by rw [cio, bro]; omega) (by rw [cip]; exact hlo) (by rw [cip, cio]; exact hhi)]
  simp only [payloads, hdata, Bool.false_eq_true, if_false, Answers] at hans2
  obtain ⟨ha, _⟩ := hans2
  rw [← bhs, ← bro] at ha
  rcases hh : h st.handlerState (st.resultingOffset + DataFrameHeader.LENGTH)
    (f.length - DataFrameHeader.LENGTH) with ⟨out, s2⟩
  rw [hh] at ha
  simp only at ha
  subst ha
  simp only [Option.map_some']
  rw [controlledPollFinish_eq img _ none rfl (by simp only; omega) (by simp only; omega)
    (by simp only; rw [cip]; exact hlo)
    (by simp only; rw [cip, cio]; unfold INT64_MAX at hhi ⊢; omega)]
  simp only [cio, cip, csp, cw, bro, bfr, bcalls]
  have hpf : payloads (img.termOffset + framesLength pre) [f] =
      [(img.termOffset + framesLength pre + DataFrameHeader.LENGTH,
        f.length - DataFrameHeader.LENGTH)] := by
    simp [payloads, hdata]
  have hsub : img.subscriberPosition + (img.termOffset + framesLength pre - img.termOffset) =
      img.subscriberPosition + framesLength pre := by ring
  by_cases hadv : 0 < framesLength pre
  · have hgt : img.termOffset + framesLength pre > img.termOffset := by omega
    refine ⟨_, rfl, ?_⟩
    simp only [hgt, hadv, if_true, hpf, hsub]
    simp
    intro hnil
    rw [hnil] at hadv
    simp [framesLength] at hadv
  · have hgt : ¬ (img.termOffset + framesLength pre > img.termOffset) := by omega
    have hz : framesLength pre = 0 := by omega
    refine ⟨_, rfl, ?_⟩
    simp only [hgt, hadv, if_false, hpf]
    simp only [hz, add_zero]
    simp
    intro hnil
    rw [hnil]
    simp [dataCount]

/-- C6 at the example log: frames of length 48 at offset 0 and 40 at offset 64, the handler
answering CONTINUE then ABORT: `fragmentsRead = 1`, final position 64, one write of 64. -/
theorem C6_abort_rewinds_witness :
    twoFrameImage.isClosed = false ∧
    FramesAt twoFrameImage.termBuffer twoFrameImage.termOffset [⟨48, false⟩, ⟨40, false⟩] ∧
    ∃ r, twoFrameImage.controlledPoll 10
        (scripted [ControlledPollAction.CONTINUE, ControlledPollAction.ABORT]) 0 10 = some r ∧
      r.result = 1 ∧ r.image.subscriberPosition = 64 ∧ r.writes = [64] :=
  ⟨rfl, twoFrameImage_frames,
    let ⟨r, hr, h1, _, _, h4, h5, _⟩ :=
      C6_abort_rewinds twoFrameImage 10
        (scripted [ControlledPollAction.CONTINUE, ControlledPollAction.ABORT]) 0 10 10
        [⟨48, false⟩] ⟨40, false⟩ rfl twoFrameImage_geometry twoFrameImage_fits
        twoFrameImage_frames rfl ⟨rfl, rfl, trivial⟩ (by decide) (by decide)
    ⟨r, hr, h1.trans (by decide), h4.trans (by decide), h5.trans (by decide)⟩⟩

/-! ## C7: a raising handler -/

/-- C7 fails as stated for what `catch (const std::exception&)` does not catch. On the
example log, a handler that answers CONTINUE on the first frame and throws a value that is
not a `std::exception` on the second: the exception leaves `controlledPoll`, the error
handler is not invoked, and the publish step does not run, so the counter stays at 0
instead of ending at 128. The same happens when the handler throws a `std::exception` and
the error handler throws in turn: it is invoked once, the exception leaves the call and
the counter stays at 0. -/
theorem C7_uncaught_throw_counterexample :
    (twoFrameImage.controlledPoll 10
        (fun (n : Nat) _ _ =>
          (if n = 0 then Outcome.ret ControlledPollAction.CONTINUE
            else Outcome.raise Thrown.other, n + 1)) 0 10).map
      (fun r => (r.propagated, r.errors, r.calls, r.writes, r.image.subscriberPosition)) =
      some (true, [], [(32, 16), (96, 8)], [], 0) ∧
    (throwingHandlerImage.controlledPoll 10
        (fun (n : Nat) _ _ =>
          (if n = 0 then Outcome.ret ControlledPollAction.CONTINUE
            else Outcome.raise (Thrown.std ⟨"boom"⟩), n + 1)) 0 10).map
      (fun r => (r.propagated, r.errors, r.calls, r.writes, r.image.subscriberPosition)) =
      some (true, [⟨"boom"⟩], [(32, 16), (96, 8)], [], 0) ∧
    (0 : Int) ≠ 128 :=
  ⟨rfl, rfl, by decide⟩

/-- C7, amended. In an open `controlledPoll`, when the handler answers CONTINUE or COMMIT on
the data frames of the run `pre` and raises the `std::exception` `ex` on the next data frame
`f` (reached within the fragment limit), and the error handler returns from `ex`: the call
returns normally (no exception leaves it), the error handler gets exactly `ex`, the scan
stops at `f` (the handler is not invoked again), the returned count is the number of data
frames of `pre` (without `f`), and the publish step runs without rewind: its last ordered
write leaves the counter at the end of `f`, the initial position plus the aligned lengths
of `pre` and of `f`. -/
theorem C7_handler_exception {σ : Type} (img : Image) (k : Nat)
    (h : controlled_poll_fragment_handler_t σ) (s : σ) (limit : Int) (fuel : Nat)
    (pre : List FrameDesc) (f : FrameDesc) (answers : List ControlledPollAction)
    (ex : StdException)
    (hopen : img.isClosed = false) (hgeo : img.Geometry k) (hfit : img.PositionFits)
    (hframes : FramesAt img.termBuffer img.termOffset (pre ++ [f]))
    (hdata : f.padding = false)
    (hans : Answers h s (payloads img.termOffset (pre ++ [f]))
      (answers.map Outcome.ret ++ [Outcome.raise (Thrown.std ex)]))
    (hhandler : img.exceptionHandler ex = Outcome.ret ())
    (hact : ∀ a ∈ answers, a = ControlledPollAction.CONTINUE ∨ a = ControlledPollAction.COMMIT)
    (hlimit : (dataCount pre : Int) < limit)
    (hfuel : pre.length < fuel) :
    ∃ r, img.controlledPoll fuel h s limit = some r ∧
      r.propagated = false ∧
      r.errors = [ex] ∧
      r.result = dataCount pre ∧
      r.calls = payloads img.termOffset (pre ++ [f]) ∧
      r.image.subscriberPosition = img.subscriberPosition + framesLength (pre ++ [f]) ∧
      (∃ ws, r.writes = ws ++ [img.subscriberPosition + framesLength (pre ++ [f])]) ∧
      framesLength (pre ++ [f]) = framesLength pre + alignedLength f.length := by
  obtain ⟨_, h0, _, hcap, hle⟩ := geometry_facts img k hgeo
  obtain ⟨hlo, hhi⟩ := position_fits_facts img k hgeo hfit
  obtain ⟨m, rfl⟩ := Nat.exists_eq_add_of_lt hfuel
  have hfu : pre.length + m + 1 = (m + 1) + pre.length := by omega
  rw [hfu]
  obtain ⟨hfpre, hff⟩ := (FramesAt_append _ _ _ _).mp hframes
  obtain ⟨hlen, hpad, hpos, hend, _⟩ := hff
  rw [hdata] at hpad
  have hpf : payloads (img.termOffset + framesLength pre) [f] =
      [(img.termOffset + framesLength pre + DataFrameHeader.LENGTH,
        f.length - DataFrameHeader.LENGTH)] := by
    simp [payloads, hdata]
  have htot : framesLength (pre ++ [f]) = framesLength pre + alignedLength f.length := by
    rw [framesLength_append]
    simp [framesLength]
  rw [payloads_append, hpf] at hans ⊢
  have hplen : (payloads img.termOffset pre).length = (answers.map Outcome.ret).length := by
    have := Answers_length h _ _ s hans
    simp only [List.length_append, List.length_singleton, add_left_inj] at this
    exact this
  obtain ⟨hans1, hans2⟩ := (Answers_append h _ _ _ _ s hplen).mp hans
  rw [controlledPoll_frames img k h s limit (m + 1) pre answers hopen hgeo hfit hfpre hans1 hact
    (WithinLimit_of_lt limit pre 0 (by omega))]
  have hbl : (payloads (img.scanStart s).resultingOffset pre).length = answers.length := by
    rw [List.length_map] at hplen
    exact hplen
  obtain ⟨bro, bfr, bcalls, bhs, bbase⟩ := afterFrames_basic h pre answers (img.scanStart s) hbl
  obtain ⟨oio, oro⟩ := afterFrames_offsets h pre answers (img.scanStart s)
    (FramesAt_pos _ pre _ hfpre) (le_refl _)
  generalize afterFrames h (img.scanStart s) pre answers = st at *
  simp only [Image.scanStart] at bro bfr bcalls bhs bbase oio oro
  obtain ⟨hge, hlecap⟩ := FramesAt_end_le _ pre _ hfpre (by omega)
  have hal := alignedLength_pos hpos
  unfold INT64_MIN at hlo
  unfold INT64_MAX at hhi
  rw [loop_data img.termBuffer h limit m st f (by rw [bro]; exact hlen) (by rw [bro]; exact hpad)
    hpos (by rw [bro]; exact hend) (by rw [bfr]; omega) (by omega) (by omega) oro
    (by unfold INT64_MIN; omega) (by unfold INT64_MAX; omega)]
  simp only [Answers] at hans2
  obtain ⟨ha, _⟩ := hans2
  rw [← bhs, ← bro] at ha
  rcases hh : h st.handlerState (st.resultingOffset + DataFrameHeader.LENGTH)
    (f.length - DataFrameHeader.LENGTH) with ⟨out, s2⟩
  rw [hh] at ha
  simp only at ha
  subst ha
  simp only [Option.map_some']
  rw [controlledPollFinish_eq img _ (some (Thrown.std ex))
    ((propagates_std img ex).mpr ⟨(), hhandler⟩) (by simp only; omega) (by simp only; omega)
    (by simp only; unfold INT64_MIN; omega) (by simp only; unfold INT64_MAX; omega)]
  have hgt : st.resultingOffset + alignedLength f.length > st.initialOffset := by omega
  have hsub : st.initialPosition + (st.resultingOffset + alignedLength f.length - st.initialOffset)
      = img.subscriberPosition + framesLength (pre ++ [f]) := by
    rw [htot]; omega
  rw [if_pos hgt, hsub]
  refine ⟨_, rfl, rfl, rfl, ?_, ?_, rfl, ⟨st.writes, rfl⟩, htot⟩
  · simp only [bfr]; simp
  · simp only [bcalls, bro]; simp

/-- C7 amended, at the example log: the handler answers the first frame with CONTINUE and
raises a `std::exception` on the second, the error handler returns: one exception reaches
the error handler, none leaves the call, the count is 1 and the counter ends at 128, past
the failing frame. -/
theorem C7_handler_exception_witness :
    twoFrameImage.isClosed = false ∧
    FramesAt twoFrameImage.termBuffer twoFrameImage.termOffset [⟨48, false⟩, ⟨40, false⟩] ∧
    twoFrameImage.exceptionHandler ⟨"boom"⟩ = Outcome.ret () ∧
    ∃ r, twoFrameImage.controlledPoll 10
        (fun (n : Nat) _ _ =>
          (if n = 0 then Outcome.ret ControlledPollAction.CONTINUE
            else Outcome.raise (Thrown.std ⟨"boom"⟩), n + 1)) 0 10 = some r ∧
      r.propagated = false ∧
      r.errors = [⟨"boom"⟩] ∧ r.result = 1 ∧ r.image.subscriberPosition = 128 :=
  ⟨rfl, twoFrameImage_frames, rfl,
    let ⟨r, hr, h0, h1, h2, _, h4, _, _⟩ :=
      C7_handler_exception twoFrameImage 10
        (fun (n : Nat) _ _ =>
          (if n = 0 then Outcome.ret ControlledPollAction.CONTINUE
            else Outcome.raise (Thrown.std ⟨"boom"⟩), n + 1)) 0 10 10
        [⟨48, false⟩] ⟨40, false⟩ [ControlledPollAction.CONTINUE] ⟨"boom"⟩ rfl
        twoFrameImage_geometry twoFrameImage_fits twoFrameImage_frames rfl
        ⟨rfl, rfl, trivial⟩ rfl (by decide) (by decide) (by decide)
    ⟨r, hr, h0, h1, h2.trans (by decide), h4.trans (by decide)⟩⟩

/-! ## C8: CONTINUE on the first frame, COMMIT on the second -/

/-- C8 (as stated) fails: on the log of two published data frames (length 48 at offset 0,
length 40 at offset 64) and a counter starting at 0, `controlledPoll` with a handler that
returns CONTINUE on the first frame and COMMIT on the second performs one ordered write,
of 128, not two: after the COMMIT the trailing advance is zero and
`resultingPosition > initialPosition` is false. -/
theorem C8_two_writes_counterexample :
    (∃ r, twoFrameImage.controlledPoll 10
        (scripted [ControlledPollAction.CONTINUE, ControlledPollAction.COMMIT]) 0 10 = some r ∧
      r.result = 2 ∧ r.calls = [(32, 16), (96, 8)] ∧ r.writes = [128]) ∧
    ¬ (∃ r, twoFrameImage.controlledPoll 10
        (scripted [ControlledPollAction.CONTINUE, ControlledPollAction.COMMIT]) 0 10 = some r ∧
      r.writes.length = 2 ∧ r.writes.get? 1 = some 128) := by
  have hrun : ∃ r, twoFrameImage.controlledPoll 10
      (scripted [ControlledPollAction.CONTINUE, ControlledPollAction.COMMIT]) 0 10 = some r ∧
      r.result = 2 ∧ r.calls = [(32, 16), (96, 8)] ∧ r.writes = [128] :=
    ⟨_, rfl, by decide, by decide, by decide⟩
  refine ⟨hrun, ?_⟩
  rintro ⟨r, hr, hlen, _⟩
  obtain ⟨r2, hr2, _, _, hw⟩ := hrun
  rw [hr] at hr2
  cases hr2
  rw [hw] at hlen
  exact absurd hlen (by decide)

/-- C8 (amended). On that log, for every handler that answers the first frame with CONTINUE
and the second with COMMIT, every fragment limit ≥ 2 and enough fuel, `controlledPoll`
returns 2 and performs exactly one ordered write to the subscriber-position counter, of
value 128, which is where the counter ends. -/
theorem C8_commit_on_second_frame {σ : Type} (h : controlled_poll_fragment_handler_t σ) (s : σ)
    (limit : Int) (fuel : Nat)
    (hans : Answers h s [(32, 16), (96, 8)]
      [Outcome.ret ControlledPollAction.CONTINUE, Outcome.ret ControlledPollAction.COMMIT])
    (hlimit : 2 ≤ limit) (hfuel : 3 ≤ fuel) :
    ∃ r, twoFrameImage.controlledPoll fuel h s limit = some r ∧
      r.result = 2 ∧ r.calls = [(32, 16), (96, 8)] ∧ r.writes = [128] ∧
      r.image.subscriberPosition = 128 ∧ r.errors = [] := by
  obtain ⟨m, rfl⟩ := Nat.exists_eq_add_of_le hfuel
  have hfu : 3 + m = (m + 1) + [(⟨48, false⟩ : FrameDesc), ⟨40, false⟩].length := by
    simp only [List.length_cons, List.length_nil]; omega
  rw [hfu]
  rw [controlledPoll_frames twoFrameImage 10 h s limit (m + 1) [⟨48, false⟩, ⟨40, false⟩]
    [ControlledPollAction.CONTINUE, ControlledPollAction.COMMIT] rfl twoFrameImage_geometry
    twoFrameImage_fits twoFrameImage_frames hans (by decide)
    (WithinLimit_of_data limit _ 0 (by decide) (by simp; omega))]
  have hst : afterFrames h (twoFrameImage.scanStart s) [⟨48, false⟩, ⟨40, false⟩]
      [ControlledPollAction.CONTINUE, ControlledPollAction.COMMIT] =
      { fragmentsRead := 2, initialPosition := 128, initialOffset := 128,
        resultingOffset := 128, subscriberPosition := 128,
        handlerState := (h (h s 32 16).2 96 8).2,
        writes := [128], calls := [(32, 16), (96, 8)] } := by
    rfl
  have hun : frameLengthVolatile twoFrameImage.termBuffer 128 ≤ 0 := by decide
  rw [hst, loop_stops _ h limit m _ (Or.inr (Or.inr hun))]
  exact ⟨_, rfl, rfl, rfl, rfl, rfl, rfl⟩

/-- C8 (amended) at the handler that counts its calls and follows the script
CONTINUE, COMMIT. -/
theorem C8_commit_on_second_frame_witness :
    Answers (scripted [ControlledPollAction.CONTINUE, ControlledPollAction.COMMIT]) 0
      [(32, 16), (96, 8)]
      [Outcome.ret ControlledPollAction.CONTINUE, Outcome.ret ControlledPollAction.COMMIT] ∧
    ∃ r, twoFrameImage.controlledPoll 3
        (scripted [ControlledPollAction.CONTINUE, ControlledPollAction.COMMIT]) 0 2 = some r ∧
      r.result = 2 ∧ r.calls = [(32, 16), (96, 8)] ∧ r.writes = [128] ∧
      r.image.subscriberPosition = 128 ∧ r.errors = [] :=
  ⟨⟨rfl, rfl, trivial⟩,
    C8_commit_on_second_frame
      (scripted [ControlledPollAction.CONTINUE, ControlledPollAction.COMMIT]) 0 2 3
      ⟨rfl, rfl, trivial⟩ (by decide) (by decide)⟩

/-! ## C9: COMMIT on every frame against CONTINUE on every frame -/

/-- C9. For every open Image whose current term holds a run `fs` of N published data frames
from the current offset, followed by an unpublished frame or the term end, and every
fragmentLimit ≥ N: `controlledPoll` with a handler that always returns COMMIT and
`controlledPoll` with a handler that always returns CONTINUE both return N and leave the
counter at the same position (the initial position plus the aligned lengths of `fs`), and
the COMMIT poll performs exactly N ordered counter writes, the k-th being the position of
the end of frame k. -/
theorem C9_commit_each_frame {σ τ : Type} (img : Image) (k : Nat)
    (hCommit : controlled_poll_fragment_handler_t σ) (s : σ)
    (hContinue : controlled_poll_fragment_handler_t τ) (t : τ)
    (limit : Int) (fuel : Nat) (fs : List FrameDesc)
    (hopen : img.isClosed = false) (hgeo : img.Geometry k) (hfit : img.PositionFits)
    (hframes : FramesAt img.termBuffer img.termOffset fs)
    (hdata : ∀ f ∈ fs, f.padding = false)
    (hstop : Unpublished img.termBuffer (img.termOffset + framesLength fs))
    (hcommit : ∀ s o l, (hCommit s o l).1 = Outcome.ret ControlledPollAction.COMMIT)
    (hcont : ∀ s o l, (hContinue s o l).1 = Outcome.ret ControlledPollAction.CONTINUE)
    (hlimit : (fs.length : Int) ≤ limit) (hfuel : fs.length < fuel) :
    ∃ rc rk, img.controlledPoll fuel hCommit s limit = some rc ∧
      img.controlledPoll fuel hContinue t limit = some rk ∧
      rc.result = rk.result ∧ rc.result = fs.length ∧
      rc.image.subscriberPosition = rk.image.subscriberPosition ∧
      rc.image.subscriberPosition = img.subscriberPosition + framesLength fs ∧
      rc.writes = endPositions img.subscriberPosition fs ∧
      rc.writes.length = fs.length := by
  have hn : (payloads img.termOffset fs).length = fs.length := by
    rw [payloads_length, dataCount_of_data fs hdata]
  have ac := Answers_of_always hCommit _ hcommit (payloads img.termOffset fs) s
  have ak := Answers_of_always hContinue _ hcont (payloads img.termOffset fs) t
  rw [hn] at ac ak
  obtain ⟨rc, hrc, c1, _, c3, c4, _⟩ := controlledPoll_all_commit img k hCommit s limit fuel fs
    hopen hgeo hfit hframes hdata (Or.inr hstop) ac hlimit hfuel
  obtain ⟨rk, hrk, k1, _, k3, _, _⟩ := controlledPoll_all_continue img k hContinue t limit fuel fs
    hopen hgeo hfit hframes hdata (Or.inr hstop) ak hlimit hfuel
  refine ⟨rc, rk, hrc, hrk, by rw [c1, k1], c1, by rw [c3, k3], c3, c4, ?_⟩
  rw [c4, endPositions_length]

/-- C9 at the example log (N = 2, limit 10): both polls return 2 and end at 128; the COMMIT
poll writes 64 and then 128. -/
theorem C9_commit_each_frame_witness :
    FramesAt twoFrameImage.termBuffer twoFrameImage.termOffset [⟨48, false⟩, ⟨40, false⟩] ∧
    Unpublished twoFrameImage.termBuffer
      (twoFrameImage.termOffset + framesLength [⟨48, false⟩, ⟨40, false⟩]) ∧
    ∃ rc rk,
      twoFrameImage.controlledPoll 10 (always ControlledPollAction.COMMIT) 0 10 = some rc ∧
      twoFrameImage.controlledPoll 10 (always ControlledPollAction.CONTINUE) 0 10 = some rk ∧
      rc.result = 2 ∧ rk.result = 2 ∧ rk.image.subscriberPosition = 128 ∧ rc.writes = [64, 128] :=
  ⟨twoFrameImage_frames, twoFrameImage_unpublished,
    let ⟨rc, rk, hrc, hrk, e1, e2, e3, e4, e5, _⟩ :=
      C9_commit_each_frame twoFrameImage 10
        (always ControlledPollAction.COMMIT) 0 (always ControlledPollAction.CONTINUE) 0
        10 10 [⟨48, false⟩, ⟨40, false⟩] rfl twoFrameImage_geometry twoFrameImage_fits
        twoFrameImage_frames (by decide) twoFrameImage_unpublished (fun _ _ _ => rfl)
        (fun _ _ _ => rfl) (by decide) (by decide)
    ⟨rc, rk, hrc, hrk, e2.trans (by decide), (e1.symm.trans e2).trans (by decide),
      (e3.symm.trans e4).trans (by decide), e5.trans (by decide)⟩⟩

/-! ## C10: controlledPoll with CONTINUE is poll -/

/-- C10. For every Image (every term content and starting position), fragment handler,
fragment limit and fuel, `controlledPoll` with the handler that does what the fragment
handler does and returns CONTINUE for every frame gives the same outcome as `poll` (with
the TermReader of §4.5): the same handler invocations, the same returned count, the same
counter afterwards (and the same writes, errors and callback state), or both run out of
fuel; and both return as soon as the fuel covers `capacity / 32 + 2` turns, when no length
word inside the current term exceeds the term capacity. -/
theorem C10_controlledPoll_continue_is_poll {σ : Type} (img : Image)
    (h : fragment_handler_t σ) (s : σ) (limit : Int) :
    (∀ fuel : Nat, img.controlledPoll fuel (continueAfter h) s limit = img.poll fuel h s limit) ∧
    (∀ (k : Nat) (fuel : Nat), img.Geometry k → LengthsBounded img.termBuffer →
      (2:Int) ^ k + 64 ≤ 32 * fuel →
      ∃ r, img.poll fuel h s limit = some r ∧
        img.controlledPoll fuel (continueAfter h) s limit = some r) := by
  have heq : ∀ fuel : Nat,
      img.controlledPoll fuel (continueAfter h) s limit = img.poll fuel h s limit :=
    fun fuel => controlledPoll_continueAfter img h s limit fuel
  refine ⟨heq, ?_⟩
  intro k fuel hgeo hb hfuel
  obtain ⟨r, hr⟩ := controlledPoll_returns img k (continueAfter h) s limit fuel hgeo hb hfuel
  exact ⟨r, by rw [← heq, hr], hr⟩

/-- C10 at the example log with limit 10: both polls deliver (32, 16) and (96, 8), return 2
and leave the counter at 128. -/
theorem C10_controlledPoll_continue_is_poll_witness :
    twoFrameImage.Geometry 10 ∧ LengthsBounded twoFrameImage.termBuffer ∧
    twoFrameImage.controlledPoll 40 (continueAfter counting) 0 10 =
      twoFrameImage.poll 40 counting 0 10 ∧
    ∃ r, twoFrameImage.poll 40 counting 0 10 = some r ∧
      twoFrameImage.controlledPoll 40 (continueAfter counting) 0 10 = some r ∧
      r.result = 2 ∧ r.calls = [(32, 16), (96, 8)] ∧ r.image.subscriberPosition = 128 := by
  have hb : LengthsBounded twoFrameImage.termBuffer := by
    intro offset _ _
    show (if offset = 0 then (48:Int) else if offset = 64 then 40 else 0) ≤ 1024
    split
    · decide
    · split <;> decide
  have hc := C10_controlledPoll_continue_is_poll twoFrameImage counting 0 10
  obtain ⟨r, hr, hr2⟩ := hc.2 10 40 twoFrameImage_geometry hb (by decide)
  refine ⟨twoFrameImage_geometry, hb, hc.1 40, r, hr, hr2, ?_⟩
  have hw : twoFrameImage.poll 40 counting 0 10 = some _ := rfl
  rw [hw] at hr
  cases hr
  exact ⟨by decide, by decide, by decide⟩

/-! ## Invariants of the controlled scan -/

/-- Whatever holds before the controlled scan and is kept by every turn that scans a frame
holds in the state the loop leaves. -/
theorem controlledPollLoop_invariant {σ : Type} (tb : AtomicBuffer)
    (h : controlled_poll_fragment_handler_t σ) (limit endOffset : Int)
    (Inv : ControlledPollState σ → Prop)
    (hturn : ∀ st st1, Inv st → ControlledTurn tb h limit endOffset st st1 → Inv st1) :
    ∀ (fuel : Nat) (st : ControlledPollState σ) (out : ControlledPollState σ × Option Thrown),
      Inv st → controlledPollLoop tb h limit endOffset fuel st = some out → Inv out.1 := by
  intro fuel
  induction fuel with
  | zero =>
    intro st out _ hrun
    simp [controlledPollLoop] at hrun
  | succ fuel ih =>
    intro st out hinv hrun
    rw [controlledPollLoop] at hrun
    by_cases hg : st.fragmentsRead < limit ∧ st.resultingOffset < endOffset
    · simp only [hg, and_self, if_true] at hrun
      by_cases hl : frameLengthVolatile tb st.resultingOffset ≤ 0
      · simp only [hl, if_true, Option.some.injEq] at hrun
        rw [← hrun]
        exact hinv
      · simp only [hl, if_false] at hrun
        have hpos : 0 < frameLengthVolatile tb st.resultingOffset := not_le.mp hl
        cases hp : isPaddingFrame tb st.resultingOffset with
        | true =>
          simp only [hp, if_true] at hrun
          exact ih _ out (hturn _ _ hinv (ControlledTurn.padding st hg.1 hg.2 hpos hp)) hrun
        | false =>
          simp only [hp, Bool.false_eq_true, if_false] at hrun
          rcases hh : h st.handlerState (wrap32 (st.resultingOffset + DataFrameHeader.LENGTH))
            (wrap32 (frameLengthVolatile tb st.resultingOffset - DataFrameHeader.LENGTH))
            with ⟨o, s1⟩
          have ht := hturn _ _ hinv (ControlledTurn.handled st o s1 hg.1 hg.2 hpos hp hh)
          rw [hh] at hrun
          cases o with
          | raise ex =>
            simp only [Option.some.injEq] at hrun
            rw [← hrun]
            exact ht
          | ret action =>
            cases action with
            | ABORT =>
              simp only [if_true, Option.some.injEq] at hrun
              rw [← hrun]
              exact ht
            | BREAK =>
              simp at hrun
              rw [← hrun]
              exact ht
            | COMMIT =>
              simp at hrun
              exact ih _ out ht hrun
            | CONTINUE =>
              simp at hrun
              exact ih _ out ht hrun
    · simp only [hg, if_false, Option.some.injEq] at hrun
      rw [← hrun]
      exact hinv

/-! ## Alignment and order of the counter writes -/

theorem wrap32_emod (x : Int) : wrap32 x % 32 = x % 32 := by
  unfold wrap32; omega

theorem wrap64_emod (x : Int) : wrap64 x % 32 = x % 32 := by
  unfold wrap64; omega

theorem align_emod (length : Int) : align length FRAME_ALIGNMENT % 32 = 0 := by
  rw [align_eq, wrap32_emod]
  exact (alignedLength_bounds length).2.2

/-- `x & (FRAME_ALIGNMENT - 1)` is the remainder mod 32. -/
theorem land_frame_alignment (x : Int) : Int.land x (FRAME_ALIGNMENT - 1) = x % 32 := by
  have h := land_mask x 5
  norm_num at h
  unfold FRAME_ALIGNMENT
  norm_num
  exact h

theorem counterAfter_append (ws : List Int) : ∀ (p w : Int),
    counterAfter p (ws ++ [w]) = w := by
  induction ws with
  | nil => intro p w; rfl
  | cons v ws ih =>
    intro p w
    rw [List.cons_append]
    simp only [counterAfter]
    exact ih v w

theorem nonDecreasingFrom_append (ws : List Int) : ∀ (p w : Int),
    NonDecreasingFrom p (ws ++ [w]) ↔ NonDecreasingFrom p ws ∧ counterAfter p ws ≤ w := by
  induction ws with
  | nil => intro p w; simp [NonDecreasingFrom, counterAfter]
  | cons v ws ih =>
    intro p w
    rw [List.cons_append]
    simp only [NonDecreasingFrom, counterAfter, ih]
    tauto

/-- A turn of the controlled scan keeps `WritesAligned`, whatever the log holds. -/
theorem writesAligned_turn {σ : Type} (tb : AtomicBuffer) (h : controlled_poll_fragment_handler_t σ)
    (limit endOffset : Int) (st st1 : ControlledPollState σ)
    (hinv : WritesAligned st) (ht : ControlledTurn tb h limit endOffset st st1) : WritesAligned st1 := by
  obtain ⟨h1, h2, h3⟩ := hinv
  have ha := align_emod (frameLengthVolatile tb st.resultingOffset)
  cases ht with
  | padding _ _ _ _ =>
    refine ⟨?_, h2, h3⟩
    simp only
    generalize align (frameLengthVolatile tb st.resultingOffset) FRAME_ALIGNMENT = al at ha ⊢
    have hw := wrap32_emod (st.resultingOffset + al)
    omega
  | handled out s _ _ _ _ _ =>
    unfold handledState
    simp only
    generalize align (frameLengthVolatile tb st.resultingOffset) FRAME_ALIGNMENT = al at ha ⊢
    have hw := wrap32_emod (st.resultingOffset + al)
    have hb := wrap32_emod (wrap32 (st.resultingOffset + al) - al)
    have hc := wrap32_emod (wrap32 (st.resultingOffset + al) - st.initialOffset)
    have hd := wrap64_emod (st.initialPosition +
      wrap32 (wrap32 (st.resultingOffset + al) - st.initialOffset))
    cases out with
    | raise ex =>
      refine ⟨?_, h2, h3⟩
      simp only
      omega
    | ret action =>
      cases action with
      | ABORT =>
        refine ⟨?_, h2, h3⟩
        simp only
        omega
      | BREAK =>
        refine ⟨?_, h2, h3⟩
        simp only
        omega
      | COMMIT =>
        refine ⟨?_, ?_, ?_⟩
        · simp only
          omega
        · simp only
          omega
        · simp only
          intro w hwm
          rcases List.mem_append.mp hwm with hm | hm
          · exact h3 w hm
          · rw [List.mem_singleton.mp hm]
            omega
      | CONTINUE =>
        refine ⟨?_, h2, h3⟩
        simp only
        omega

/-- A turn of the controlled scan keeps `ScanInRange` when the length word of the frame it
scans does not exceed the capacity and the scan bound is inside the term. -/
theorem scanInRange_turn {σ : Type} (tb : AtomicBuffer) (h : controlled_poll_fragment_handler_t σ)
    (limit endOffset start base : Int)
    (hcap : tb.capacity ≤ 1073741824) (hend : endOffset ≤ tb.capacity)
    (hlo : INT64_MIN ≤ base) (hhi : base + 2147483648 ≤ INT64_MAX)
    (st st1 : ControlledPollState σ)
    (hlen : frameLengthVolatile tb st.resultingOffset ≤ tb.capacity)
    (hinv : ScanInRange start base st) (ht : ControlledTurn tb h limit endOffset st st1) :
    ScanInRange start base st1 ∧
    (st1.resultingOffset = st.resultingOffset ∨
      st1.resultingOffset = st.resultingOffset +
        alignedLength (frameLengthVolatile tb st.resultingOffset)) := by
  obtain ⟨i1, i2, i3, i4, i5, i6, i7⟩ := hinv
  unfold INT64_MIN at hlo
  unfold INT64_MAX at hhi
  have key : ∀ (hlt : st.resultingOffset < endOffset)
      (hpos : 0 < frameLengthVolatile tb st.resultingOffset),
      align (frameLengthVolatile tb st.resultingOffset) FRAME_ALIGNMENT =
        alignedLength (frameLengthVolatile tb st.resultingOffset) ∧
      0 < alignedLength (frameLengthVolatile tb st.resultingOffset) ∧
      st.resultingOffset + alignedLength (frameLengthVolatile tb st.resultingOffset)
        ≤ 2147483647 := by
    intro hlt hpos
    have hbd := alignedLength_bounds (frameLengthVolatile tb st.resultingOffset)
    refine ⟨?_, by omega, by omega⟩
    rw [align_eq, wrap32_of_range (by omega) (by omega)]
  cases ht with
  | padding hl hlt hpos hpad =>
    obtain ⟨k1, k2, k3⟩ := key hlt hpos
    rw [k1]
    generalize alignedLength (frameLengthVolatile tb st.resultingOffset) = al at k2 k3 ⊢
    rw [wrap32_of_range (by omega) (by omega)]
    exact ⟨⟨i1, by simp only; omega, k3, i4, i5, i6, i7⟩, Or.inr rfl⟩
  | handled out s hl hlt hpos hpad hh =>
    obtain ⟨k1, k2, k3⟩ := key hlt hpos
    unfold handledState
    simp only
    rw [k1]
    generalize alignedLength (frameLengthVolatile tb st.resultingOffset) = al at k2 k3 ⊢
    have e1 : wrap32 (st.resultingOffset + al) = st.resultingOffset + al :=
      wrap32_of_range (by omega) (by omega)
    rw [e1]
    have e2 : wrap32 (st.resultingOffset + al - al) = st.resultingOffset := by
      rw [add_sub_cancel_right]
      exact wrap32_of_range (by omega) (by omega)
    have e3 : wrap32 (st.resultingOffset + al - st.initialOffset) =
        st.resultingOffset + al - st.initialOffset := wrap32_of_range (by omega) (by omega)
    have e4 : wrap64 (st.initialPosition + (st.resultingOffset + al - st.initialOffset)) =
        st.initialPosition + (st.resultingOffset + al - st.initialOffset) :=
      wrap64_of_range (by omega) (by omega)
    cases out with
    | raise ex =>
      exact ⟨⟨i1, by simp only; omega, k3, i4, i5, i6, i7⟩, Or.inr rfl⟩
    | ret action =>
      cases action with
      | ABORT =>
        simp only [e2]
        exact ⟨⟨i1, i2, i3, i4, i5, i6, i7⟩, Or.inl trivial⟩
      | BREAK =>
        exact ⟨⟨i1, by simp only; omega, k3, i4, i5, i6, i7⟩, Or.inr rfl⟩
      | COMMIT =>
        simp only [e3, e4]
        refine ⟨⟨by simp only; omega, le_refl _, k3, by simp only; omega, rfl, ?_, ?_⟩, Or.inr trivial⟩
        · simp only
          rw [nonDecreasingFrom_append]
          exact ⟨i6, by rw [i7, i5]; omega⟩
        · simp only
          rw [counterAfter_append]
      | CONTINUE =>
        exact ⟨⟨i1, by simp only; omega, k3, i4, i5, i6, i7⟩, Or.inr rfl⟩

/-- A turn of the controlled scan keeps `ScanOnFrames` when the published frames from the
scan start have length words at most the capacity and the scan bound is inside the term. -/
theorem scanOnFrames_turn {σ : Type} (tb : AtomicBuffer)
    (h : controlled_poll_fragment_handler_t σ) (limit endOffset start base startOffset : Int)
    (hcap : tb.capacity ≤ 1073741824) (hend : endOffset ≤ tb.capacity)
    (hb : PublishedBounded tb startOffset)
    (hlo : INT64_MIN ≤ base) (hhi : base + 2147483648 ≤ INT64_MAX)
    (st st1 : ControlledPollState σ)
    (hinv : ScanOnFrames tb endOffset start base startOffset st)
    (ht : ControlledTurn tb h limit endOffset st st1) :
    ScanOnFrames tb endOffset start base startOffset st1 := by
  obtain ⟨hi, hfs, hbelow, hcom⟩ := hinv
  have hguard : st.resultingOffset < endOffset ∧
      0 < frameLengthVolatile tb st.resultingOffset := by
    cases ht with
    | padding _ hlt hpos _ => exact ⟨hlt, hpos⟩
    | handled out s _ hlt hpos _ _ => exact ⟨hlt, hpos⟩
  have hlen := hb st.resultingOffset hfs (by omega)
  obtain ⟨h1, h2⟩ := scanInRange_turn tb h limit endOffset start base hcap hend hlo hhi
    st st1 hlen hi ht
  have i1 := hi.initialOffset_nonneg
  have i2 := hi.initialOffset_le
  have hio : st1.initialOffset = st.initialOffset ∨
      st1.initialOffset = st1.resultingOffset := by
    cases ht with
    | padding _ _ _ _ => exact Or.inl rfl
    | handled out s _ _ _ _ _ =>
      unfold handledState
      cases out with
      | raise ex => exact Or.inl rfl
      | ret action => cases action <;> first | exact Or.inl rfl | exact Or.inr rfl
  refine ⟨h1, ?_, ?_, ?_⟩
  · rcases h2 with h2 | h2
    · rw [h2]
      exact hfs
    · rw [h2]
      exact FrameStart.next _ hfs (by omega) hguard.2
  · rcases h2 with h2 | h2
    · exact Or.inl (by rw [h2]; omega)
    · exact Or.inr ⟨st.resultingOffset, hfs, by omega, hguard.1, hguard.2, h2⟩
  · rcases hio with hio | hio
    · rw [hio]
      rcases hcom with hc | hc
      · exact Or.inl hc
      · exact Or.inl (by omega)
    · exact Or.inr hio

/-- An open `boundedControlledPoll` is the scan loop bounded by `endOffset`, from
`scanStart`, followed by the publish step. -/
theorem boundedControlledPoll_open {σ : Type} (img : Image)
    (h : controlled_poll_fragment_handler_t σ) (s : σ) (maxPosition limit : Int) (fuel : Nat)
    (hopen : img.isClosed = false) :
    img.boundedControlledPoll fuel h s maxPosition limit =
      (controlledPollLoop img.termBuffer h limit (img.endOffset maxPosition) fuel
        (img.scanStart s)).map (controlledPollFinish img) := by
  simp [Image.boundedControlledPoll, hopen, Image.scanStart, Image.termBuffer, Image.termOffset,
    Image.endOffset]

/-- A closed `boundedControlledPoll` does nothing. -/
theorem boundedControlledPoll_closed {σ : Type} (img : Image)
    (h : controlled_poll_fragment_handler_t σ) (s : σ) (maxPosition limit : Int) (fuel : Nat)
    (hclosed : img.isClosed = true) :
    img.boundedControlledPoll fuel h s maxPosition limit =
      some { result := 0, image := img, handlerState := s, writes := [], calls := [],
             errors := [] } := by
  simp [Image.boundedControlledPoll, hclosed]

/-- The publish step keeps the writes frame-aligned. -/
theorem controlledPollFinish_aligned {σ : Type} (img : Image)
    (out : ControlledPollState σ × Option Thrown) (hinv : WritesAligned out.1) :
    ∀ w ∈ (controlledPollFinish img out).writes, w % 32 = 0 := by
  obtain ⟨h1, h2, h3⟩ := hinv
  intro w hw
  unfold controlledPollFinish at hw
  simp only at hw
  split at hw
  · exact h3 w hw
  · split at hw
    · simp only [List.mem_append, List.mem_singleton] at hw
      rcases hw with hw | hw
      · exact h3 w hw
      · rw [hw, wrap64_emod]
        have := wrap32_emod (out.1.resultingOffset - out.1.initialOffset)
        omega
    · exact h3 w hw

/-- The state in which the scans start satisfies `WritesAligned` when the counter is
frame-aligned. -/
theorem scanStart_aligned {σ : Type} (img : Image) (s : σ)
    (hstart : img.subscriberPosition % 32 = 0) : WritesAligned (img.scanStart s) := by
  refine ⟨?_, hstart, ?_⟩
  · simp [Image.scanStart]
  · intro w hw
    simp [Image.scanStart] at hw

/-- The state in which the scans start satisfies `ScanInRange`. -/
theorem scanStart_inRange {σ : Type} (img : Image) (k : Nat) (s : σ) (hgeo : img.Geometry k) :
    ScanInRange img.subscriberPosition (img.subscriberPosition - img.termOffset)
      (img.scanStart s) := by
  obtain ⟨_, h0, h1, _, hle⟩ := geometry_facts img k hgeo
  exact ⟨h0, le_refl _, by simp only [Image.scanStart]; omega, rfl, rfl, trivial, rfl⟩

/-- On a state that satisfies `ScanInRange` the writes never go down and the counter ends at
the last one; the publish step leaves the counter at the position of the scan offset, and
an exception that leaves the call leaves it at the position of the committed offset. -/
theorem controlledPollFinish_inRange {σ : Type} (img : Image) (start base : Int)
    (out : ControlledPollState σ × Option Thrown)
    (hlo : INT64_MIN ≤ base) (hhi : base + 2147483648 ≤ INT64_MAX)
    (hinv : ScanInRange start base out.1) :
    NonDecreasingFrom start (controlledPollFinish img out).writes ∧
    (controlledPollFinish img out).image.subscriberPosition =
      counterAfter start (controlledPollFinish img out).writes ∧
    (img.propagates out.2 = false →
      (controlledPollFinish img out).image.subscriberPosition =
        base + out.1.resultingOffset) ∧
    (img.propagates out.2 = true →
      (controlledPollFinish img out).image.subscriberPosition =
        base + out.1.initialOffset) := by
  obtain ⟨i1, i2, i3, i4, i5, i6, i7⟩ := hinv
  unfold INT64_MIN at hlo
  unfold INT64_MAX at hhi
  have e1 : wrap32 (out.1.resultingOffset - out.1.initialOffset) =
      out.1.resultingOffset - out.1.initialOffset := wrap32_of_range (by omega) (by omega)
  have e2 : wrap64 (out.1.initialPosition + (out.1.resultingOffset - out.1.initialOffset)) =
      out.1.initialPosition + (out.1.resultingOffset - out.1.initialOffset) :=
    wrap64_of_range (by omega) (by omega)
  unfold controlledPollFinish
  rcases Bool.eq_false_or_eq_true (img.propagates out.2) with hp | hp
  · simp only [hp, if_true]
    refine ⟨i6, i7.symm, ?_, ?_⟩
    · intro hc
      cases hc
    · intro _
      omega
  · simp only [hp, Bool.false_eq_true, if_false, e1, e2]
    split
    · rename_i hgt
      refine ⟨?_, ?_, ?_, ?_⟩
      · simp only
        rw [nonDecreasingFrom_append]
        exact ⟨i6, by rw [i7, i5]; omega⟩
      · simp only
        rw [counterAfter_append]
      · intro _
        simp only
        omega
      · intro hc
        cases hc
    · rename_i hgt
      refine ⟨i6, ?_, ?_, ?_⟩
      · simp only
        exact i7.symm
      · intro _
        simp only
        omega
      · intro hc
        cases hc

/-- The bound `endOffset` of `boundedControlledPoll` where the cast to `std::int32_t` does not
truncate: it is `min(capacity, maxPosition - term start)`. -/
theorem endOffset_eq (img : Image) (k : Nat) (maxPosition : Int) (hgeo : img.Geometry k)
    (h0 : 0 ≤ img.subscriberPosition)
    (hmin : img.subscriberPosition - 2147483648 ≤ maxPosition)
    (hmax : maxPosition ≤ INT64_MAX) :
    img.endOffset maxPosition =
      min ((2:Int) ^ k) (maxPosition - (img.subscriberPosition - img.termOffset)) := by
  obtain ⟨e, o0, o1, hcap, hle⟩ := geometry_facts img k hgeo
  unfold INT64_MAX at hmax
  have hpos : (0:Int) < 2 ^ k := by positivity
  have hmod := Int.emod_add_ediv img.subscriberPosition (2 ^ k)
  have hq : 0 ≤ img.subscriberPosition / 2 ^ k := Int.ediv_nonneg h0 (le_of_lt hpos)
  have hbase : 0 ≤ img.subscriberPosition - img.termOffset := by
    rw [e]
    have : 0 ≤ (2:Int) ^ k * (img.subscriberPosition / 2 ^ k) := mul_nonneg (le_of_lt hpos) hq
    omega
  unfold Image.endOffset
  rw [hcap]
  have e1 : wrap64 (maxPosition - img.subscriberPosition) = maxPosition - img.subscriberPosition :=
    wrap64_of_range (by omega) (by omega)
  rw [e1]
  have e2 : wrap64 (maxPosition - img.subscriberPosition + img.termOffset) =
      maxPosition - (img.subscriberPosition - img.termOffset) := by
    rw [wrap64_of_range (by omega) (by omega)]
    omega
  rw [e2]
  apply wrap32_of_range
  · exact le_min (by omega) (by omega)
  · exact le_trans (min_le_left _ _) (by omega)

/-- Whatever the log holds, the controlled scan and its publish step write only
frame-aligned values when the counter starts frame-aligned. -/
theorem controlledScan_aligned {σ : Type} (img : Image) (tb : AtomicBuffer)
    (h : controlled_poll_fragment_handler_t σ) (limit endOffset : Int) (fuel : Nat)
    (st : ControlledPollState σ) (out : ControlledPollState σ × Option Thrown)
    (hinv : WritesAligned st)
    (hout : controlledPollLoop tb h limit endOffset fuel st = some out) :
    ∀ w ∈ (controlledPollFinish img out).writes, w % 32 = 0 :=
  controlledPollFinish_aligned img out
    (controlledPollLoop_invariant tb h limit endOffset WritesAligned
      (fun st st1 hi ht => writesAligned_turn tb h limit endOffset st st1 hi ht)
      fuel st out hinv hout)

/-- The controlled scan keeps `ScanOnFrames` when the published frames from the scan start
have length words at most the capacity and the scan bound is inside the term. -/
theorem controlledScan_onFrames {σ : Type} (tb : AtomicBuffer)
    (h : controlled_poll_fragment_handler_t σ) (limit endOffset start base startOffset : Int)
    (hcap : tb.capacity ≤ 1073741824) (hend : endOffset ≤ tb.capacity)
    (hb : PublishedBounded tb startOffset)
    (hlo : INT64_MIN ≤ base) (hhi : base + 2147483648 ≤ INT64_MAX)
    (fuel : Nat) (st : ControlledPollState σ) (out : ControlledPollState σ × Option Thrown)
    (hinv : ScanOnFrames tb endOffset start base startOffset st)
    (hout : controlledPollLoop tb h limit endOffset fuel st = some out) :
    ScanOnFrames tb endOffset start base startOffset out.1 :=
  controlledPollLoop_invariant tb h limit endOffset
    (ScanOnFrames tb endOffset start base startOffset)
    (fun st st1 hi ht => scanOnFrames_turn tb h limit endOffset start base startOffset hcap
      hend hb hlo hhi st st1 hi ht)
    fuel st out hinv hout

/-! ## The block scanner -/

/-- The block scanner returns a `std::int32_t` when it starts at one. -/
theorem scanLoop_range (tb : AtomicBuffer) (termOffset limitOffset : Int) :
    ∀ (fuel : Nat) (offset ro : Int),
      -2147483648 ≤ offset → offset ≤ 2147483647 →
      TermBlockScanner.scanLoop tb termOffset limitOffset fuel offset = some ro →
      -2147483648 ≤ ro ∧ ro ≤ 2147483647 := by
  intro fuel
  induction fuel with
  | zero =>
    intro offset ro _ _ hr
    simp [TermBlockScanner.scanLoop] at hr
  | succ fuel ih =>
    intro offset ro h1 h2 hr
    have hw : ∀ x, -2147483648 ≤ wrap32 x ∧ wrap32 x ≤ 2147483647 := by
      intro x
      unfold wrap32
      omega
    rw [TermBlockScanner.scanLoop] at hr
    simp only at hr
    split at hr
    · cases hr
      exact ⟨h1, h2⟩
    · split at hr
      · split at hr
        · cases hr
          exact hw _
        · cases hr
          exact ⟨h1, h2⟩
      · split at hr
        · cases hr
          exact ⟨h1, h2⟩
        · exact ih _ ro (hw _).1 (hw _).2 hr

/-- The block scanner moves by multiples of the frame alignment, whatever the log holds. -/
theorem scanLoop_aligned (tb : AtomicBuffer) (termOffset limitOffset : Int) :
    ∀ (fuel : Nat) (offset ro : Int),
      TermBlockScanner.scanLoop tb termOffset limitOffset fuel offset = some ro →
      (ro - offset) % 32 = 0 := by
  intro fuel
  induction fuel with
  | zero =>
    intro offset ro hr
    simp [TermBlockScanner.scanLoop] at hr
  | succ fuel ih =>
    intro offset ro hr
    have ha := align_emod (frameLengthVolatile tb offset)
    have hw := wrap32_emod (offset + align (frameLengthVolatile tb offset) FRAME_ALIGNMENT)
    rw [TermBlockScanner.scanLoop] at hr
    simp only at hr
    split at hr
    · cases hr
      omega
    · split at hr
      · split at hr
        · cases hr
          omega
        · cases hr
          omega
      · split at hr
        · cases hr
          omega
        · have := ih _ ro hr
          omega

/-- The block scanner returns on a log whose length words inside the term do not exceed the
capacity and whose word at the term end reads as unpublished, once the fuel covers the
frames up to the limit. -/
theorem scanLoop_terminates (tb : AtomicBuffer) (termOffset limitOffset : Int)
    (hcap : tb.capacity ≤ 1073741824) (hlim : limitOffset ≤ tb.capacity)
    (hb : LengthsBounded tb)
    (hlast : frameLengthVolatile tb tb.capacity ≤ 0) :
    ∀ (fuel : Nat) (offset : Int),
      0 ≤ offset → offset ≤ tb.capacity → 1 ≤ fuel →
      tb.capacity - offset + 64 ≤ 32 * fuel →
      ∃ ro, TermBlockScanner.scanLoop tb termOffset limitOffset fuel offset = some ro := by
  intro fuel
  induction fuel with
  | zero =>
    intro offset _ _ h1 _
    omega
  | succ fuel ih =>
    intro offset h0 hle _ hfuel
    rw [TermBlockScanner.scanLoop]
    simp only
    by_cases hl : frameLengthVolatile tb offset ≤ 0
    · simp only [hl, if_true]
      exact ⟨_, rfl⟩
    · simp only [hl, if_false]
      have hlt : offset < tb.capacity := by
        rcases lt_or_eq_of_le hle with hlt | heq
        · exact hlt
        · rw [heq] at hl
          exact absurd hlast hl
      have hlen : frameLengthVolatile tb offset ≤ tb.capacity := hb offset h0 hlt
      have hbd := alignedLength_bounds (frameLengthVolatile tb offset)
      have hal : align (frameLengthVolatile tb offset) FRAME_ALIGNMENT =
          alignedLength (frameLengthVolatile tb offset) := by
        rw [align_eq, wrap32_of_range (by omega) (by omega)]
      have hw : wrap32 (offset + alignedLength (frameLengthVolatile tb offset)) =
          offset + alignedLength (frameLengthVolatile tb offset) :=
        wrap32_of_range (by omega) (by omega)
      simp only [hal, hw]
      split
      · split
        · exact ⟨_, rfl⟩
        · exact ⟨_, rfl⟩
      · split
        · exact ⟨_, rfl⟩
        · rename_i hgt
          exact ih _ (by omega) (by omega) (by omega) (by omega)

/-! ## Counter writes of each operation -/

/-- Every value a `controlledPoll` writes is frame-aligned when the counter starts
frame-aligned. -/
theorem controlledPoll_writes_aligned {σ : Type} (img : Image)
    (hstart : img.subscriberPosition % 32 = 0) (fuel : Nat)
    (h : controlled_poll_fragment_handler_t σ) (s : σ) (limit : Int) (r : PollResult σ)
    (hr : img.controlledPoll fuel h s limit = some r) : ∀ w ∈ r.writes, w % 32 = 0 := by
  cases hopen : img.isClosed with
  | true =>
    rw [controlledPoll_closed img h s limit fuel hopen] at hr
    cases hr
    intro w hw
    simp at hw
  | false =>
    rw [controlledPoll_open img h s limit fuel hopen] at hr
    obtain ⟨out, hout, rfl⟩ := Option.map_eq_some'.mp hr
    exact controlledScan_aligned img _ h limit _ fuel _ out (scanStart_aligned img s hstart) hout

/-- Every value a `boundedControlledPoll` writes is frame-aligned when the counter starts
frame-aligned. -/
theorem boundedControlledPoll_writes_aligned {σ : Type} (img : Image)
    (hstart : img.subscriberPosition % 32 = 0) (fuel : Nat)
    (h : controlled_poll_fragment_handler_t σ) (s : σ) (maxPosition limit : Int)
    (r : PollResult σ)
    (hr : img.boundedControlledPoll fuel h s maxPosition limit = some r) :
    ∀ w ∈ r.writes, w % 32 = 0 := by
  cases hopen : img.isClosed with
  | true =>
    rw [boundedControlledPoll_closed img h s maxPosition limit fuel hopen] at hr
    cases hr
    intro w hw
    simp at hw
  | false =>
    rw [boundedControlledPoll_open img h s maxPosition limit fuel hopen] at hr
    obtain ⟨out, hout, rfl⟩ := Option.map_eq_some'.mp hr
    exact controlledScan_aligned img _ h limit _ fuel _ out (scanStart_aligned img s hstart) hout

/-- What an open `blockPoll` has done, in terms of the offset the scanner returned: with a
block, the handler is invoked once; unless an exception leaves the call, the counter is
advanced by the block length, which is returned. -/
theorem blockPoll_result {σ : Type} (img : Image) (fuel : Nat) (h : block_handler_t σ) (s : σ)
    (limit : Int) (r : BlockPollResult σ) (hopen : img.isClosed = false)
    (hr : img.blockPoll fuel h s limit = some r) :
    ∃ ro, TermBlockScanner.scan fuel img.termBuffer img.termOffset
        (min (wrap32 (img.termOffset + limit)) img.termBuffer.capacity) = some ro ∧
      (ro > img.termOffset →
        r.calls = [(img.termOffset, wrap32 (ro - img.termOffset), img.sessionId,
          termIdAt img.termBuffer img.termOffset)] ∧
        r.handlerState = (h s img.termOffset (wrap32 (ro - img.termOffset)) img.sessionId
          (termIdAt img.termBuffer img.termOffset)).2 ∧
        r.errors = handedOver (thrownBy (h s img.termOffset (wrap32 (ro - img.termOffset))
          img.sessionId (termIdAt img.termBuffer img.termOffset)).1) ∧
        r.propagated = img.propagates (thrownBy (h s img.termOffset
          (wrap32 (ro - img.termOffset)) img.sessionId
          (termIdAt img.termBuffer img.termOffset)).1) ∧
        (r.propagated = false →
          r.result = wrap32 (ro - img.termOffset) ∧
          r.writes = [wrap64 (img.subscriberPosition + wrap32 (ro - img.termOffset))] ∧
          r.image =
            { img with subscriberPosition := wrap64 (img.subscriberPosition + r.result) }) ∧
        (r.propagated = true → r.result = 0 ∧ r.writes = [] ∧ r.image = img)) ∧
      (¬ ro > img.termOffset →
        r.result = wrap32 (ro - img.termOffset) ∧
        r.writes = [] ∧ r.image = img ∧ r.calls = [] ∧ r.handlerState = s ∧ r.errors = [] ∧
        r.propagated = false) := by
  unfold Image.blockPoll at hr
  rw [if_pos (by rw [hopen]; rfl)] at hr
  obtain ⟨ro, hro, rfl⟩ := Option.map_eq_some'.mp hr
  refine ⟨ro, hro, ?_, ?_⟩
  · intro hgt
    have hgt1 : ro > wrap32 (Int.land img.subscriberPosition img.termLengthMask) := hgt
    simp only [if_pos hgt1]
    rcases Bool.eq_false_or_eq_true (img.propagates (thrownBy (h s
      (wrap32 (Int.land img.subscriberPosition img.termLengthMask))
      (wrap32 (ro - wrap32 (Int.land img.subscriberPosition img.termLengthMask)))
      img.sessionId
      (termIdAt (img.termBuffers (indexByPosition img.subscriberPosition
        img.positionBitsToShift))
        (wrap32 (Int.land img.subscriberPosition img.termLengthMask)))).1)) with hp | hp
    · simp only [hp, if_true]
      refine ⟨?_, ?_, ?_, ?_, ?_, ?_⟩ <;>
        first
        | rfl
        | trivial
        | exact hp.symm
        | (intro hc; exact absurd hc (by decide))
    · simp only [hp, Bool.false_eq_true, if_false]
      refine ⟨?_, ?_, ?_, ?_, ?_, ?_⟩ <;>
        first
        | rfl
        | trivial
        | exact hp.symm
        | (intro hc; exact absurd hc (by decide))
        | (intro _; refine ⟨?_, ?_, ?_⟩ <;> first | rfl | trivial)
  · intro hgt
    have hgt1 : ¬ ro > wrap32 (Int.land img.subscriberPosition img.termLengthMask) := hgt
    simp only [if_neg hgt1]
    refine ⟨?_, ?_, ?_, ?_, ?_, ?_, ?_⟩ <;> first | rfl | trivial

/-- A closed `blockPoll` does nothing. -/
theorem blockPoll_closed {σ : Type} (img : Image) (fuel : Nat) (h : block_handler_t σ) (s : σ)
    (limit : Int) (hclosed : img.isClosed = true) :
    img.blockPoll fuel h s limit =
      some { result := 0, image := img, handlerState := s, writes := [], calls := [],
             errors := [] } := by
  simp [Image.blockPoll, hclosed]

/-- Every value a `blockPoll` writes is frame-aligned when the counter starts
frame-aligned. -/
theorem blockPoll_writes_aligned {σ : Type} (img : Image)
    (hstart : img.subscriberPosition % 32 = 0) (fuel : Nat) (h : block_handler_t σ) (s : σ)
    (limit : Int) (r : BlockPollResult σ) (hr : img.blockPoll fuel h s limit = some r) :
    ∀ w ∈ r.writes, w % 32 = 0 := by
  cases hopen : img.isClosed with
  | true =>
    rw [blockPoll_closed img fuel h s limit hopen] at hr
    cases hr
    intro w hw
    simp at hw
  | false =>
    obtain ⟨ro, hro, hyes, hno⟩ := blockPoll_result img fuel h s limit r hopen hr
    have hal := scanLoop_aligned _ _ _ _ _ _ hro
    intro w hw
    by_cases hgt : ro > img.termOffset
    · obtain ⟨_, _, _, _, hkeep, hleft⟩ := hyes hgt
      rcases Bool.eq_false_or_eq_true r.propagated with hp | hp
      · rw [(hleft hp).2.1] at hw
        simp at hw
      · rw [(hkeep hp).2.1, List.mem_singleton] at hw
        rw [hw, wrap64_emod]
        have := wrap32_emod (ro - img.termOffset)
        omega
    · rw [(hno hgt).2.1] at hw
      simp at hw

/-- Under the geometry, the start of the current term is a `std::int64_t` no larger than the
counter. -/
theorem term_start_bounds (img : Image) (k : Nat) (hgeo : img.Geometry k)
    (hlo : INT64_MIN ≤ img.subscriberPosition) :
    INT64_MIN ≤ img.subscriberPosition - img.termOffset ∧
    img.subscriberPosition - img.termOffset ≤ img.subscriberPosition := by
  obtain ⟨e, o0, _, _, _⟩ := geometry_facts img k hgeo
  unfold INT64_MIN at hlo ⊢
  have := floor_ge_min img.subscriberPosition k (by have := hgeo.k_le; omega) hlo
  rw [e]
  rw [e] at o0
  omega

/-- The state in which the scans start satisfies `ScanOnFrames` when the scan bound is not
below the term offset. -/
theorem scanStart_onFrames {σ : Type} (img : Image) (k : Nat) (s : σ) (endOffset : Int)
    (hgeo : img.Geometry k) (hstart : img.termOffset ≤ endOffset) :
    ScanOnFrames img.termBuffer endOffset img.subscriberPosition
      (img.subscriberPosition - img.termOffset) img.termOffset (img.scanStart s) :=
  ⟨scanStart_inRange img k s hgeo, FrameStart.first, Or.inl hstart, Or.inr rfl⟩

/-- What an open bounded or unbounded controlled scan leaves when the published frames from
the term offset on have length words at most the capacity and the scan bound is inside the
term: the writes never go down, the counter ends at the last one, at the position of the
scan offset after the publish step and at the position of the committed offset when an
exception leaves the call, and the final state satisfies `ScanOnFrames`. -/
theorem controlledScan_result {σ : Type} (img : Image) (k : Nat)
    (h : controlled_poll_fragment_handler_t σ) (s : σ) (limit endOffset : Int) (fuel : Nat)
    (out : ControlledPollState σ × Option Thrown)
    (hgeo : img.Geometry k) (hlo : INT64_MIN ≤ img.subscriberPosition)
    (hroom : img.subscriberPosition + 2147483648 ≤ INT64_MAX)
    (hb : PublishedBounded img.termBuffer img.termOffset)
    (hend : endOffset ≤ img.termBuffer.capacity)
    (hstart : img.termOffset ≤ endOffset)
    (hout : controlledPollLoop img.termBuffer h limit endOffset fuel (img.scanStart s) = some out) :
    NonDecreasingFrom img.subscriberPosition (controlledPollFinish img out).writes ∧
    (controlledPollFinish img out).image.subscriberPosition =
      counterAfter img.subscriberPosition (controlledPollFinish img out).writes ∧
    (img.propagates out.2 = false →
      (controlledPollFinish img out).image.subscriberPosition =
        img.subscriberPosition - img.termOffset + out.1.resultingOffset) ∧
    (img.propagates out.2 = true →
      (controlledPollFinish img out).image.subscriberPosition =
        img.subscriberPosition - img.termOffset + out.1.initialOffset) ∧
    ScanOnFrames img.termBuffer endOffset img.subscriberPosition
      (img.subscriberPosition - img.termOffset) img.termOffset out.1 := by
  obtain ⟨_, _, _, hcap, hle⟩ := geometry_facts img k hgeo
  obtain ⟨b1, b2⟩ := term_start_bounds img k hgeo hlo
  have hhi : img.subscriberPosition - img.termOffset + 2147483648 ≤ INT64_MAX := by omega
  have hinv := controlledScan_onFrames img.termBuffer h limit endOffset
    img.subscriberPosition (img.subscriberPosition - img.termOffset) img.termOffset
    (by omega) hend hb b1 hhi fuel (img.scanStart s) out
    (scanStart_onFrames img k s endOffset hgeo hstart) hout
  obtain ⟨f1, f2, f3, f4⟩ := controlledPollFinish_inRange img img.subscriberPosition
    (img.subscriberPosition - img.termOffset) out b1 hhi hinv.inRange
  exact ⟨f1, f2, f3, f4, hinv⟩

/-- The writes of a `controlledPoll` never go down when the published frames from the term
offset on have length words at most the capacity. -/
theorem controlledPoll_writes_ordered {σ : Type} (img : Image) (k : Nat)
    (hgeo : img.Geometry k) (hlo : INT64_MIN ≤ img.subscriberPosition)
    (hroom : img.subscriberPosition + 2147483648 ≤ INT64_MAX)
    (hb : PublishedBounded img.termBuffer img.termOffset) (fuel : Nat)
    (h : controlled_poll_fragment_handler_t σ) (s : σ) (limit : Int) (r : PollResult σ)
    (hr : img.controlledPoll fuel h s limit = some r) :
    NonDecreasingFrom img.subscriberPosition r.writes ∧
    r.image.subscriberPosition = counterAfter img.subscriberPosition r.writes := by
  cases hopen : img.isClosed with
  | true =>
    rw [controlledPoll_closed img h s limit fuel hopen] at hr
    cases hr
    exact ⟨trivial, rfl⟩
  | false =>
    rw [controlledPoll_open img h s limit fuel hopen] at hr
    obtain ⟨out, hout, rfl⟩ := Option.map_eq_some'.mp hr
    obtain ⟨_, _, o1, hcap, _⟩ := geometry_facts img k hgeo
    obtain ⟨f1, f2, _⟩ := controlledScan_result img k h s limit _ fuel out hgeo hlo hroom hb
      (le_refl _) (by omega) hout
    exact ⟨f1, f2⟩

/-- A controlled scan whose offset is not below the scan bound leaves its loop at once. -/
theorem controlledPollLoop_empty {σ : Type} (tb : AtomicBuffer)
    (h : controlled_poll_fragment_handler_t σ) (limit endOffset : Int) (fuel : Nat)
    (st : ControlledPollState σ) (out : ControlledPollState σ × Option Thrown)
    (hge : ¬ st.resultingOffset < endOffset)
    (hout : controlledPollLoop tb h limit endOffset fuel st = some out) : out = (st, none) := by
  cases fuel with
  | zero => simp [controlledPollLoop] at hout
  | succ n =>
    rw [controlledPollLoop] at hout
    have hg : ¬ (st.fragmentsRead < limit ∧ st.resultingOffset < endOffset) :=
      fun hc => hge hc.2
    simp only [hg, if_false, Option.some.injEq] at hout
    exact hout.symm

/-- The writes of a `boundedControlledPoll` never go down when the published frames from the
term offset on have length words at most the capacity and the scan bound is inside the
term. -/
theorem boundedControlledPoll_writes_ordered {σ : Type} (img : Image) (k : Nat)
    (hgeo : img.Geometry k) (hlo : INT64_MIN ≤ img.subscriberPosition)
    (hroom : img.subscriberPosition + 2147483648 ≤ INT64_MAX)
    (hb : PublishedBounded img.termBuffer img.termOffset) (fuel : Nat)
    (h : controlled_poll_fragment_handler_t σ) (s : σ) (maxPosition limit : Int)
    (r : PollResult σ) (hend : img.endOffset maxPosition ≤ img.termBuffer.capacity)
    (hr : img.boundedControlledPoll fuel h s maxPosition limit = some r) :
    NonDecreasingFrom img.subscriberPosition r.writes ∧
    r.image.subscriberPosition = counterAfter img.subscriberPosition r.writes := by
  cases hopen : img.isClosed with
  | true =>
    rw [boundedControlledPoll_closed img h s maxPosition limit fuel hopen] at hr
    cases hr
    exact ⟨trivial, rfl⟩
  | false =>
    rw [boundedControlledPoll_open img h s maxPosition limit fuel hopen] at hr
    obtain ⟨out, hout, rfl⟩ := Option.map_eq_some'.mp hr
    by_cases hstart : img.termOffset ≤ img.endOffset maxPosition
    · obtain ⟨f1, f2, _⟩ := controlledScan_result img k h s limit _ fuel out hgeo hlo hroom hb
        hend hstart hout
      exact ⟨f1, f2⟩
    · have he := controlledPollLoop_empty img.termBuffer h limit _ fuel (img.scanStart s) out
        (by simp only [Image.scanStart]; omega) hout
      obtain ⟨b1, b2⟩ := term_start_bounds img k hgeo hlo
      obtain ⟨f1, f2, _⟩ := controlledPollFinish_inRange img img.subscriberPosition
        (img.subscriberPosition - img.termOffset) out b1 (by omega)
        (by rw [he]; exact scanStart_inRange img k s hgeo)
      exact ⟨f1, f2⟩

/-- The write of a `poll` never goes down, whatever the log holds: it is guarded by
`newPosition > position`. -/
theorem poll_writes_ordered {σ : Type} (img : Image) (fuel : Nat) (h : fragment_handler_t σ)
    (s : σ) (limit : Int) (r : PollResult σ) (hr : img.poll fuel h s limit = some r) :
    NonDecreasingFrom img.subscriberPosition r.writes ∧
    r.image.subscriberPosition = counterAfter img.subscriberPosition r.writes := by
  unfold Image.poll at hr
  split at hr
  · obtain ⟨out, _, rfl⟩ := Option.map_eq_some'.mp hr
    unfold pollFinish
    simp only
    split
    · exact ⟨trivial, rfl⟩
    · split
      · rename_i hgt
        exact ⟨⟨le_of_lt hgt, trivial⟩, rfl⟩
      · exact ⟨trivial, rfl⟩
  · cases hr
    exact ⟨trivial, rfl⟩

/-- The write of a `blockPoll` never goes down, whatever the log holds. -/
theorem blockPoll_writes_ordered {σ : Type} (img : Image) (k : Nat)
    (hgeo : img.Geometry k) (hlo : INT64_MIN ≤ img.subscriberPosition)
    (hroom : img.subscriberPosition + 2147483648 ≤ INT64_MAX) (fuel : Nat)
    (h : block_handler_t σ) (s : σ) (limit : Int) (r : BlockPollResult σ)
    (hr : img.blockPoll fuel h s limit = some r) :
    NonDecreasingFrom img.subscriberPosition r.writes ∧
    r.image.subscriberPosition = counterAfter img.subscriberPosition r.writes := by
  cases hopen : img.isClosed with
  | true =>
    rw [blockPoll_closed img fuel h s limit hopen] at hr
    cases hr
    exact ⟨trivial, rfl⟩
  | false =>
    obtain ⟨ro, hro, hyes, hno⟩ := blockPoll_result img fuel h s limit r hopen hr
    obtain ⟨_, o0, o1, _, hle⟩ := geometry_facts img k hgeo
    obtain ⟨r1, r2⟩ := scanLoop_range _ _ _ _ _ _ (by omega) (by omega) hro
    unfold INT64_MIN at hlo
    unfold INT64_MAX at hroom
    by_cases hgt : ro > img.termOffset
    · obtain ⟨_, _, _, _, hkeep, hleft⟩ := hyes hgt
      rcases Bool.eq_false_or_eq_true r.propagated with hp | hp
      · obtain ⟨_, hw, hi⟩ := hleft hp
        rw [hw, hi]
        exact ⟨trivial, rfl⟩
      · obtain ⟨hres, hw, hi⟩ := hkeep hp
        have e1 : wrap32 (ro - img.termOffset) = ro - img.termOffset :=
          wrap32_of_range (by omega) (by omega)
        have e2 : wrap64 (img.subscriberPosition + (ro - img.termOffset)) =
            img.subscriberPosition + (ro - img.termOffset) :=
          wrap64_of_range (by omega) (by omega)
        rw [hw, hi, hres, e1, e2]
        exact ⟨⟨by omega, trivial⟩, rfl⟩
    · obtain ⟨_, hw, hi, _⟩ := hno hgt
      rw [hw, hi]
      exact ⟨trivial, rfl⟩

/-- A `poll` returns when no length word inside the current term exceeds the term capacity
and the fuel covers `capacity / 32 + 2` turns. -/
theorem poll_returns {σ : Type} (img : Image) (k : Nat) (h : fragment_handler_t σ) (s : σ)
    (limit : Int) (fuel : Nat) (hgeo : img.Geometry k) (hb : LengthsBounded img.termBuffer)
    (hfuel : (2:Int) ^ k + 64 ≤ 32 * fuel) : ∃ r, img.poll fuel h s limit = some r := by
  rw [← controlledPoll_continueAfter]
  exact controlledPoll_returns img k (continueAfter h) s limit fuel hgeo hb hfuel

/-- A `boundedControlledPoll` whose scan bound is inside the term returns when no length
word inside the current term exceeds the term capacity and the fuel covers
`capacity / 32 + 2` turns. -/
theorem boundedControlledPoll_returns {σ : Type} (img : Image) (k : Nat)
    (h : controlled_poll_fragment_handler_t σ) (s : σ) (maxPosition limit : Int) (fuel : Nat)
    (hgeo : img.Geometry k) (hb : LengthsBounded img.termBuffer)
    (hend : img.endOffset maxPosition ≤ img.termBuffer.capacity)
    (hfuel : (2:Int) ^ k + 64 ≤ 32 * fuel) :
    ∃ r, img.boundedControlledPoll fuel h s maxPosition limit = some r := by
  cases hopen : img.isClosed with
  | true =>
    exact ⟨_, boundedControlledPoll_closed img h s maxPosition limit fuel hopen⟩
  | false =>
    obtain ⟨_, h0, _, hcap, hle⟩ := geometry_facts img k hgeo
    have hpos : (0:Int) < 2 ^ k := by positivity
    obtain ⟨out, hout⟩ := controlledPollLoop_terminates img.termBuffer h limit
      (img.endOffset maxPosition) (by omega) hend hb fuel (img.scanStart s) h0 (by omega)
      (by simp only [Image.scanStart]; omega)
    rw [boundedControlledPoll_open img h s maxPosition limit fuel hopen, hout]
    exact ⟨_, rfl⟩

/-- A `blockPoll` returns when no length word inside the current term exceeds the term
capacity, the word at the term end reads as unpublished, and the fuel covers
`capacity / 32 + 2` frames. -/
theorem blockPoll_returns {σ : Type} (img : Image) (k : Nat) (h : block_handler_t σ) (s : σ)
    (limit : Int) (fuel : Nat) (hgeo : img.Geometry k) (hb : LengthsBounded img.termBuffer)
    (hlast : frameLengthVolatile img.termBuffer img.termBuffer.capacity ≤ 0)
    (hfuel : (2:Int) ^ k + 64 ≤ 32 * fuel) : ∃ r, img.blockPoll fuel h s limit = some r := by
  cases hopen : img.isClosed with
  | true =>
    exact ⟨_, blockPoll_closed img fuel h s limit hopen⟩
  | false =>
    obtain ⟨_, h0, h1, hcap, hle⟩ := geometry_facts img k hgeo
    have hpos : (0:Int) < 2 ^ k := by positivity
    obtain ⟨ro, hro⟩ := scanLoop_terminates img.termBuffer img.termOffset
      (min (wrap32 (img.termOffset + limit)) img.termBuffer.capacity) (by omega)
      (min_le_right _ _) hb hlast fuel img.termOffset h0 (by omega) (by omega) (by omega)
    have hscan : TermBlockScanner.scan fuel img.termBuffer img.termOffset
        (min (wrap32 (img.termOffset + limit)) img.termBuffer.capacity) = some ro := hro
    unfold Image.blockPoll
    rw [if_pos (by rw [hopen]; rfl)]
    have hscan1 : TermBlockScanner.scan fuel
        (img.termBuffers (indexByPosition img.subscriberPosition img.positionBitsToShift))
        (wrap32 (Int.land img.subscriberPosition img.termLengthMask))
        (min (wrap32 (wrap32 (Int.land img.subscriberPosition img.termLengthMask) + limit))
          (img.termBuffers
            (indexByPosition img.subscriberPosition img.positionBitsToShift)).capacity) =
        some ro := hscan
    simp only [hscan1, Option.map_some']
    exact ⟨_, rfl⟩

/-- No length word of the example log exceeds the capacity. -/
theorem twoFrameImage_lengths : LengthsBounded twoFrameImage.termBuffer := by
  intro offset _ _
  show (if offset = 0 then (48:Int) else if offset = 64 then 40 else 0) ≤ 1024
  split
  · decide
  · split <;> decide

/-! ## C11: a bound at or below the current position -/

/-- C11, the code at an input where it departs from the specified behaviour. The counter holds
3221225472, the start of a term whose first two frames are published, and `maxPosition`
is 0, below the counter. `(maxPosition - initialPosition) + initialOffset` is -3221225472;
`static_cast<std::int32_t>` turns it into 1073741824, so `endOffset` is above
`initialOffset = 0`, the scan is not empty: the handler is invoked on both frames,
2 is returned and the counter is written with 3221225600. -/
theorem C11_bound_below_position_truncated :
    (0 : Int) ≤ farImage.subscriberPosition ∧
    farImage.termOffset = 0 ∧
    farImage.endOffset 0 = 1073741824 ∧
    (farImage.boundedControlledPoll 10 (always ControlledPollAction.CONTINUE) 0 0 10).map
      (fun r => (r.result, r.calls, r.writes, r.image.subscriberPosition)) =
      some (2, [(32, 16), (96, 8)], [3221225600], 3221225600) := by
  decide

/-! ## C12: the bound of boundedControlledPoll -/

/-- C12 fails as stated: over the example log, `boundedControlledPoll` with
`maxPosition = 32`, inside the first frame, consumes that frame whole and leaves the
counter at 64, above `maxPosition`. -/
theorem C12_straddling_frame_counterexample :
    twoFrameImage.subscriberPosition ≤ 32 ∧
    (twoFrameImage.boundedControlledPoll 10 (always ControlledPollAction.CONTINUE) 0 32 10).map
      (fun r => (r.result, r.image.subscriberPosition)) = some (1, 64) ∧
    ¬ ((64 : Int) ≤ 32) := by
  decide

/-- C12, amended. For a counter value `p ≥ 0` with 2 GiB of `std::int64_t` room above it, a
log whose published frames from the term offset on have length words at most the capacity
(nothing is asked of the words inside the frames), every handler and `fragmentLimit` and
every `maxPosition ≥ p`, `boundedControlledPoll` ends, also when an exception leaves it,
and the subscriber position after the call is at most `maxPosition`, or it is the end of
a published frame that starts below `maxPosition`: a frame that straddles `maxPosition`
is consumed whole. -/
theorem C12_bounded_by_frame_start {σ : Type} (img : Image) (k : Nat)
    (h : controlled_poll_fragment_handler_t σ) (s : σ) (maxPosition limit : Int) (fuel : Nat)
    (hgeo : img.Geometry k) (h0 : 0 ≤ img.subscriberPosition)
    (hroom : img.subscriberPosition + 2147483648 ≤ INT64_MAX)
    (hb : PublishedBounded img.termBuffer img.termOffset)
    (hmax : img.subscriberPosition ≤ maxPosition) (hint : maxPosition ≤ INT64_MAX)
    (hfuel : (2:Int) ^ k + 64 ≤ 32 * fuel) :
    ∃ r, img.boundedControlledPoll fuel h s maxPosition limit = some r ∧
      (r.image.subscriberPosition ≤ maxPosition ∨
       ∃ offset, FrameStart img.termBuffer img.termOffset offset ∧ 0 ≤ offset ∧
         img.subscriberPosition - img.termOffset + offset < maxPosition ∧
         0 < frameLengthVolatile img.termBuffer offset ∧
         r.image.subscriberPosition = img.subscriberPosition - img.termOffset + offset +
           alignedLength (frameLengthVolatile img.termBuffer offset)) := by
  obtain ⟨_, o0, o1, hcap, hle⟩ := geometry_facts img k hgeo
  have hlo : INT64_MIN ≤ img.subscriberPosition := by unfold INT64_MIN; omega
  have he := endOffset_eq img k maxPosition hgeo h0 (by omega) hint
  have hend : img.endOffset maxPosition ≤ img.termBuffer.capacity := by
    rw [he, hcap]; exact min_le_left _ _
  have hend2 : img.endOffset maxPosition ≤ maxPosition - (img.subscriberPosition - img.termOffset) := by
    rw [he]; exact min_le_right _ _
  have hstart : img.termOffset ≤ img.endOffset maxPosition := by
    rw [he]; exact le_min (by omega) (by omega)
  rcases Bool.eq_false_or_eq_true img.isClosed with hopen | hopen
  · exact ⟨_, boundedControlledPoll_closed img h s maxPosition limit fuel hopen, Or.inl hmax⟩
  · have hpos : (0:Int) < 2 ^ k := by positivity
    obtain ⟨out, hout⟩ := controlledPollLoop_terminates_published img.termBuffer h limit
      (img.endOffset maxPosition) img.termOffset (by omega) hend hb fuel (img.scanStart s)
      FrameStart.first o0 (by omega) (by simp only [Image.scanStart]; omega)
    refine ⟨controlledPollFinish img out, ?_, ?_⟩
    · rw [boundedControlledPoll_open img h s maxPosition limit fuel hopen, hout]
      rfl
    · obtain ⟨_, _, f3, f4, hinv⟩ := controlledScan_result img k h s limit _ fuel out hgeo hlo
        hroom hb hend hstart hout
      have hbelow : ∀ position : Int,
          position = img.subscriberPosition - img.termOffset + out.1.resultingOffset →
          position ≤ maxPosition ∨
          ∃ offset, FrameStart img.termBuffer img.termOffset offset ∧ 0 ≤ offset ∧
            img.subscriberPosition - img.termOffset + offset < maxPosition ∧
            0 < frameLengthVolatile img.termBuffer offset ∧
            position = img.subscriberPosition - img.termOffset + offset +
              alignedLength (frameLengthVolatile img.termBuffer offset) := by
        intro position hp
        rcases hinv.below with q | ⟨offset, qf, q0, q1, q2, q3⟩
        · exact Or.inl (by omega)
        · exact Or.inr ⟨offset, qf, q0, by omega, q2, by rw [hp, q3]; omega⟩
      rcases Bool.eq_false_or_eq_true (img.propagates out.2) with hp | hp
      · rcases hinv.committed with hc | hc
        · exact Or.inl (by rw [f4 hp]; omega)
        · exact hbelow _ (by rw [f4 hp, hc])
      · exact hbelow _ (f3 hp)

/-- The geometry of the Image over `payloadTerm`. -/
theorem payloadImage_geometry : payloadImage.Geometry 10 :=
  ⟨by decide, by decide, rfl, fun _ => show (1024 : Int) = 2 ^ 10 by decide⟩

/-- The frame starts of `payloadTerm` from the term offset of `payloadImage` are 0, 64 and
128. -/
theorem payloadImage_frameStarts (offset : Int)
    (hf : FrameStart payloadImage.termBuffer payloadImage.termOffset offset) :
    offset = 0 ∨ offset = 64 ∨ offset = 128 := by
  induction hf with
  | first => exact Or.inl (by decide)
  | next o _ hlt hpos ih =>
    rcases ih with rfl | rfl | rfl
    · exact Or.inr (Or.inl (by decide))
    · exact Or.inr (Or.inr (by decide))
    · exact absurd hpos (by decide)

/-- The published frames of `payloadTerm` have length words at most the capacity. -/
theorem payloadImage_published :
    PublishedBounded payloadImage.termBuffer payloadImage.termOffset := by
  intro offset hf _
  rcases payloadImage_frameStarts offset hf with rfl | rfl | rfl <;> decide

/-- The payload word of `payloadTerm` at offset 32 reads as a length above the capacity: the
log has a word inside the term that is not a frame length and exceeds the capacity. -/
theorem payloadImage_payload_word : ¬ LengthsBounded payloadImage.termBuffer :=
  fun hb => absurd (hb 32 (by decide) (by decide)) (by decide)

/-- C12 amended, at the counterexample's input with a payload word that would read as a
length above the capacity: with `maxPosition = 32` the call leaves the counter at 64, the
end of the frame of length 48 that starts at 0, below 32. -/
theorem C12_bounded_by_frame_start_witness :
    ∃ r, payloadImage.boundedControlledPoll 40 (always ControlledPollAction.CONTINUE) 0 32 10
        = some r ∧
      (r.image.subscriberPosition ≤ 32 ∨
       ∃ offset, FrameStart payloadImage.termBuffer payloadImage.termOffset offset ∧
         0 ≤ offset ∧
         payloadImage.subscriberPosition - payloadImage.termOffset + offset < 32 ∧
         0 < frameLengthVolatile payloadImage.termBuffer offset ∧
         r.image.subscriberPosition =
           payloadImage.subscriberPosition - payloadImage.termOffset + offset +
           alignedLength (frameLengthVolatile payloadImage.termBuffer offset)) :=
  C12_bounded_by_frame_start payloadImage 10 (always ControlledPollAction.CONTINUE) 0 32 10 40
    payloadImage_geometry (by decide) (by decide) payloadImage_published (by decide)
    (by decide) (by decide)

/-! ## The peek loop -/

/-- The peek loop returns when the published frames from `start` on have length words at
most the capacity and the scan is at one of their starts, once the fuel covers the frames
up to the term end. -/
theorem controlledPeekLoop_terminates_published {σ : Type} (tb : AtomicBuffer)
    (h : controlled_poll_fragment_handler_t σ) (limit start : Int)
    (hcap : tb.capacity ≤ 1073741824) (hb : PublishedBounded tb start) :
    ∀ (fuel : Nat) (st : PeekState σ),
      FrameStart tb start st.offset →
      0 ≤ st.offset → 1 ≤ fuel →
      tb.capacity - st.offset + 64 ≤ 32 * fuel →
      ∃ out, controlledPeekLoop tb h limit tb.capacity fuel st = some out := by
  intro fuel
  induction fuel with
  | zero =>
    intro st _ _ h1 _
    omega
  | succ fuel ih =>
    intro st hfs hro _ hfuel
    rw [controlledPeekLoop]
    by_cases hg : st.position < limit ∧ st.offset < tb.capacity
    · simp only [hg, and_self, if_true]
      by_cases hl : frameLengthVolatile tb st.offset ≤ 0
      · simp only [hl, if_true]
        exact ⟨_, rfl⟩
      · simp only [hl, if_false]
        have hlen := hb st.offset hfs hg.2
        have hbd := alignedLength_bounds (frameLengthVolatile tb st.offset)
        have hal : align (frameLengthVolatile tb st.offset) FRAME_ALIGNMENT =
            alignedLength (frameLengthVolatile tb st.offset) := by
          rw [align_eq, wrap32_of_range (by omega) (by omega)]
        have hw : wrap32 (st.offset +
            alignedLength (frameLengthVolatile tb st.offset)) =
            st.offset + alignedLength (frameLengthVolatile tb st.offset) :=
          wrap32_of_range (by omega) (by omega)
        simp only [hal, hw]
        have hnext : ∀ st1 : PeekState σ,
            st1.offset = st.offset + alignedLength (frameLengthVolatile tb st.offset) →
            ∃ out, controlledPeekLoop tb h limit tb.capacity fuel st1 = some out := by
          intro st1 h1
          exact ih st1 (by rw [h1]; exact FrameStart.next _ hfs hg.2 (by omega))
            (by omega) (by omega) (by omega)
        cases hp : isPaddingFrame tb st.offset with
        | true =>
          simp only [if_true]
          exact hnext _ rfl
        | false =>
          simp only [Bool.false_eq_true, if_false]
          rcases hh : h st.handlerState (wrap32 (st.offset + DataFrameHeader.LENGTH))
            (wrap32 (frameLengthVolatile tb st.offset - DataFrameHeader.LENGTH))
            with ⟨out, s1⟩
          cases out with
          | raise ex => exact ⟨_, rfl⟩
          | ret action =>
            cases action with
            | ABORT => exact ⟨_, rfl⟩
            | BREAK => exact ⟨_, rfl⟩
            | COMMIT => exact hnext _ rfl
            | CONTINUE => exact hnext _ rfl
    · simp only [hg, if_false]
      exact ⟨_, rfl⟩

/-- The peek loop returns on a log whose length words inside the term do not exceed the
capacity, once the fuel covers the frames up to the term end. -/
theorem controlledPeekLoop_terminates {σ : Type} (tb : AtomicBuffer)
    (h : controlled_poll_fragment_handler_t σ) (limit : Int)
    (hcap : tb.capacity ≤ 1073741824) (hb : LengthsBounded tb) :
    ∀ (fuel : Nat) (st : PeekState σ),
      0 ≤ st.offset → 1 ≤ fuel →
      tb.capacity - st.offset + 64 ≤ 32 * fuel →
      ∃ out, controlledPeekLoop tb h limit tb.capacity fuel st = some out := by
  intro fuel st hro h1 hfuel
  exact controlledPeekLoop_terminates_published tb h limit st.offset hcap
    (publishedBounded_of_lengthsBounded tb _ hro hb) fuel st FrameStart.first hro h1 hfuel

/-- A closed `controlledPeek` returns `initialPosition` and does nothing. -/
theorem controlledPeek_closed {σ : Type} (img : Image) (ip : Int)
    (h : controlled_poll_fragment_handler_t σ) (s : σ) (limit : Int) (fuel : Nat)
    (hclosed : img.isClosed = true) :
    img.controlledPeek fuel ip h s limit =
      some { resultingPosition := ip, raised := none, image := img, handlerState := s,
             calls := [], errors := [] } := by
  simp [Image.controlledPeek, hclosed]

/-- An open `controlledPeek` at a position the validation rejects raises and does nothing
else. -/
theorem controlledPeek_invalid {σ : Type} (img : Image) (ip : Int)
    (h : controlled_poll_fragment_handler_t σ) (s : σ) (limit : Int) (fuel : Nat)
    (ex : StdException) (hopen : img.isClosed = false)
    (hv : img.validatePosition ip = some ex) :
    img.controlledPeek fuel ip h s limit =
      some { resultingPosition := ip, raised := some ex, image := img, handlerState := s,
             calls := [], errors := [] } := by
  unfold Image.controlledPeek
  rw [if_pos (by rw [hopen]; rfl), hv]

/-- An open `controlledPeek` at a valid position is the peek loop over the term of that
position, from `peekStart`. -/
theorem controlledPeek_open {σ : Type} (img : Image) (ip : Int)
    (h : controlled_poll_fragment_handler_t σ) (s : σ) (limit : Int) (fuel : Nat)
    (hopen : img.isClosed = false) (hv : img.validatePosition ip = none) :
    img.controlledPeek fuel ip h s limit =
      (controlledPeekLoop (img.termBufferAt ip) h limit (img.termBufferAt ip).capacity fuel
        (img.peekStart ip s)).map fun out =>
          { resultingPosition := out.1.resultingPosition, raised := none, image := img,
            handlerState := out.1.handlerState, calls := out.1.calls,
            errors := handedOver out.2, propagated := img.propagates out.2 } := by
  unfold Image.controlledPeek
  rw [if_pos (by rw [hopen]; rfl), hv]
  rfl

/-- Under the constructor's geometry the term offset of any position is the position mod
the capacity, and the term buffer it selects has that capacity. -/
theorem geometry_at (img : Image) (k : Nat) (ip : Int) (hgeo : img.Geometry k) :
    img.termOffsetAt ip = ip % 2 ^ k ∧
    0 ≤ img.termOffsetAt ip ∧ img.termOffsetAt ip < 2 ^ k ∧
    (img.termBufferAt ip).capacity = 2 ^ k ∧ (2:Int) ^ k ≤ 1073741824 :=
  geometry_facts { img with subscriberPosition := ip } k
    ⟨hgeo.k_le, hgeo.mask, hgeo.bits, hgeo.capacity⟩

/-- With a handler that always returns CONTINUE, the peek over published data frames
followed by nothing published returns the end of the last frame with END_FRAG among those
that start before the limit. -/
theorem peek_frames {σ : Type} (tb : AtomicBuffer) (h : controlled_poll_fragment_handler_t σ)
    (limit : Int) (hcap : tb.capacity ≤ 1073741824)
    (hcont : ∀ s o l, (h s o l).1 = Outcome.ret ControlledPollAction.CONTINUE) :
    ∀ (fs : List FrameDesc) (st : PeekState σ) (fuel : Nat),
      FramesAt tb st.offset fs → (∀ f ∈ fs, f.padding = false) →
      Unpublished tb (st.offset + framesLength fs) →
      st.initialOffset = st.offset → 0 ≤ st.offset →
      INT64_MIN ≤ st.position → st.position + (tb.capacity - st.offset) ≤ INT64_MAX →
      fs.length < fuel →
      ∃ out, controlledPeekLoop tb h limit tb.capacity fuel st = some (out, none) ∧
        out.resultingPosition =
          lastCompleteEnd tb limit st.position st.offset st.resultingPosition fs := by
  intro fs
  induction fs with
  | nil =>
    intro st fuel _ _ hun _ _ _ _ hfuel
    obtain ⟨m, rfl⟩ := Nat.exists_eq_add_of_lt hfuel
    simp only [framesLength, add_zero] at hun
    rw [List.length_nil, Nat.zero_add, controlledPeekLoop]
    refine ⟨st, ?_, rfl⟩
    by_cases hg : st.position < limit ∧ st.offset < tb.capacity
    · simp only [hg, and_self, if_true]
      rcases hun with hun | hun
      · omega
      · simp only [hun, if_true]
    · simp only [hg, if_false]
  | cons f fs ih =>
    intro st fuel hfr hdata hun hio h0 hlo hhi hfuel
    obtain ⟨hlen, hpad, hpos, hend, hrest⟩ := hfr
    have hfd : f.padding = false := hdata f (List.mem_cons_self _ _)
    rw [hfd] at hpad
    unfold INT64_MIN at hlo
    unfold INT64_MAX at hhi
    obtain ⟨m, hm⟩ : ∃ m, fuel = m + 1 := ⟨fuel - 1, by simp only [List.length_cons] at hfuel; omega⟩
    subst hm
    have hbd := alignedLength_bounds f.length
    rw [controlledPeekLoop]
    by_cases hp : st.position < limit
    · have hg : st.position < limit ∧ st.offset < tb.capacity := ⟨hp, by omega⟩
      have hl : ¬ frameLengthVolatile tb st.offset ≤ 0 := by rw [hlen]; omega
      simp only [hg, and_self, if_true, hl, if_false, hpad, Bool.false_eq_true]
      rw [hlen]
      have hal : align f.length FRAME_ALIGNMENT = alignedLength f.length := by
        rw [align_eq, wrap32_of_range (by omega) (by omega)]
      have e1 : wrap32 (st.offset + alignedLength f.length) = st.offset + alignedLength f.length :=
        wrap32_of_range (by omega) (by omega)
      have e3 : wrap32 (st.offset + alignedLength f.length - st.initialOffset) =
          alignedLength f.length := by
        rw [hio, wrap32_of_range (by omega) (by omega)]
        omega
      have e4 : wrap64 (st.position + alignedLength f.length) =
          st.position + alignedLength f.length := wrap64_of_range (by omega) (by omega)
      simp only [hal, e1, e3, e4]
      rcases hh : h st.handlerState (wrap32 (st.offset + DataFrameHeader.LENGTH))
        (wrap32 (f.length - DataFrameHeader.LENGTH)) with ⟨o, s1⟩
      have ho := hcont st.handlerState (wrap32 (st.offset + DataFrameHeader.LENGTH))
        (wrap32 (f.length - DataFrameHeader.LENGTH))
      rw [hh] at ho
      simp only at ho
      subst ho
      dsimp only
      rw [if_neg (show ¬ ControlledPollAction.CONTINUE = ControlledPollAction.ABORT by decide),
        if_neg (show ¬ ControlledPollAction.CONTINUE = ControlledPollAction.BREAK by decide)]
      have hun1 : Unpublished tb (st.offset + alignedLength f.length + framesLength fs) := by
        simp only [framesLength] at hun
        rw [add_assoc]
        exact hun
      obtain ⟨out, ho1, ho2⟩ := ih
        { initialOffset := st.offset + alignedLength f.length,
          offset := st.offset + alignedLength f.length,
          position := st.position + alignedLength f.length,
          resultingPosition :=
            if Int.land (tb.flagsByte st.offset) END_FRAG ≠ 0 then
              st.position + alignedLength f.length
            else st.resultingPosition,
          handlerState := s1,
          calls := st.calls ++ [(wrap32 (st.offset + DataFrameHeader.LENGTH),
            wrap32 (f.length - DataFrameHeader.LENGTH))] } m hrest
        (fun g hg => hdata g (List.mem_cons_of_mem _ hg)) hun1 rfl
        (by simp only; omega) (by simp only; unfold INT64_MIN; omega)
        (by simp only; unfold INT64_MAX; omega)
        (by simp only [List.length_cons] at hfuel; omega)
      refine ⟨out, ho1, ?_⟩
      rw [ho2]
      simp only [lastCompleteEnd, if_pos hp]
    · have hg : ¬ (st.position < limit ∧ st.offset < tb.capacity) := fun hc => hp hc.1
      simp only [hg, if_false]
      refine ⟨st, rfl, ?_⟩
      simp only [lastCompleteEnd, if_neg hp]

/-- The peek leaves the Image as it found it. -/
theorem controlledPeek_image {σ : Type} (img : Image) (ip : Int)
    (h : controlled_poll_fragment_handler_t σ) (s : σ) (limit : Int) (fuel : Nat)
    (r : PeekResult σ) (hr : img.controlledPeek fuel ip h s limit = some r) : r.image = img := by
  cases hopen : img.isClosed with
  | true =>
    rw [controlledPeek_closed img ip h s limit fuel hopen] at hr
    cases hr
    rfl
  | false =>
    cases hv : img.validatePosition ip with
    | some ex =>
      rw [controlledPeek_invalid img ip h s limit fuel ex hopen hv] at hr
      cases hr
      rfl
    | none =>
      rw [controlledPeek_open img ip h s limit fuel hopen hv] at hr
      obtain ⟨out, _, rfl⟩ := Option.map_eq_some'.mp hr
      rfl

/-- An open `controlledPeek` at a valid position returns when no length word inside the
term of that position exceeds the capacity and the fuel covers `capacity / 32 + 2` turns. -/
theorem controlledPeek_returns {σ : Type} (img : Image) (k : Nat) (ip : Int)
    (h : controlled_poll_fragment_handler_t σ) (s : σ) (limit : Int) (fuel : Nat)
    (hopen : img.isClosed = false) (hv : img.validatePosition ip = none)
    (hgeo : img.Geometry k) (hb : LengthsBounded (img.termBufferAt ip))
    (hfuel : (2:Int) ^ k + 64 ≤ 32 * fuel) :
    ∃ r, img.controlledPeek fuel ip h s limit = some r ∧ r.raised = none := by
  obtain ⟨_, o0, _, hcap, hle⟩ := geometry_at img k ip hgeo
  have hpos : (0:Int) < 2 ^ k := by positivity
  obtain ⟨out, hout⟩ := controlledPeekLoop_terminates (img.termBufferAt ip) h limit
    (by omega) hb fuel (img.peekStart ip s) o0 (by omega)
    (by simp only [Image.peekStart]; omega)
  rw [controlledPeek_open img ip h s limit fuel hopen hv, hout]
  exact ⟨_, rfl, rfl⟩

/-! ## C13: a peek does not publish -/

/-- C13. `controlledPeek` never publishes: for every `initialPosition`, handler,
`limitPosition`, log content and fuel, on an open or closed Image, the Image after the call,
and so its subscriber-position counter, is what it was before, whether the call returns
normally, the handler raises (the call then has handed an exception to the error handler) or
the validation fails; the call returns on a closed Image, on a rejected position, and at a
valid position when no length word of the term exceeds the capacity and the fuel covers the
term. -/
theorem C13_peek_never_publishes {σ : Type} (img : Image) (ip : Int)
    (h : controlled_poll_fragment_handler_t σ) (s : σ) (limit : Int) :
    (∀ (fuel : Nat) (r : PeekResult σ), img.controlledPeek fuel ip h s limit = some r →
      r.image = img ∧ r.image.subscriberPosition = img.subscriberPosition) ∧
    (img.isClosed = true → ∀ fuel : Nat, ∃ r, img.controlledPeek fuel ip h s limit = some r) ∧
    (img.isClosed = false → ∀ ex, img.validatePosition ip = some ex →
      ∀ fuel : Nat, ∃ r, img.controlledPeek fuel ip h s limit = some r ∧ r.raised = some ex) ∧
    (img.isClosed = false → img.validatePosition ip = none →
      ∀ (k : Nat) (fuel : Nat), img.Geometry k → LengthsBounded (img.termBufferAt ip) →
      (2:Int) ^ k + 64 ≤ 32 * fuel →
      ∃ r, img.controlledPeek fuel ip h s limit = some r ∧ r.raised = none) := by
  refine ⟨?_, ?_, ?_, ?_⟩
  · intro fuel r hr
    have := controlledPeek_image img ip h s limit fuel r hr
    exact ⟨this, by rw [this]⟩
  · intro hclosed fuel
    exact ⟨_, controlledPeek_closed img ip h s limit fuel hclosed⟩
  · intro hopen ex hv fuel
    exact ⟨_, controlledPeek_invalid img ip h s limit fuel ex hopen hv, rfl⟩
  · intro hopen hv k fuel hgeo hb hfuel
    exact controlledPeek_returns img k ip h s limit fuel hopen hv hgeo hb hfuel

/-- C13 at the example log with a handler that raises on the first frame: the peek hands one
exception to the error handler and the counter still holds 0; and at the misaligned
position 8 the validation fails and the counter still holds 0. -/
theorem C13_peek_never_publishes_witness :
    (∃ r, twoFrameImage.controlledPeek 40 0 raising 0 1000 = some r ∧
      r.errors.length = 1 ∧ r.calls = [(32, 16)] ∧ r.image = twoFrameImage ∧
      r.image.subscriberPosition = 0) ∧
    (∃ r, twoFrameImage.controlledPeek 40 8 raising 0 1000 = some r ∧
      r.raised ≠ none ∧ r.image.subscriberPosition = 0) := by
  have h0 := (C13_peek_never_publishes twoFrameImage 0 raising 0 1000).1 40
  have h8 := (C13_peek_never_publishes twoFrameImage 8 raising 0 1000).1 40
  have hr0 : twoFrameImage.controlledPeek 40 0 raising 0 1000 = some _ := rfl
  have hr8 : twoFrameImage.controlledPeek 40 8 raising 0 1000 = some _ := rfl
  exact ⟨⟨_, hr0, by decide, by decide, (h0 _ hr0).1, (h0 _ hr0).2⟩,
    ⟨_, hr8, by decide, (h8 _ hr8).2⟩⟩

/-! ## C14: peek completeness -/

/-- The geometry of the example Image over `fragmentedTerm`. -/
theorem fragmentedImage_geometry : fragmentedImage.Geometry 10 :=
  ⟨by decide, rfl, rfl, fun _ => rfl⟩

/-- C15. For an open Image, a valid `initialPosition` (with `std::int64_t` room above it)
and a handler that always returns CONTINUE, when the frames `fs`, all data frames, lie
published back to back from `initialPosition` and nothing is published after them,
`controlledPeek` returns, without raising, the end position of the last frame with END_FRAG
set among the frames that start before `limitPosition`, and `initialPosition` if there is
no such frame. -/
theorem C15_peek_last_complete {σ : Type} (img : Image) (k : Nat) (ip : Int)
    (h : controlled_poll_fragment_handler_t σ) (s : σ) (limit : Int) (fuel : Nat)
    (fs : List FrameDesc)
    (hopen : img.isClosed = false) (hgeo : img.Geometry k)
    (hvalid : img.validatePosition ip = none)
    (hlo : INT64_MIN ≤ ip) (hroom : ip + 2147483648 ≤ INT64_MAX)
    (hframes : FramesAt (img.termBufferAt ip) (img.termOffsetAt ip) fs)
    (hdata : ∀ f ∈ fs, f.padding = false)
    (hunpub : Unpublished (img.termBufferAt ip) (img.termOffsetAt ip + framesLength fs))
    (hcont : ∀ s o l, (h s o l).1 = Outcome.ret ControlledPollAction.CONTINUE)
    (hfuel : fs.length < fuel) :
    ∃ r, img.controlledPeek fuel ip h s limit = some r ∧
      r.raised = none ∧ r.errors = [] ∧
      r.resultingPosition =
        lastCompleteEnd (img.termBufferAt ip) limit ip (img.termOffsetAt ip) ip fs := by
  obtain ⟨e, o0, o1, hcap, hle⟩ := geometry_at img k ip hgeo
  obtain ⟨out, ho1, ho2⟩ := peek_frames (img.termBufferAt ip) h limit (by omega) hcont fs
    (img.peekStart ip s) fuel hframes hdata hunpub rfl o0 hlo
    (by simp only [Image.peekStart]; unfold INT64_MAX at hroom ⊢; omega) hfuel
  rw [controlledPeek_open img ip h s limit fuel hopen hvalid, ho1]
  exact ⟨_, rfl, rfl, rfl, ho2⟩

/-- C15 at the specification's example: frame A (no END_FRAG) at 0 and frame B (END_FRAG) at 64.
With `limitPosition = 1000`, past B, the peek from 0 returns 128, the end of B; with
`limitPosition = 64`, between A and B, it returns 0. -/
theorem C15_peek_last_complete_witness :
    (∃ r, fragmentedImage.controlledPeek 10 0 (always ControlledPollAction.CONTINUE) 0 1000
        = some r ∧ r.raised = none ∧ r.errors = [] ∧ r.resultingPosition = 128) ∧
    (∃ r, fragmentedImage.controlledPeek 10 0 (always ControlledPollAction.CONTINUE) 0 64
        = some r ∧ r.raised = none ∧ r.errors = [] ∧ r.resultingPosition = 0) := by
  have hfr : FramesAt (fragmentedImage.termBufferAt 0) (fragmentedImage.termOffsetAt 0)
      [⟨48, false⟩, ⟨40, false⟩] := by
    simp only [FramesAt]
    decide
  have hun : Unpublished (fragmentedImage.termBufferAt 0)
      (fragmentedImage.termOffsetAt 0 + framesLength [⟨48, false⟩, ⟨40, false⟩]) :=
    Or.inr (by decide)
  have hd : ∀ f ∈ [(⟨48, false⟩ : FrameDesc), ⟨40, false⟩], f.padding = false := by decide
  obtain ⟨r1, h1, h2, h3, h4⟩ := C15_peek_last_complete fragmentedImage 10 0
    (always ControlledPollAction.CONTINUE) 0 1000 10 [⟨48, false⟩, ⟨40, false⟩] rfl
    fragmentedImage_geometry rfl (by decide) (by decide) hfr hd hun (fun _ _ _ => rfl)
    (by decide)
  obtain ⟨r2, g1, g2, g3, g4⟩ := C15_peek_last_complete fragmentedImage 10 0
    (always ControlledPollAction.CONTINUE) 0 64 10 [⟨48, false⟩, ⟨40, false⟩] rfl
    fragmentedImage_geometry rfl (by decide) (by decide) hfr hd hun (fun _ _ _ => rfl)
    (by decide)
  exact ⟨⟨r1, h1, h2, h3, h4.trans (by decide)⟩, ⟨r2, g1, g2, g3, g4.trans (by decide)⟩⟩

/-! ## C16: the block of a blockPoll -/

/-- C16, the code at an input where it departs from the specified behaviour. Over three data frames of
aligned length 128 at offsets 0, 128 and 256 (C = 1024), with the counter at 128 and
`blockLengthLimit = 2147483647`, the specified block is that of the two remaining frames:
256 ≤ min(2147483647, 1024 - 128). In the code `termOffset + blockLengthLimit` is a
`std::int32_t` sum that comes out as -2147483521, `limitOffset` is that negative value, no
frame fits below it, and `blockPoll` returns 0 without invoking the handler or writing the
counter. With `blockLengthLimit = 300` at position 0, the specification's own example, the code
delivers (0, 256) for session 1 and term id 7, returns 256 and writes 256. -/
theorem C16_block_length_limit_overflow :
    threeFrameImageAt128.termOffset = 128 ∧
    wrap32 (threeFrameImageAt128.termOffset + 2147483647) = -2147483521 ∧
    min (2147483647 : Int)
      (threeFrameImageAt128.termBuffer.capacity - threeFrameImageAt128.termOffset) = 896 ∧
    (threeFrameImageAt128.blockPoll 10 blockCounting 0 2147483647).map
      (fun r => (r.result, r.calls, r.writes, r.image.subscriberPosition)) =
      some (0, [], [], 128) ∧
    (threeFrameImage.blockPoll 10 blockCounting 0 300).map
      (fun r => (r.result, r.calls, r.writes, r.image.subscriberPosition)) =
      some (256, [(0, 256, 1, 7)], [256], 256) :=
  ⟨by decide, by decide, by decide, rfl, rfl⟩

/-! ## C17: a raising block handler -/

/-- An open `blockPoll` returns when its scan does. -/
theorem blockPoll_of_scan {σ : Type} (img : Image) (fuel : Nat) (h : block_handler_t σ) (s : σ)
    (limit ro : Int) (hopen : img.isClosed = false)
    (hscan : TermBlockScanner.scan fuel img.termBuffer img.termOffset
      (min (wrap32 (img.termOffset + limit)) img.termBuffer.capacity) = some ro) :
    ∃ r, img.blockPoll fuel h s limit = some r := by
  unfold Image.blockPoll
  rw [if_pos (by rw [hopen]; rfl)]
  have hscan1 : TermBlockScanner.scan fuel
      (img.termBuffers (indexByPosition img.subscriberPosition img.positionBitsToShift))
      (wrap32 (Int.land img.subscriberPosition img.termLengthMask))
      (min (wrap32 (wrap32 (Int.land img.subscriberPosition img.termLengthMask) + limit))
        (img.termBuffers
          (indexByPosition img.subscriberPosition img.positionBitsToShift)).capacity) =
      some ro := hscan
  simp only [hscan1, Option.map_some']
  exact ⟨_, rfl⟩

/-- C17 fails as stated: over three frames of aligned length 128 with
`blockLengthLimit = 300`, a block handler that throws something that is not a
`std::exception` is invoked on (0, 256), nothing reaches the error handler, the throw
leaves `blockPoll` and the counter still holds 0, not 256; and over the two-frame log
with an error handler that itself throws, the exception of the block handler reaches the
error handler, whose throw leaves `blockPoll` with the counter still at 0, not 128. -/
theorem C17_uncaught_throw_counterexample :
    (threeFrameImage.blockPoll 10 blockThrowing 0 300).map
      (fun r => (r.propagated, r.errors, r.calls, r.writes, r.image.subscriberPosition)) =
      some (true, [], [(0, 256, 1, 7)], [], 0) ∧
    (throwingHandlerImage.blockPoll 10 blockRaising 0 300).map
      (fun r => (r.propagated, r.errors, r.calls, r.writes, r.image.subscriberPosition)) =
      some (true, [⟨"block handler failed"⟩], [(0, 128, 1, 7)], [], 0) ∧
    (0 : Int) ≠ 256 ∧ (0 : Int) ≠ 128 :=
  ⟨rfl, rfl, by decide, by decide⟩

/-- C17, amended. In an open `blockPoll` whose scan finds a non-empty block (the scanner
returns `ro > termOffset`), when the block handler raises an exception `ex` derived from
`std::exception` and the error handler returns on it, the call returns all the same: no
exception leaves it, `ex` goes to the error handler, the counter is written once with
position + length, and length is returned; result, write, Image and invocation are exactly
those of the call with a handler that returns normally, which hands nothing to the error
handler. -/
theorem C17_block_handler_exception {σ : Type} (img : Image) (k : Nat) (h : block_handler_t σ)
    (s : σ) (limit : Int) (fuel : Nat) (ro : Int) (ex : StdException)
    (hopen : img.isClosed = false) (hgeo : img.Geometry k)
    (hlo : INT64_MIN ≤ img.subscriberPosition)
    (hroom : img.subscriberPosition + 2147483648 ≤ INT64_MAX)
    (hscan : TermBlockScanner.scan fuel img.termBuffer img.termOffset
      (min (wrap32 (img.termOffset + limit)) img.termBuffer.capacity) = some ro)
    (hblock : ro > img.termOffset)
    (hraise : (h s img.termOffset (ro - img.termOffset) img.sessionId
      (termIdAt img.termBuffer img.termOffset)).1 = Outcome.raise (Thrown.std ex))
    (hhandler : img.exceptionHandler ex = Outcome.ret ()) :
    ∃ r, img.blockPoll fuel h s limit = some r ∧
      r.propagated = false ∧
      r.errors = [ex] ∧
      r.result = ro - img.termOffset ∧
      r.writes = [img.subscriberPosition + (ro - img.termOffset)] ∧
      r.image.subscriberPosition = img.subscriberPosition + (ro - img.termOffset) ∧
      r.calls = [(img.termOffset, ro - img.termOffset, img.sessionId,
        termIdAt img.termBuffer img.termOffset)] ∧
      ∀ h2 : block_handler_t σ,
        (h2 s img.termOffset (ro - img.termOffset) img.sessionId
          (termIdAt img.termBuffer img.termOffset)).1 = Outcome.ret () →
        ∃ r2, img.blockPoll fuel h2 s limit = some r2 ∧ r2.propagated = false ∧
          r2.errors = [] ∧
          r2.result = r.result ∧ r2.writes = r.writes ∧ r2.image = r.image ∧
          r2.calls = r.calls := by
  obtain ⟨_, o0, o1, _, hle⟩ := geometry_facts img k hgeo
  obtain ⟨r1, r2⟩ := scanLoop_range _ _ _ _ _ _ (by omega) (by omega) hscan
  unfold INT64_MIN at hlo
  unfold INT64_MAX at hroom
  have e1 : wrap32 (ro - img.termOffset) = ro - img.termOffset :=
    wrap32_of_range (by omega) (by omega)
  have e2 : wrap64 (img.subscriberPosition + (ro - img.termOffset)) =
      img.subscriberPosition + (ro - img.termOffset) :=
    wrap64_of_range (by omega) (by omega)
  have hall : ∀ (g : block_handler_t σ) (r : BlockPollResult σ),
      img.propagates (thrownBy (g s img.termOffset (ro - img.termOffset) img.sessionId
        (termIdAt img.termBuffer img.termOffset)).1) = false →
      img.blockPoll fuel g s limit = some r →
      r.propagated = false ∧
      r.result = ro - img.termOffset ∧
      r.writes = [img.subscriberPosition + (ro - img.termOffset)] ∧
      r.image = { img with subscriberPosition :=
        img.subscriberPosition + (ro - img.termOffset) } ∧
      r.calls = [(img.termOffset, ro - img.termOffset, img.sessionId,
        termIdAt img.termBuffer img.termOffset)] ∧
      r.errors = handedOver (thrownBy (g s img.termOffset (ro - img.termOffset) img.sessionId
        (termIdAt img.termBuffer img.termOffset)).1) := by
    intro g r hg hr
    obtain ⟨ro1, hro1, hyes, _⟩ := blockPoll_result img fuel g s limit r hopen hr
    rw [hscan] at hro1
    cases hro1
    obtain ⟨hc, _, he, hp, hkeep, _⟩ := hyes hblock
    rw [e1] at hc he hp
    have hp1 : r.propagated = false := hp.trans hg
    obtain ⟨hres, hw, hi⟩ := hkeep hp1
    rw [hres, e1] at hi
    rw [e1] at hres hw
    rw [e2] at hw hi
    exact ⟨hp1, hres, hw, hi, hc, he⟩
  obtain ⟨r, hr⟩ := blockPoll_of_scan img fuel h s limit ro hopen hscan
  have hcaught : img.propagates (thrownBy (h s img.termOffset (ro - img.termOffset)
      img.sessionId (termIdAt img.termBuffer img.termOffset)).1) = false := by
    rw [hraise]
    exact (propagates_std img ex).mpr ⟨(), hhandler⟩
  obtain ⟨a0, a1, a2, a3, a4, a5⟩ := hall h r hcaught hr
  rw [hraise] at a5
  refine ⟨r, hr, a0, a5, a1, a2, by rw [a3], a4, ?_⟩
  intro h2 hret
  obtain ⟨q, hq⟩ := blockPoll_of_scan img fuel h2 s limit ro hopen hscan
  have hnone : img.propagates (thrownBy (h2 s img.termOffset (ro - img.termOffset)
      img.sessionId (termIdAt img.termBuffer img.termOffset)).1) = false := by
    rw [hret]
    rfl
  obtain ⟨b0, b1, b2, b3, b4, b5⟩ := hall h2 q hnone hq
  rw [hret] at b5
  exact ⟨q, hq, b0, b5, by rw [b1, a1], by rw [b2, a2], by rw [b3, a3], by rw [b4, a4]⟩

/-- C17 amended, over three frames of aligned length 128 with `blockLengthLimit = 300`: the
raising handler is invoked once on (0, 256), its exception goes to the error handler,
which returns, 256 is returned and the counter is written with 256, as with the handler
that returns. -/
theorem C17_block_handler_exception_witness :
    threeFrameImage.isClosed = false ∧
    threeFrameImage.exceptionHandler ⟨"block handler failed"⟩ = Outcome.ret () ∧
    ∃ r, threeFrameImage.blockPoll 10 blockRaising 0 300 = some r ∧
      r.propagated = false ∧
      r.errors.length = 1 ∧ r.result = 256 ∧ r.writes = [256] ∧
      r.image.subscriberPosition = 256 ∧ r.calls = [(0, 256, 1, 7)] ∧
      ∃ r2, threeFrameImage.blockPoll 10 blockCounting 0 300 = some r2 ∧
        r2.propagated = false ∧ r2.errors = [] ∧
        r2.result = r.result ∧ r2.writes = r.writes ∧ r2.image = r.image ∧
        r2.calls = r.calls := by
  obtain ⟨r, hr, h0, h1, h2, h3, h4, h5, h6⟩ := C17_block_handler_exception threeFrameImage 10
    blockRaising 0 300 10 256 ⟨"block handler failed"⟩ rfl
    ⟨by decide, by decide, rfl, fun _ => show (1024 : Int) = 2 ^ 10 by decide⟩
    (by decide) (by decide) (by decide) (by decide) rfl rfl
  exact ⟨rfl, rfl, r, hr, h0, by rw [h1]; rfl, h2.trans (by decide), h3.trans (by decide),
    h4.trans (by decide), h5.trans (by decide), h6 blockCounting rfl⟩

/-! ## C18: padding frames -/

/-- `controlledPoll` with a handler that returns CONTINUE throughout, over a run of published
frames, padding frames among them, that ends at an unpublished frame or at the term end,
with a limit above the number of data frames. -/
theorem controlledPoll_continue_run {σ : Type} (img : Image) (k : Nat)
    (h : controlled_poll_fragment_handler_t σ) (s : σ) (limit : Int) (fuel : Nat)
    (fs : List FrameDesc)
    (hopen : img.isClosed = false) (hgeo : img.Geometry k) (hfit : img.PositionFits)
    (hframes : FramesAt img.termBuffer img.termOffset fs)
    (hstop : Unpublished img.termBuffer (img.termOffset + framesLength fs))
    (hcont : Answers h s (payloads img.termOffset fs)
      (List.replicate (dataCount fs) (Outcome.ret ControlledPollAction.CONTINUE)))
    (hlimit : (dataCount fs : Int) < limit) (hfuel : fs.length < fuel) :
    ∃ r, img.controlledPoll fuel h s limit = some r ∧
      r.result = dataCount fs ∧
      r.calls = payloads img.termOffset fs ∧
      r.image.subscriberPosition = img.subscriberPosition + framesLength fs ∧
      r.errors = [] := by
  obtain ⟨_, h0, _, hcap, hle⟩ := geometry_facts img k hgeo
  obtain ⟨hlo, hhi⟩ := position_fits_facts img k hgeo hfit
  obtain ⟨m, rfl⟩ := Nat.exists_eq_add_of_lt hfuel
  have hfu : fs.length + m + 1 = (m + 1) + fs.length := by omega
  rw [hfu]
  have hans := hcont
  rw [← List.map_replicate] at hans
  have hact : ∀ a ∈ List.replicate (dataCount fs) ControlledPollAction.CONTINUE,
      a = ControlledPollAction.CONTINUE ∨ a = ControlledPollAction.COMMIT :=
    fun a ha => Or.inl (List.eq_of_mem_replicate ha)
  rw [controlledPoll_frames img k h s limit (m + 1) fs _ hopen hgeo hfit hframes hans hact
    (WithinLimit_of_lt limit fs 0 (by omega))]
  have hbl : (payloads (img.scanStart s).resultingOffset fs).length =
      (List.replicate (dataCount fs) ControlledPollAction.CONTINUE).length := by
    rw [payloads_length, List.length_replicate]
  obtain ⟨bro, bfr, bcalls, bhs, _⟩ := afterFrames_basic h fs
    (List.replicate (dataCount fs) ControlledPollAction.CONTINUE) (img.scanStart s) hbl
  obtain ⟨cw, cip, cio, csp⟩ := afterFrames_continue h fs (dataCount fs) (img.scanStart s)
  generalize afterFrames h (img.scanStart s) fs
    (List.replicate (dataCount fs) ControlledPollAction.CONTINUE) = st at *
  simp only [Image.scanStart] at bro bfr bcalls bhs cw cip cio csp
  obtain ⟨hge, hlecap⟩ := FramesAt_end_le _ fs _ hframes (by omega)
  rw [loop_stops _ h limit m st (by right; rw [bro]; exact hstop)]
  simp only [Option.map_some']
  unfold INT64_MAX at hhi
  rw [controlledPollFinish_eq img _ none rfl (by omega) (by omega)
    (by rw [cip]; exact hlo) (by rw [cip, cio, bro]; unfold INT64_MAX; omega)]
  have hsub : img.subscriberPosition + (img.termOffset + framesLength fs - img.termOffset) =
      img.subscriberPosition + framesLength fs := by ring
  simp only [cio, cip, csp, cw, bro, bfr, bcalls, hsub]
  by_cases hadv : 0 < framesLength fs
  · have hgt : img.termOffset + framesLength fs > img.termOffset := by omega
    rw [if_pos hgt]
    exact ⟨_, rfl, by simp, by simp, rfl, rfl⟩
  · have hgt : ¬ (img.termOffset + framesLength fs > img.termOffset) := by omega
    have hz : framesLength fs = 0 := by omega
    rw [if_neg hgt]
    exact ⟨_, rfl, by simp, by simp, by simp [hz], rfl⟩

/-- C18 fails as stated for `fragmentLimit = 0`: at position 64 of the padded log the frame
at the current offset is a padding frame that fills the rest of the term, yet `poll` and
`controlledPoll` with limit 0 return 0 and leave the counter at 64, not at the term
boundary 1024. -/
theorem C18_zero_limit_counterexample :
    isPaddingFrame paddedImageAt64.termBuffer paddedImageAt64.termOffset = true ∧
    paddedImageAt64.termOffset +
      alignedLength (frameLengthVolatile paddedImageAt64.termBuffer paddedImageAt64.termOffset)
      = paddedImageAt64.termBuffer.capacity ∧
    (paddedImageAt64.poll 10 counting 0 0).map
      (fun r => (r.result, r.writes, r.image.subscriberPosition)) = some (0, [], 64) ∧
    (paddedImageAt64.controlledPoll 10 (always ControlledPollAction.CONTINUE) 0 0).map
      (fun r => (r.result, r.writes, r.image.subscriberPosition)) = some (0, [], 64) ∧
    (64 : Int) ≠ 1024 :=
  ⟨by decide, by decide, rfl, rfl, by decide⟩

/-- C18, amended. For an open Image over a run `fs` of published frames from the current
offset, padding frames among them, followed by nothing published, with handlers that return
normally (CONTINUE for the controlled one) and a fragmentLimit above the number of data
frames of the run (so at least 1): `poll` and `controlledPoll` invoke the handler on the
data frames only, return the number of data frames, and advance the counter by the aligned
lengths of all frames, padding included. When the run is one padding frame that fills the
rest of the term the calls return 0, invoke nothing and leave the counter at the next term
boundary. -/
theorem C18_padding_skipped {σ τ : Type} (img : Image) (k : Nat)
    (hp : fragment_handler_t σ) (sp : σ) (hc : controlled_poll_fragment_handler_t τ) (sc : τ)
    (limit : Int) (fuel : Nat) (fs : List FrameDesc)
    (hopen : img.isClosed = false) (hgeo : img.Geometry k) (hfit : img.PositionFits)
    (hframes : FramesAt img.termBuffer img.termOffset fs)
    (hstop : Unpublished img.termBuffer (img.termOffset + framesLength fs))
    (hreturns : Answers hp sp (payloads img.termOffset fs)
      (List.replicate (dataCount fs) (Outcome.ret ())))
    (hcont : Answers hc sc (payloads img.termOffset fs)
      (List.replicate (dataCount fs) (Outcome.ret ControlledPollAction.CONTINUE)))
    (hlimit : (dataCount fs : Int) < limit) (hfuel : fs.length < fuel) :
    (∃ r, img.poll fuel hp sp limit = some r ∧
      r.result = dataCount fs ∧ r.calls = payloads img.termOffset fs ∧
      r.image.subscriberPosition = img.subscriberPosition + framesLength fs) ∧
    (∃ r, img.controlledPoll fuel hc sc limit = some r ∧
      r.result = dataCount fs ∧ r.calls = payloads img.termOffset fs ∧
      r.image.subscriberPosition = img.subscriberPosition + framesLength fs) ∧
    (∀ f, fs = [f] → f.padding = true →
      img.termOffset + alignedLength f.length = img.termBuffer.capacity →
      (dataCount fs : Int) = 0 ∧ payloads img.termOffset fs = [] ∧
      img.subscriberPosition + framesLength fs =
        img.subscriberPosition - img.termOffset + img.termBuffer.capacity) := by
  refine ⟨?_, ?_, ?_⟩
  · have hcont1 := Answers_continueAfter hp _ _ sp hreturns
    obtain ⟨r, hr, h1, h2, h3, _⟩ := controlledPoll_continue_run img k (continueAfter hp) sp
      limit fuel fs hopen hgeo hfit hframes hstop hcont1 hlimit hfuel
    rw [controlledPoll_continueAfter] at hr
    exact ⟨r, hr, h1, h2, h3⟩
  · obtain ⟨r, hr, h1, h2, h3, _⟩ := controlledPoll_continue_run img k hc sc
      limit fuel fs hopen hgeo hfit hframes hstop hcont hlimit hfuel
    exact ⟨r, hr, h1, h2, h3⟩
  · intro f hfs hpad hend
    subst hfs
    simp only [dataCount, payloads, framesLength, hpad, if_true]
    refine ⟨by simp, trivial, by omega⟩

/-- C18 at the specification's example: C = 1024, a data frame of length 48 at offset 0 and padding
of length 960 at offset 64: `poll` with limit 10 returns 1, invokes the handler on the data
frame only and leaves the position at 1024. -/
theorem C18_padding_skipped_witness :
    paddedImage.isClosed = false ∧
    FramesAt paddedImage.termBuffer paddedImage.termOffset [⟨48, false⟩, ⟨960, true⟩] ∧
    (∃ r, paddedImage.poll 10 counting 0 10 = some r ∧
      r.result = 1 ∧ r.calls = [(32, 16)] ∧ r.image.subscriberPosition = 1024) ∧
    (∃ r, paddedImage.controlledPoll 10 (always ControlledPollAction.CONTINUE) 0 10 = some r ∧
      r.result = 1 ∧ r.calls = [(32, 16)] ∧ r.image.subscriberPosition = 1024) := by
  have hfr : FramesAt paddedImage.termBuffer paddedImage.termOffset
      [⟨48, false⟩, ⟨960, true⟩] := by
    have e : paddedImage.termOffset = 0 := by decide
    rw [e]
    simp only [FramesAt]
    decide
  obtain ⟨⟨r, hr, h1, h2, h3⟩, ⟨q, hq, g1, g2, g3⟩, _⟩ := C18_padding_skipped paddedImage 10
    counting 0 (always ControlledPollAction.CONTINUE) 0 10 10 [⟨48, false⟩, ⟨960, true⟩] rfl
    ⟨by decide, by decide, rfl, fun _ => show (1024 : Int) = 2 ^ 10 by decide⟩
    (by unfold Image.PositionFits; decide) hfr (Or.inl (by decide)) ⟨rfl, trivial⟩
    ⟨rfl, trivial⟩ (by decide) (by decide)
  exact ⟨rfl, hfr, ⟨r, hr, h1.trans (by decide), h2.trans (by decide), h3.trans (by decide)⟩,
    ⟨q, hq, g1.trans (by decide), g2.trans (by decide), g3.trans (by decide)⟩⟩

/-! ## C19: the counter never goes down -/

/-- The geometry of the Image over `fullTerm`. -/
theorem fullImage_geometry : fullImage.Geometry 30 :=
  ⟨by decide, by decide, rfl, fun _ => show (1073741824 : Int) = 2 ^ 30 by decide⟩

/-- No length word of `fullTerm` inside the term exceeds the capacity. -/
theorem fullImage_lengths : LengthsBounded fullImage.termBuffer := by
  intro offset _ _
  show (if offset = 0 ∨ offset = 1073741824 then (1073741824:Int) else 0) ≤ 1073741824
  split <;> decide

/-- C19, the code at an input where it departs from the specified behaviour. The term has
capacity 2^30 and is filled by one published data frame of length 2^30, positive and at
most the capacity (no length word inside the term exceeds it); the counter holds
3221225472, the start of that term, with 2 GiB of `std::int64_t` room above it, and
`boundedControlledPoll` is called with `maxPosition = 1073741823`.
`(maxPosition - initialPosition) + initialOffset` is -2147483649, and
`static_cast<std::int32_t>` turns it into 2147483647, so `endOffset` is above the capacity.
The handler answers CONTINUE on the frame at offset 0; the scan goes on at offset 2^30,
behind the term, where the memory reads as a frame of length 2^30, and `resultingOffset`
wraps to -2147483648; the handler answers COMMIT and the counter, which held 3221225472,
is written with 1073741824, a lower value. -/
theorem C19_bounded_poll_write_goes_down :
    fullImage.Geometry 30 ∧ LengthsBounded fullImage.termBuffer ∧
    PublishedBounded fullImage.termBuffer fullImage.termOffset ∧
    frameLengthVolatile fullImage.termBuffer 0 = fullImage.termBuffer.capacity ∧
    fullImage.termOffset = 0 ∧
    fullImage.endOffset 1073741823 = 2147483647 ∧
    (fullImage.boundedControlledPoll 10
      (scripted [ControlledPollAction.CONTINUE, ControlledPollAction.COMMIT]) 0 1073741823
      10).map (fun r => (r.result, r.calls, r.writes, r.image.subscriberPosition)) =
      some (2, [(32, 1073741792), (1073741856, 1073741792)], [1073741824], 1073741824) ∧
    ¬ NonDecreasingFrom fullImage.subscriberPosition [1073741824] :=
  ⟨fullImage_geometry, fullImage_lengths,
    publishedBounded_of_lengthsBounded _ _ (by decide) fullImage_lengths,
    by decide, by decide, by decide, by decide,
    fun hnd => absurd (show fullImage.subscriberPosition ≤ 1073741824 from hnd.1)
      (by decide)⟩

/-- Where the scan bound of `boundedControlledPoll` is inside the term the counter never goes
down. For a counter value with 2 GiB of `std::int64_t` room above it and published frames
whose length words are at most the capacity, every value that `poll`, `controlledPoll`,
`boundedControlledPoll` (with `endOffset ≤ capacity`, which holds for
`maxPosition ≥ position - 2^31`), `blockPoll` or `position(n)` writes to the counter is at
least the value the counter held just before that write, each COMMIT write and the
trailing write included, and the counter ends at the last written value. -/
theorem writes_never_decrease_in_range {σ : Type} (img : Image) (k : Nat)
    (hgeo : img.Geometry k) (hlo : INT64_MIN ≤ img.subscriberPosition)
    (hroom : img.subscriberPosition + 2147483648 ≤ INT64_MAX)
    (hb : PublishedBounded img.termBuffer img.termOffset) :
    (∀ (fuel : Nat) (h : fragment_handler_t σ) (s : σ) (limit : Int) (r : PollResult σ),
      img.poll fuel h s limit = some r →
      NonDecreasingFrom img.subscriberPosition r.writes ∧
      r.image.subscriberPosition = counterAfter img.subscriberPosition r.writes) ∧
    (∀ (fuel : Nat) (h : controlled_poll_fragment_handler_t σ) (s : σ) (limit : Int)
      (r : PollResult σ), img.controlledPoll fuel h s limit = some r →
      NonDecreasingFrom img.subscriberPosition r.writes ∧
      r.image.subscriberPosition = counterAfter img.subscriberPosition r.writes) ∧
    (∀ (fuel : Nat) (h : controlled_poll_fragment_handler_t σ) (s : σ)
      (maxPosition limit : Int) (r : PollResult σ),
      img.endOffset maxPosition ≤ img.termBuffer.capacity →
      img.boundedControlledPoll fuel h s maxPosition limit = some r →
      NonDecreasingFrom img.subscriberPosition r.writes ∧
      r.image.subscriberPosition = counterAfter img.subscriberPosition r.writes) ∧
    (∀ (fuel : Nat) (h : block_handler_t σ) (s : σ) (limit : Int) (r : BlockPollResult σ),
      img.blockPoll fuel h s limit = some r →
      NonDecreasingFrom img.subscriberPosition r.writes ∧
      r.image.subscriberPosition = counterAfter img.subscriberPosition r.writes) ∧
    (∀ n : Int, img.isClosed = false → (img.setPosition n).raised = none →
      (img.setPosition n).image.subscriberPosition = n ∧ img.subscriberPosition ≤ n) ∧
    (∀ maxPosition : Int, 0 ≤ img.subscriberPosition →
      img.subscriberPosition - 2147483648 ≤ maxPosition → maxPosition ≤ INT64_MAX →
      img.endOffset maxPosition ≤ img.termBuffer.capacity) := by
  refine ⟨?_, ?_, ?_, ?_, ?_, ?_⟩
  · intro fuel h s limit r hr
    exact poll_writes_ordered img fuel h s limit r hr
  · intro fuel h s limit r hr
    exact controlledPoll_writes_ordered img k hgeo hlo hroom hb fuel h s limit r hr
  · intro fuel h s maxPosition limit r hend hr
    exact boundedControlledPoll_writes_ordered img k hgeo hlo hroom hb fuel h s maxPosition
      limit r hend hr
  · intro fuel h s limit r hr
    exact blockPoll_writes_ordered img k hgeo hlo hroom fuel h s limit r hr
  · intro n hopen hnone
    unfold Image.setPosition at hnone ⊢
    rw [if_pos (by rw [hopen]; rfl)] at hnone ⊢
    cases hv : img.validatePosition n with
    | some ex =>
      rw [hv] at hnone
      simp at hnone
    | none =>
      refine ⟨rfl, ?_⟩
      unfold Image.validatePosition at hv
      simp only at hv
      split at hv
      · cases hv
      · omega
  · intro maxPosition h0 hmin hmax
    obtain ⟨_, _, _, hcap, _⟩ := geometry_facts img k hgeo
    rw [endOffset_eq img k maxPosition hgeo h0 hmin hmax, hcap]
    exact min_le_left _ _

/-! ## C20: every written position is frame-aligned -/

/-- C20. Alignment. If the counter holds a frame-aligned position when an operation starts,
every value that `poll`, `controlledPoll`, `boundedControlledPoll`, `blockPoll` or
`position(n)` writes to the counter satisfies `pos & (FRAME_ALIGNMENT - 1) = 0`, for every
log content, handler behaviour, limit, `maxPosition` and fuel; and on a log whose length
words inside the term do not exceed the capacity the calls return, with fuel for
`capacity / 32 + 2` turns. -/
theorem C20_writes_aligned {σ : Type} (img : Image)
    (hstart : Int.land img.subscriberPosition (FRAME_ALIGNMENT - 1) = 0) :
    (∀ (fuel : Nat) (h : fragment_handler_t σ) (s : σ) (limit : Int) (r : PollResult σ),
      img.poll fuel h s limit = some r →
      ∀ w ∈ r.writes, Int.land w (FRAME_ALIGNMENT - 1) = 0) ∧
    (∀ (fuel : Nat) (h : controlled_poll_fragment_handler_t σ) (s : σ) (limit : Int)
      (r : PollResult σ), img.controlledPoll fuel h s limit = some r →
      ∀ w ∈ r.writes, Int.land w (FRAME_ALIGNMENT - 1) = 0) ∧
    (∀ (fuel : Nat) (h : controlled_poll_fragment_handler_t σ) (s : σ)
      (maxPosition limit : Int) (r : PollResult σ),
      img.boundedControlledPoll fuel h s maxPosition limit = some r →
      ∀ w ∈ r.writes, Int.land w (FRAME_ALIGNMENT - 1) = 0) ∧
    (∀ (fuel : Nat) (h : block_handler_t σ) (s : σ) (limit : Int) (r : BlockPollResult σ),
      img.blockPoll fuel h s limit = some r →
      ∀ w ∈ r.writes, Int.land w (FRAME_ALIGNMENT - 1) = 0) ∧
    (∀ n : Int, img.isClosed = false → (img.setPosition n).raised = none →
      (img.setPosition n).image.subscriberPosition = n ∧
      Int.land n (FRAME_ALIGNMENT - 1) = 0) ∧
    (∀ (k : Nat) (fuel : Nat), img.Geometry k → LengthsBounded img.termBuffer →
      (2:Int) ^ k + 64 ≤ 32 * fuel →
      (∀ (h : fragment_handler_t σ) (s : σ) (limit : Int),
        ∃ r, img.poll fuel h s limit = some r) ∧
      (∀ (h : controlled_poll_fragment_handler_t σ) (s : σ) (limit : Int),
        ∃ r, img.controlledPoll fuel h s limit = some r) ∧
      (∀ (h : controlled_poll_fragment_handler_t σ) (s : σ) (maxPosition limit : Int),
        img.endOffset maxPosition ≤ img.termBuffer.capacity →
        ∃ r, img.boundedControlledPoll fuel h s maxPosition limit = some r) ∧
      (∀ (h : block_handler_t σ) (s : σ) (limit : Int),
        frameLengthVolatile img.termBuffer img.termBuffer.capacity ≤ 0 →
        ∃ r, img.blockPoll fuel h s limit = some r)) := by
  rw [land_frame_alignment] at hstart
  refine ⟨?_, ?_, ?_, ?_, ?_, ?_⟩
  · intro fuel h s limit r hr w hw
    rw [land_frame_alignment]
    rw [← controlledPoll_continueAfter] at hr
    exact controlledPoll_writes_aligned img hstart fuel _ s limit r hr w hw
  · intro fuel h s limit r hr w hw
    rw [land_frame_alignment]
    exact controlledPoll_writes_aligned img hstart fuel h s limit r hr w hw
  · intro fuel h s maxPosition limit r hr w hw
    rw [land_frame_alignment]
    exact boundedControlledPoll_writes_aligned img hstart fuel h s maxPosition limit r hr w hw
  · intro fuel h s limit r hr w hw
    rw [land_frame_alignment]
    exact blockPoll_writes_aligned img hstart fuel h s limit r hr w hw
  · intro n hopen hnone
    unfold Image.setPosition at hnone ⊢
    rw [if_pos (by rw [hopen]; rfl)] at hnone ⊢
    cases hv : img.validatePosition n with
    | some ex =>
      rw [hv] at hnone
      simp at hnone
    | none =>
      refine ⟨rfl, ?_⟩
      unfold Image.validatePosition at hv
      simp only at hv
      split at hv
      · cases hv
      · split at hv
        · cases hv
        · rename_i hne
          exact (not_not.mp hne).symm
  · intro k fuel hgeo hb hfuel
    refine ⟨?_, ?_, ?_, ?_⟩
    · intro h s limit
      exact poll_returns img k h s limit fuel hgeo hb hfuel
    · intro h s limit
      exact controlledPoll_returns img k h s limit fuel hgeo hb hfuel
    · intro h s maxPosition limit hend
      exact boundedControlledPoll_returns img k h s maxPosition limit fuel hgeo hb hend hfuel
    · intro h s limit hlast
      exact blockPoll_returns img k h s limit fuel hgeo hb hlast hfuel

/-- C20 at the example log: `controlledPoll` with COMMIT on both frames writes 64 and 128,
both frame-aligned. -/
theorem C20_writes_aligned_witness :
    Int.land twoFrameImage.subscriberPosition (FRAME_ALIGNMENT - 1) = 0 ∧
    ∃ r, twoFrameImage.controlledPoll 40 (always ControlledPollAction.COMMIT) 0 10 = some r ∧
      r.writes = [64, 128] ∧
      ∀ w ∈ r.writes, Int.land w (FRAME_ALIGNMENT - 1) = 0 := by
  have hc := @C20_writes_aligned Nat twoFrameImage (by decide)
  have hr : twoFrameImage.controlledPoll 40 (always ControlledPollAction.COMMIT) 0 10 = some _ :=
    rfl
  exact ⟨by decide, _, hr, by decide,
    hc.2.1 40 (always ControlledPollAction.COMMIT) 0 10 _ hr⟩

/-! ## The term index -/

/-- The arithmetic shift of `indexByPosition` is the floor division by the term length. -/
theorem shiftRight_eq_div (p : Int) (k : Nat) : Int.shiftRight p k = p / 2 ^ k := by
  have h := Int.shiftRight_eq_div_pow p k
  simpa using h

/-- The term index as a quotient: `(position / 2^k) mod 3`. -/
theorem indexByPosition_eq (p : Int) (k : Nat) :
    indexByPosition p k = (p / 2 ^ k) % 3 := by
  unfold indexByPosition PARTITION_COUNT
  rw [Int.toNat_ofNat, shiftRight_eq_div]

/-! ## C21: the term index and the term offset are in range -/

/-- C21. Bounded term index. For every position `p ≥ 0` and term capacity `C = 2^k`
(`k ≤ 30`, `positionBitsToShift = k`), `indexByPosition(p, k)` lies in
`[0, PARTITION_COUNT)`: the shifted position is non-negative, so the remainder is the same
whether it truncates or floors, and it is the term count `p / C` mod 3. The term offset
`p & (C - 1)` lies in `[0, C)` and the cast to `std::int32_t` keeps it. So for an Image
with that geometry the index each poll asserts on and the offset it starts from are in
range, at the counter value and at any position handed to `controlledPeek`. -/
theorem C21_bounded_term_index (p : Int) (k : Nat) (hp : 0 ≤ p) (hk : k ≤ 30) :
    (0 ≤ indexByPosition p k ∧ indexByPosition p k < PARTITION_COUNT) ∧
    indexByPosition p k = (p / 2 ^ k) % PARTITION_COUNT ∧
    0 ≤ Int.shiftRight p k ∧
    Int.tmod (Int.shiftRight p k) PARTITION_COUNT = indexByPosition p k ∧
    (0 ≤ Int.land p (2 ^ k - 1) ∧ Int.land p (2 ^ k - 1) < 2 ^ k) ∧
    wrap32 (Int.land p (2 ^ k - 1)) = Int.land p (2 ^ k - 1) ∧
    (∀ img : Image, img.Geometry k →
      (0 ≤ indexByPosition p img.positionBitsToShift ∧
        indexByPosition p img.positionBitsToShift < PARTITION_COUNT) ∧
      (0 ≤ img.termOffsetAt p ∧ img.termOffsetAt p < (img.termBufferAt p).capacity) ∧
      (img.subscriberPosition = p →
        0 ≤ img.termOffset ∧ img.termOffset < img.termBuffer.capacity)) := by
  have hpos : (0:Int) < 2 ^ k := by positivity
  have hle := two_pow_le_of_le_30 hk
  have hq : 0 ≤ p / 2 ^ k := Int.ediv_nonneg hp (le_of_lt hpos)
  have hidx := indexByPosition_eq p k
  have h0 := Int.emod_nonneg p (ne_of_gt hpos)
  have h1 := Int.emod_lt_of_pos p hpos
  have hrange : 0 ≤ indexByPosition p k ∧ indexByPosition p k < PARTITION_COUNT := by
    rw [hidx]
    unfold PARTITION_COUNT
    omega
  refine ⟨hrange, hidx, ?_, ?_, ?_, ?_, ?_⟩
  · rw [shiftRight_eq_div]
    exact hq
  · rw [hidx, shiftRight_eq_div]
    unfold PARTITION_COUNT
    exact Int.tmod_eq_emod hq (by decide)
  · rw [land_mask]
    exact ⟨h0, h1⟩
  · rw [land_mask]
    exact wrap32_of_range (by omega) (by omega)
  · intro img hgeo
    obtain ⟨e, o0, o1, hcap, _⟩ := geometry_at img k p hgeo
    refine ⟨by rw [hgeo.bits]; exact hrange, ⟨o0, by rw [hcap]; exact o1⟩, ?_⟩
    intro hsub
    obtain ⟨_, q0, q1, qcap, _⟩ := geometry_facts img k hgeo
    exact ⟨q0, by rw [qcap]; exact q1⟩

/-- C21 at position 3136 = 3 * 1024 + 64 of the example geometry (C = 1024): the term index
is 3 mod 3 = 0 and the term offset is 64. -/
theorem C21_bounded_term_index_witness :
    ((0 ≤ indexByPosition 3136 10 ∧ indexByPosition 3136 10 < PARTITION_COUNT) ∧
      indexByPosition 3136 10 = 0) ∧
    ((0 ≤ Int.land 3136 (2 ^ 10 - 1) ∧ Int.land 3136 (2 ^ 10 - 1) < 2 ^ 10) ∧
      Int.land 3136 (2 ^ 10 - 1) = 64) :=
  ⟨⟨(C21_bounded_term_index 3136 10 (by decide) (by decide)).1, by decide⟩,
    ⟨(C21_bounded_term_index 3136 10 (by decide) (by decide)).2.2.2.2.1, by decide⟩⟩

/-! ## C22: the fragment limit -/

/-- A property `Head` of the states in which the controlled scan tests its loop condition,
kept by the turns that go round the loop again (padding, COMMIT, CONTINUE), gives `Inv` in
the state the loop leaves, when `Head` implies `Inv` and the turns that leave the loop
(exception, ABORT, BREAK) establish `Inv`. -/
theorem controlledPollLoop_head_invariant {σ : Type} (tb : AtomicBuffer)
    (h : controlled_poll_fragment_handler_t σ) (limit endOffset : Int)
    (Head Inv : ControlledPollState σ → Prop)
    (hstop : ∀ st, Head st → Inv st)
    (hpad : ∀ st, Head st → st.fragmentsRead < limit → st.resultingOffset < endOffset →
      0 < frameLengthVolatile tb st.resultingOffset →
      isPaddingFrame tb st.resultingOffset = true →
      Head { st with resultingOffset := wrap32 (st.resultingOffset +
        align (frameLengthVolatile tb st.resultingOffset) FRAME_ALIGNMENT) })
    (hcont : ∀ st a s, Head st → st.fragmentsRead < limit → st.resultingOffset < endOffset →
      0 < frameLengthVolatile tb st.resultingOffset →
      isPaddingFrame tb st.resultingOffset = false →
      h st.handlerState (wrap32 (st.resultingOffset + DataFrameHeader.LENGTH))
        (wrap32 (frameLengthVolatile tb st.resultingOffset - DataFrameHeader.LENGTH))
        = (Outcome.ret a, s) →
      a = ControlledPollAction.COMMIT ∨ a = ControlledPollAction.CONTINUE →
      Head (handledState tb st (Outcome.ret a) s))
    (hexit : ∀ st out s, Head st → st.fragmentsRead < limit → st.resultingOffset < endOffset →
      0 < frameLengthVolatile tb st.resultingOffset →
      isPaddingFrame tb st.resultingOffset = false →
      h st.handlerState (wrap32 (st.resultingOffset + DataFrameHeader.LENGTH))
        (wrap32 (frameLengthVolatile tb st.resultingOffset - DataFrameHeader.LENGTH))
        = (out, s) →
      (∀ a, out = Outcome.ret a →
        a = ControlledPollAction.ABORT ∨ a = ControlledPollAction.BREAK) →
      Inv (handledState tb st out s)) :
    ∀ (fuel : Nat) (st : ControlledPollState σ) (out : ControlledPollState σ × Option Thrown),
      Head st → controlledPollLoop tb h limit endOffset fuel st = some out → Inv out.1 := by
  intro fuel
  induction fuel with
  | zero =>
    intro st out _ hrun
    simp [controlledPollLoop] at hrun
  | succ fuel ih =>
    intro st out hinv hrun
    rw [controlledPollLoop] at hrun
    by_cases hg : st.fragmentsRead < limit ∧ st.resultingOffset < endOffset
    · simp only [hg, and_self, if_true] at hrun
      by_cases hl : frameLengthVolatile tb st.resultingOffset ≤ 0
      · simp only [hl, if_true, Option.some.injEq] at hrun
        rw [← hrun]
        exact hstop _ hinv
      · simp only [hl, if_false] at hrun
        have hpos : 0 < frameLengthVolatile tb st.resultingOffset := not_le.mp hl
        cases hp : isPaddingFrame tb st.resultingOffset with
        | true =>
          simp only [hp, if_true] at hrun
          exact ih _ out (hpad st hinv hg.1 hg.2 hpos hp) hrun
        | false =>
          simp only [hp, Bool.false_eq_true, if_false] at hrun
          rcases hh : h st.handlerState (wrap32 (st.resultingOffset + DataFrameHeader.LENGTH))
            (wrap32 (frameLengthVolatile tb st.resultingOffset - DataFrameHeader.LENGTH))
            with ⟨o, s1⟩
          rw [hh] at hrun
          cases o with
          | raise ex =>
            simp only [Option.some.injEq] at hrun
            rw [← hrun]
            exact hexit st _ s1 hinv hg.1 hg.2 hpos hp hh (fun a ha => by cases ha)
          | ret action =>
            cases action with
            | ABORT =>
              simp only [if_true, Option.some.injEq] at hrun
              rw [← hrun]
              exact hexit st _ s1 hinv hg.1 hg.2 hpos hp hh
                (fun a ha => by cases ha; exact Or.inl rfl)
            | BREAK =>
              simp at hrun
              rw [← hrun]
              exact hexit st _ s1 hinv hg.1 hg.2 hpos hp hh
                (fun a ha => by cases ha; exact Or.inr rfl)
            | COMMIT =>
              simp at hrun
              exact ih _ out (hcont st _ s1 hinv hg.1 hg.2 hpos hp hh (Or.inl rfl)) hrun
            | CONTINUE =>
              simp at hrun
              exact ih _ out (hcont st _ s1 hinv hg.1 hg.2 hpos hp hh (Or.inr rfl)) hrun
    · simp only [hg, if_false, Option.some.injEq] at hrun
      rw [← hrun]
      exact hstop _ hinv

/-- The controlled scan counts at most `max(fragmentLimit, 0)` fragments and invokes the
handler at most that many times, whatever the log holds and whatever the scan bound is. -/
theorem controlledScan_count {σ : Type} (tb : AtomicBuffer)
    (h : controlled_poll_fragment_handler_t σ) (limit endOffset : Int) (fuel : Nat)
    (st : ControlledPollState σ) (out : ControlledPollState σ × Option Thrown)
    (hfr : st.fragmentsRead = 0) (hcalls : st.calls = [])
    (hout : controlledPollLoop tb h limit endOffset fuel st = some out) :
    0 ≤ out.1.fragmentsRead ∧ out.1.fragmentsRead ≤ max limit 0 ∧
    (out.1.calls.length : Int) ≤ max limit 0 := by
  refine controlledPollLoop_head_invariant tb h limit endOffset
    (fun st => 0 ≤ st.fragmentsRead ∧ st.fragmentsRead ≤ max limit 0 ∧
      (st.calls.length : Int) = st.fragmentsRead)
    (fun st => 0 ≤ st.fragmentsRead ∧ st.fragmentsRead ≤ max limit 0 ∧
      (st.calls.length : Int) ≤ max limit 0)
    ?_ ?_ ?_ ?_ fuel st out ⟨by omega, by rw [hfr]; exact le_max_right _ _,
      by rw [hcalls, hfr]; rfl⟩ hout
  · intro st hd
    exact ⟨hd.1, hd.2.1, by rw [hd.2.2]; exact hd.2.1⟩
  · intro st hd _ _ _ _
    exact hd
  · intro st a s hd hlim _ _ _ _ ha
    obtain ⟨d1, d2, d3⟩ := hd
    have hmax : st.fragmentsRead + 1 ≤ max limit 0 := le_max_of_le_left (by omega)
    rcases ha with ha | ha
    · subst ha
      refine ⟨?_, ?_, ?_⟩
      · show 0 ≤ st.fragmentsRead + 1
        omega
      · exact hmax
      · show ((st.calls ++ [_]).length : Int) = st.fragmentsRead + 1
        rw [List.length_append, List.length_singleton]
        push_cast
        omega
    · subst ha
      refine ⟨?_, ?_, ?_⟩
      · show 0 ≤ st.fragmentsRead + 1
        omega
      · exact hmax
      · show ((st.calls ++ [_]).length : Int) = st.fragmentsRead + 1
        rw [List.length_append, List.length_singleton]
        push_cast
        omega
  · intro st o s hd hlim _ _ _ _ ho
    obtain ⟨d1, d2, d3⟩ := hd
    have hmax : st.fragmentsRead + 1 ≤ max limit 0 := le_max_of_le_left (by omega)
    have hlen : ((st.calls ++ [(wrap32 (st.resultingOffset + DataFrameHeader.LENGTH),
        wrap32 (frameLengthVolatile tb st.resultingOffset - DataFrameHeader.LENGTH))]).length
        : Int) ≤ max limit 0 := by
      rw [List.length_append, List.length_singleton]
      push_cast
      omega
    cases o with
    | raise ex => exact ⟨d1, d2, hlen⟩
    | ret a =>
      rcases ho a rfl with ha | ha
      · subst ha
        exact ⟨d1, d2, hlen⟩
      · subst ha
        exact ⟨by show 0 ≤ st.fragmentsRead + 1; omega, hmax, hlen⟩

/-- With `fragmentLimit ≤ 0` the controlled scan leaves at once. -/
theorem controlledPollLoop_no_limit {σ : Type} (tb : AtomicBuffer)
    (h : controlled_poll_fragment_handler_t σ) (limit endOffset : Int) (fuel : Nat)
    (st : ControlledPollState σ) (hfr : st.fragmentsRead = 0) (hlimit : limit ≤ 0) :
    controlledPollLoop tb h limit endOffset (fuel + 1) st = some (st, none) := by
  rw [controlledPollLoop]
  have hg : ¬ (st.fragmentsRead < limit ∧ st.resultingOffset < endOffset) := by
    intro hc
    omega
  simp only [hg, if_false]

/-- The publish step after a scan that did not move writes nothing and leaves the Image,
the counter holding a `std::int64_t`. -/
theorem controlledPollFinish_scanStart {σ : Type} (img : Image) (s : σ)
    (hint : INT64_MIN ≤ img.subscriberPosition) :
    controlledPollFinish img (img.scanStart s, none) =
      { result := 0, image := img, handlerState := s, writes := [], calls := [],
        errors := [] } := by
  have e : wrap64 (img.subscriberPosition + wrap32 (img.termOffset - img.termOffset)) =
      wrap64 img.subscriberPosition := by
    rw [sub_self]
    have : wrap32 0 = 0 := by decide
    rw [this, add_zero]
  have hle : ¬ wrap64 img.subscriberPosition > img.subscriberPosition := by
    unfold INT64_MIN at hint
    unfold wrap64
    omega
  unfold controlledPollFinish
  simp only [Image.scanStart, propagates_none, Bool.false_eq_true, e, hle, if_false]
  rfl

/-- C22. For every `fragmentLimit`, log content, handler, `maxPosition` and fuel,
`controlledPoll` and `boundedControlledPoll` return a count `r` with
`0 ≤ r ≤ max(fragmentLimit, 0)` and invoke the handler at most `max(fragmentLimit, 0)`
times; with `fragmentLimit ≤ 0` (the counter holding a `std::int64_t`) they return 0, never
invoke the handler, write nothing and leave the Image as it was; and on a log whose length words inside the term do not exceed
the capacity the calls return, with fuel for `capacity / 32 + 2` turns. -/
theorem C22_fragment_limit {σ : Type} (img : Image) (h : controlled_poll_fragment_handler_t σ)
    (s : σ) (limit : Int) :
    (∀ (fuel : Nat) (r : PollResult σ), img.controlledPoll fuel h s limit = some r →
      0 ≤ r.result ∧ r.result ≤ max limit 0 ∧ (r.calls.length : Int) ≤ max limit 0) ∧
    (∀ (fuel : Nat) (maxPosition : Int) (r : PollResult σ),
      img.boundedControlledPoll fuel h s maxPosition limit = some r →
      0 ≤ r.result ∧ r.result ≤ max limit 0 ∧ (r.calls.length : Int) ≤ max limit 0) ∧
    (limit ≤ 0 → INT64_MIN ≤ img.subscriberPosition → ∀ (fuel : Nat),
      img.controlledPoll (fuel + 1) h s limit =
        some { result := 0, image := img, handlerState := s, writes := [], calls := [],
               errors := [] } ∧
      ∀ maxPosition : Int, img.boundedControlledPoll (fuel + 1) h s maxPosition limit =
        some { result := 0, image := img, handlerState := s, writes := [], calls := [],
               errors := [] }) ∧
    (∀ (k : Nat) (fuel : Nat), img.Geometry k → LengthsBounded img.termBuffer →
      (2:Int) ^ k + 64 ≤ 32 * fuel →
      (∃ r, img.controlledPoll fuel h s limit = some r) ∧
      (∀ maxPosition : Int, img.endOffset maxPosition ≤ img.termBuffer.capacity →
        ∃ r, img.boundedControlledPoll fuel h s maxPosition limit = some r)) := by
  refine ⟨?_, ?_, ?_, ?_⟩
  · intro fuel r hr
    cases hopen : img.isClosed with
    | true =>
      rw [controlledPoll_closed img h s limit fuel hopen] at hr
      cases hr
      exact ⟨le_refl _, le_max_right _ _, le_max_right _ _⟩
    | false =>
      rw [controlledPoll_open img h s limit fuel hopen] at hr
      obtain ⟨out, hout, rfl⟩ := Option.map_eq_some'.mp hr
      have hc := controlledScan_count _ h limit _ fuel _ out rfl rfl hout
      unfold controlledPollFinish
      simp only
      split
      · exact ⟨le_refl _, le_max_right _ _, hc.2.2⟩
      · split <;> exact hc
  · intro fuel maxPosition r hr
    cases hopen : img.isClosed with
    | true =>
      rw [boundedControlledPoll_closed img h s maxPosition limit fuel hopen] at hr
      cases hr
      exact ⟨le_refl _, le_max_right _ _, le_max_right _ _⟩
    | false =>
      rw [boundedControlledPoll_open img h s maxPosition limit fuel hopen] at hr
      obtain ⟨out, hout, rfl⟩ := Option.map_eq_some'.mp hr
      have hc := controlledScan_count _ h limit _ fuel _ out rfl rfl hout
      unfold controlledPollFinish
      simp only
      split
      · exact ⟨le_refl _, le_max_right _ _, hc.2.2⟩
      · split <;> exact hc
  · intro hlimit hint fuel
    cases hopen : img.isClosed with
    | true =>
      exact ⟨controlledPoll_closed img h s limit _ hopen,
        fun maxPosition => boundedControlledPoll_closed img h s maxPosition limit _ hopen⟩
    | false =>
      refine ⟨?_, fun maxPosition => ?_⟩
      · rw [controlledPoll_open img h s limit _ hopen,
          controlledPollLoop_no_limit _ h limit _ fuel _ rfl hlimit, Option.map_some',
          controlledPollFinish_scanStart img s hint]
      · rw [boundedControlledPoll_open img h s maxPosition limit _ hopen,
          controlledPollLoop_no_limit _ h limit _ fuel _ rfl hlimit, Option.map_some',
          controlledPollFinish_scanStart img s hint]
  · intro k fuel hgeo hb hfuel
    exact ⟨controlledPoll_returns img k h s limit fuel hgeo hb hfuel,
      fun maxPosition hend =>
        boundedControlledPoll_returns img k h s maxPosition limit fuel hgeo hb hend hfuel⟩

/-- C22 at the example log: with `fragmentLimit = 1` one of the two frames is delivered and
1 is returned; with `fragmentLimit = 0` nothing is delivered or written. -/
theorem C22_fragment_limit_witness :
    (∃ r, twoFrameImage.controlledPoll 40 (always ControlledPollAction.CONTINUE) 0 1 = some r ∧
      r.result = 1 ∧ r.calls = [(32, 16)] ∧
      0 ≤ r.result ∧ r.result ≤ max 1 0 ∧ (r.calls.length : Int) ≤ max 1 0) ∧
    twoFrameImage.controlledPoll 40 (always ControlledPollAction.CONTINUE) 0 0 =
      some { result := 0, image := twoFrameImage, handlerState := 0, writes := [], calls := [],
             errors := [] } := by
  have hr : twoFrameImage.controlledPoll 40 (always ControlledPollAction.CONTINUE) 0 1
      = some _ := rfl
  exact ⟨⟨_, hr, by decide, by decide,
    (C22_fragment_limit twoFrameImage (always ControlledPollAction.CONTINUE) 0 1).1 40 _ hr⟩,
    ((C22_fragment_limit twoFrameImage (always ControlledPollAction.CONTINUE) 0 0).2.2.1
      (by decide) (by decide) 39).1⟩

/-! ## C23: boundedControlledPoll with a bound at or past the term end -/

/-- C23. For an Image with the constructor's geometry, a counter value `p ≥ 0` and every
`std::int64_t` `maxPosition` at or past the end of the current term, `p - (p & mask) + C`,
the bound `endOffset` is the capacity, so for every log content, handler, `fragmentLimit`
and fuel `boundedControlledPoll(handler, maxPosition, fragmentLimit)` is
`controlledPoll(handler, fragmentLimit)`: same handler invocations, same count, same
sequence of counter writes, same Image; and both return once the fuel covers
`capacity / 32 + 2` turns on a log whose length words inside the term do not exceed the
capacity. -/
theorem C23_bounded_is_controlledPoll {σ : Type} (img : Image) (k : Nat)
    (h : controlled_poll_fragment_handler_t σ) (s : σ) (maxPosition limit : Int)
    (hgeo : img.Geometry k) (h0 : 0 ≤ img.subscriberPosition)
    (hmax : img.subscriberPosition - Int.land img.subscriberPosition img.termLengthMask
      + img.termBuffer.capacity ≤ maxPosition)
    (hint : maxPosition ≤ INT64_MAX) :
    img.endOffset maxPosition = img.termBuffer.capacity ∧
    (∀ fuel : Nat, img.boundedControlledPoll fuel h s maxPosition limit =
      img.controlledPoll fuel h s limit) ∧
    (∀ fuel : Nat, LengthsBounded img.termBuffer → (2:Int) ^ k + 64 ≤ 32 * fuel →
      ∃ r, img.boundedControlledPoll fuel h s maxPosition limit = some r ∧
        img.controlledPoll fuel h s limit = some r) := by
  obtain ⟨e, o0, o1, hcap, hle⟩ := geometry_facts img k hgeo
  rw [hgeo.mask, land_mask, hcap] at hmax
  have hend : img.endOffset maxPosition = img.termBuffer.capacity := by
    rw [endOffset_eq img k maxPosition hgeo h0 (by omega) hint, hcap, e]
    exact min_eq_left (by omega)
  have heq : ∀ fuel : Nat, img.boundedControlledPoll fuel h s maxPosition limit =
      img.controlledPoll fuel h s limit := by
    intro fuel
    cases hopen : img.isClosed with
    | true =>
      rw [boundedControlledPoll_closed img h s maxPosition limit fuel hopen,
        controlledPoll_closed img h s limit fuel hopen]
    | false =>
      rw [boundedControlledPoll_open img h s maxPosition limit fuel hopen,
        controlledPoll_open img h s limit fuel hopen, hend]
  refine ⟨hend, heq, ?_⟩
  intro fuel hb hfuel
  obtain ⟨r, hr⟩ := controlledPoll_returns img k h s limit fuel hgeo hb hfuel
  exact ⟨r, by rw [heq fuel]; exact hr, hr⟩

/-- C23 at the example log with `maxPosition = 1024`, the end of the term: both polls
deliver (32, 16) and (96, 8), return 2 and write 64 and 128 with a COMMIT handler. -/
theorem C23_bounded_is_controlledPoll_witness :
    twoFrameImage.subscriberPosition
      - Int.land twoFrameImage.subscriberPosition twoFrameImage.termLengthMask
      + twoFrameImage.termBuffer.capacity ≤ 1024 ∧
    twoFrameImage.boundedControlledPoll 40 (always ControlledPollAction.COMMIT) 0 1024 10 =
      twoFrameImage.controlledPoll 40 (always ControlledPollAction.COMMIT) 0 10 ∧
    (twoFrameImage.controlledPoll 40 (always ControlledPollAction.COMMIT) 0 10).map
      (fun r => (r.result, r.calls, r.writes)) = some (2, [(32, 16), (96, 8)], [64, 128]) :=
  ⟨by decide,
    (C23_bounded_is_controlledPoll twoFrameImage 10 (always ControlledPollAction.COMMIT) 0 1024
      10 twoFrameImage_geometry (by decide) (by decide) (by decide)).2.1 40,
    by decide⟩

/-! ## C24: crossing into the next term -/

/-- C25, the code at an input where it departs from the specified behaviour. The term
(C = 1024) holds a data frame of length 48 at offset 0 and padding of length 960 at offset
64, so every length word inside the term is positive and at most C; the counter holds
3221225472, the start of the term, and `maxPosition` is 0. The cast to `std::int32_t`
makes `endOffset` 1073741824, above C, so `boundedControlledPoll` goes on at offset 1024:
it reads the frame length there, past the term buffer, and hands the handler the payload at
offset 1056 of what lies behind the term; the counter ends 1088 past the term start.
`controlledPoll` on the same Image stops at offset 1024. -/
theorem C25_bounded_poll_reads_past_term :
    LengthsBounded overrunImage.termBuffer ∧
    overrunImage.termBuffer.capacity = 1024 ∧
    overrunImage.termOffset = 0 ∧
    overrunImage.endOffset 0 = 1073741824 ∧
    ¬ (overrunImage.endOffset 0 ≤ overrunImage.termBuffer.capacity) ∧
    (overrunImage.boundedControlledPoll 10 (always ControlledPollAction.CONTINUE) 0 0 10).map
      (fun r => (r.result, r.calls, r.writes)) =
      some (2, [(32, 16), (1056, 8)], [3221226560]) ∧
    (overrunImage.controlledPoll 10 (always ControlledPollAction.CONTINUE) 0 10).map
      (fun r => (r.result, r.calls, r.writes)) =
      some (1, [(32, 16)], [3221226496]) := by
  refine ⟨?_, by decide, by decide, by decide, by decide, by decide, by decide⟩
  intro offset _ hlt
  have hlt1 : offset < 1024 := hlt
  show (if offset = 0 then (48:Int) else if offset = 64 then 960 else
    if offset = 1024 then 40 else 0) ≤ 1024
  split
  · decide
  · split
    · decide
    · split
      · omega
      · decide

/-! ## C26: the peek of a closed Image -/

/-- C26. On a closed Image `controlledPeek(initialPosition, handler, limitPosition)` returns
`initialPosition` itself, for every `initialPosition` (no validation takes place), handler,
`limitPosition`, log content and fuel: nothing is raised, the handler is not invoked,
nothing goes to the error handler and the Image is unchanged. -/
theorem C26_closed_peek_returns_initial {σ : Type} (img : Image) (ip : Int)
    (h : controlled_poll_fragment_handler_t σ) (s : σ) (limit : Int) (fuel : Nat)
    (hclosed : img.isClosed = true) :
    img.controlledPeek fuel ip h s limit =
      some { resultingPosition := ip, raised := none, image := img, handlerState := s,
             calls := [], errors := [] } :=
  controlledPeek_closed img ip h s limit fuel hclosed

/-- C26 at the closed example Image and the misaligned position 5: the open Image raises,
the closed one returns 5 (not 0) without raising or invoking the handler. -/
theorem C26_closed_peek_returns_initial_witness :
    twoFrameImage.close.isClosed = true ∧
    (twoFrameImage.controlledPeek 10 5 (always ControlledPollAction.CONTINUE) 0 1000).map
      (fun r => r.raised.isSome) = some true ∧
    (twoFrameImage.close.controlledPeek 10 5 (always ControlledPollAction.CONTINUE) 0 1000).map
      (fun r => (r.resultingPosition, r.raised.isSome, r.calls, r.errors.length)) =
      some (5, false, [], 0) :=
  ⟨rfl, by decide,
    by rw [C26_closed_peek_returns_initial twoFrameImage.close 5
      (always ControlledPollAction.CONTINUE) 0 1000 10 rfl]; rfl⟩

end Aeron
